import Mathlib

/-!
Verification of the session-aware call-correlation and pending-operation
lifecycle manager of the browser-mcp repository.

The embedding models, over `List Char` strings and association lists (the
insertion-ordered JS `Map`):
  * the call-id codec of `session.js` (`generateCallId`,
    `extractSessionIdFromCallId`);
  * the shared browser state of `state.ts` (`setConnected`, `addTab`,
    `updateTab`, `removeTab`, `updateTabTools`);
  * the session table of `session.js` (`createSession`, `getSession`,
    `getOrCreateSession`, `deleteSession`) — timestamp bookkeeping
    (`createdAt`, `lastActivityAt`) is elided since it only feeds the idle
    sweep's clock comparisons;
  * the pending-operation bookkeeping and inbound message router of
    `extension-client.ts` (`handleExtensionMessage`,
    `rejectAllSessionPendingOps`, `connectToExtension`, `openTab`,
    `closeTab`, `callPageTool`, `discoverToolsForTab`).

Promise continuations are modelled as numeric tokens allocated at issue
time; a step of the system returns the list of completions (token paired
with a resolve/reject outcome) performed during the step.  JS timers are
modelled as an explicit set of armed timers; firing a timer is a step of
the transition system.  Session objects live in an append-only heap and
the session table maps ids to heap indices, so that an object orphaned by
`createSession`'s overwrite or removed by `deleteSession` is still
reachable from the timer closures that captured it, exactly as in JS.
-/

abbrev Str := List Char

/-! ### Association-list operations mirroring the JS `Map` -/

def mGet [DecidableEq κ] (m : List (κ × α)) (k : κ) : Option α :=
  match m with
  | [] => none
  | (k', v) :: rest => if k' = k then some v else mGet rest k

/-- `Map.set`: replace in place if present, else append (JS insertion order). -/
def mSet [DecidableEq κ] (m : List (κ × α)) (k : κ) (v : α) : List (κ × α) :=
  match m with
  | [] => [(k, v)]
  | (k', v') :: rest => if k' = k then (k, v) :: rest else (k', v') :: mSet rest k v

/-- `Map.delete`: removes the entry of key `k` (keys are unique in a JS `Map`). -/
def mDel [DecidableEq κ] (m : List (κ × α)) (k : κ) : List (κ × α) :=
  match m with
  | [] => []
  | (k', v') :: rest => if k' = k then rest else (k', v') :: mDel rest k

theorem mGet_mSet_self [DecidableEq κ] (m : List (κ × α)) (k : κ) (v : α) :
    mGet (mSet m k v) k = some v := by
  induction m with
  | nil => simp [mGet, mSet]
  | cons e rest ih =>
    by_cases h : e.1 = k <;> simp [mGet, mSet, h, ih]

theorem mGet_mSet_ne [DecidableEq κ] (m : List (κ × α)) (k k' : κ) (v : α)
    (h : k' ≠ k) : mGet (mSet m k v) k' = mGet m k' := by
  have h' : k ≠ k' := Ne.symm h
  induction m with
  | nil => simp [mGet, mSet, h']
  | cons e rest ih =>
    by_cases he : e.1 = k <;> by_cases he' : e.1 = k' <;>
      simp_all [mGet, mSet, h']

theorem mGet_mDel_ne [DecidableEq κ] (m : List (κ × α)) (k k' : κ)
    (h : k' ≠ k) : mGet (mDel m k) k' = mGet m k' := by
  induction m with
  | nil => simp [mDel]
  | cons e rest ih =>
    by_cases he : e.1 = k <;> by_cases he' : e.1 = k' <;>
      simp_all [mGet, mDel]

theorem mGet_eq_none_of_not_mem_keys [DecidableEq κ] (m : List (κ × α)) (k : κ)
    (h : k ∉ m.map Prod.fst) : mGet m k = none := by
  induction m with
  | nil => rfl
  | cons e rest ih =>
    simp only [List.map_cons, List.mem_cons] at h
    push_neg at h
    simp [mGet, Ne.symm h.1, ih h.2]

theorem mSet_eq_append [DecidableEq κ] (m : List (κ × α)) (k : κ) (v : α)
    (h : mGet m k = none) : mSet m k v = m ++ [(k, v)] := by
  induction m with
  | nil => rfl
  | cons e rest ih =>
    by_cases he : e.1 = k
    · simp [mGet, he] at h
    · simp only [mGet, he, if_neg] at h
      simp [mSet, he, ih h]

theorem mGet_append_left [DecidableEq κ] (m m' : List (κ × α)) (k : κ) (v : α)
    (h : mGet m k = some v) : mGet (m ++ m') k = some v := by
  induction m with
  | nil => simp [mGet] at h
  | cons e rest ih =>
    by_cases he : e.1 = k <;> simp_all [mGet]

theorem mGet_append_right [DecidableEq κ] (m m' : List (κ × α)) (k : κ)
    (h : mGet m k = none) : mGet (m ++ m') k = mGet m' k := by
  induction m with
  | nil => rfl
  | cons e rest ih =>
    by_cases he : e.1 = k <;> simp_all [mGet]

theorem mGet_mem [DecidableEq κ] (m : List (κ × α)) (k : κ) (v : α)
    (h : mGet m k = some v) : (k, v) ∈ m := by
  induction m with
  | nil => simp [mGet] at h
  | cons e rest ih =>
    obtain ⟨ek, ev⟩ := e
    by_cases he : ek = k
    · subst he
      simp only [mGet, if_pos] at h
      injection h with h
      subst h
      exact List.mem_cons_self _ _
    · simp only [mGet, he, if_false, if_neg, not_false_iff] at h
      exact List.mem_cons_of_mem _ (ih h)

theorem mem_mGet [DecidableEq κ] (m : List (κ × α)) (k : κ) (v : α)
    (hnd : (m.map Prod.fst).Nodup) (h : (k, v) ∈ m) : mGet m k = some v := by
  induction m with
  | nil => simp at h
  | cons e rest ih =>
    simp only [List.map_cons, List.nodup_cons] at hnd
    rcases List.mem_cons.1 h with h1 | h2
    · subst h1; simp [mGet]
    · have hk : e.1 ≠ k := by
        intro he
        exact hnd.1 (he ▸ List.mem_map_of_mem Prod.fst h2)
      simp [mGet, hk, ih hnd.2 h2]

/-! ### Decimal rendering of the per-session counter

The JS template literal `${++session.callIdCounter}` renders the counter in
decimal.  `Nat.toDigits 10` is the fuel-based decimal renderer of the Lean
core library; `natToCharsSpec` below is a structurally transparent
specification that `Nat.toDigits 10` is proved to coincide with. -/

def natToCharsSpec (n : Nat) : List Char :=
  if _h : n < 10 then [Nat.digitChar n]
  else natToCharsSpec (n / 10) ++ [Nat.digitChar (n % 10)]
decreasing_by exact Nat.div_lt_self (by omega) (by omega)

theorem toDigitsCore_eq_spec (fuel n : Nat) (ds : List Char) (h : n < fuel) :
    Nat.toDigitsCore 10 fuel n ds = natToCharsSpec n ++ ds := by
  induction fuel generalizing n ds with
  | zero => omega
  | succ f ih =>
    rw [Nat.toDigitsCore]
    by_cases h10 : n < 10
    · have hdiv : n / 10 = 0 := Nat.div_eq_of_lt h10
      have hmod : n % 10 = n := Nat.mod_eq_of_lt h10
      rw [natToCharsSpec]
      simp [hdiv, hmod, h10]
    · have hdiv : n / 10 ≠ 0 := by omega
      have hlt : n / 10 < f := by omega
      rw [natToCharsSpec]
      simp only [h10, dif_neg, not_false_iff]
      simp [hdiv, ih _ _ hlt, List.append_assoc]

theorem toDigits_eq_spec (n : Nat) : Nat.toDigits 10 n = natToCharsSpec n := by
  have := toDigitsCore_eq_spec (n + 1) n [] (Nat.lt_succ_self n)
  simpa [Nat.toDigits] using this

def digitVal (c : Char) : Nat := c.toNat - '0'.toNat

theorem digitVal_digitChar (m : Nat) (h : m < 10) :
    digitVal (Nat.digitChar m) = m := by
  interval_cases m <;> rfl

theorem digitChar_ne_underscore (m : Nat) (h : m < 10) :
    Nat.digitChar m ≠ '_' := by
  interval_cases m <;> decide

def decodeDigits (l : List Char) : Nat :=
  l.foldl (fun acc c => acc * 10 + digitVal c) 0

theorem foldl_decode_append (l : List Char) (a : Nat) :
    List.foldl (fun acc c => acc * 10 + digitVal c) a l =
      a * 10 ^ l.length + List.foldl (fun acc c => acc * 10 + digitVal c) 0 l := by
  induction l generalizing a with
  | nil => simp
  | cons c rest ih =>
    simp only [List.foldl_cons, List.length_cons]
    rw [ih (a * 10 + digitVal c), ih (0 * 10 + digitVal c)]
    ring

theorem decodeDigits_spec (n : Nat) : decodeDigits (natToCharsSpec n) = n := by
  induction n using Nat.strong_induction_on with
  | _ n ih =>
    rw [natToCharsSpec]
    by_cases h : n < 10
    · simp [h, decodeDigits, digitVal_digitChar n h]
    · simp only [h, dif_neg, not_false_iff]
      have hlt : n / 10 < n := Nat.div_lt_self (by omega) (by omega)
      have := ih (n / 10) hlt
      simp only [decodeDigits] at this ⊢
      rw [List.foldl_append, List.foldl_cons, List.foldl_nil, this,
        digitVal_digitChar (n % 10) (Nat.mod_lt n (by omega))]
      omega

theorem natToCharsSpec_inj (a b : Nat) (h : natToCharsSpec a = natToCharsSpec b) :
    a = b := by
  have ha := decodeDigits_spec a
  have hb := decodeDigits_spec b
  rw [h] at ha
  omega

theorem toDigits_inj (a b : Nat) (h : Nat.toDigits 10 a = Nat.toDigits 10 b) :
    a = b := by
  rw [toDigits_eq_spec, toDigits_eq_spec] at h
  exact natToCharsSpec_inj a b h

theorem underscore_not_mem_spec (n : Nat) : '_' ∉ natToCharsSpec n := by
  induction n using Nat.strong_induction_on with
  | _ n ih =>
    rw [natToCharsSpec]
    by_cases h : n < 10
    · simp [h, digitChar_ne_underscore n h, Ne.symm (digitChar_ne_underscore n h)]
    · simp only [h, dif_neg, not_false_iff, List.mem_append, List.mem_singleton]
      push_neg
      refine ⟨ih (n / 10) (Nat.div_lt_self (by omega) (by omega)), ?_⟩
      exact Ne.symm (digitChar_ne_underscore (n % 10) (Nat.mod_lt n (by omega)))

theorem underscore_not_mem_toDigits (n : Nat) : '_' ∉ Nat.toDigits 10 n := by
  rw [toDigits_eq_spec]; exact underscore_not_mem_spec n

/-! ### The call-id codec of `session.js`

`generateCallId` builds `` `${session.id}_${prefix}_${++session.callIdCounter}` ``;
`extractSessionIdFromCallId` splits on `"_"`, and when at least three
segments exist locates the last two underscores and returns the text before
the second-to-last one (when that index is positive). -/

/-- `String.prototype.split(sep)` for a single-character separator. -/
def splitChar (sep : Char) : List Char → List (List Char)
  | [] => [[]]
  | c :: rest =>
    let r := splitChar sep rest
    if c = sep then [] :: r
    else
      match r with
      | [] => [[c]]
      | h :: t => (c :: h) :: t

/-- Index of the last occurrence of `c` at position `≤ b`, or `-1`
(the search core of `String.prototype.lastIndexOf`). -/
def lastIndexOfLe (c : Char) : List Char → Nat → Int
  | [], _ => -1
  | x :: xs, b =>
    match b with
    | 0 => if x = c then 0 else -1
    | Nat.succ b' =>
      let r := lastIndexOfLe c xs b'
      if r ≥ 0 then r + 1 else if x = c then 0 else -1

/-- `str.lastIndexOf(c)`: ECMAScript start position is the string length. -/
def jsLastIndexOf (c : Char) (l : List Char) : Int :=
  lastIndexOfLe c l l.length

/-- `str.lastIndexOf(c, pos)`: the start position is `min(max(pos,0),len)`. -/
def jsLastIndexOfFrom (c : Char) (l : List Char) (pos : Int) : Int :=
  lastIndexOfLe c l (min (max pos 0) (l.length : Int)).toNat

def defaultSessionId : Str := "default".toList

def pfxCall : Str := "call".toList

def pfxOpen : Str := "open".toList

def pfxDiscover : Str := "discover".toList

/-- The string built by `generateCallId`: `sessionId_prefix_counter`. -/
def mkCallId (id pfx : Str) (n : Nat) : Str :=
  id ++ '_' :: (pfx ++ '_' :: Nat.toDigits 10 n)

/-- `extractSessionIdFromCallId` of `session.js`. -/
def extractSessionIdFromCallId (callId : Str) : Option Str :=
  let parts := splitChar '_' callId
  if parts.length ≥ 3 then
    let lastUnderscoreIndex := jsLastIndexOf '_' callId
    let secondLastUnderscoreIndex :=
      jsLastIndexOfFrom '_' callId (lastUnderscoreIndex - 1)
    if secondLastUnderscoreIndex > 0 then
      some (callId.take secondLastUnderscoreIndex.toNat)
    else none
  else none

theorem splitChar_ne_nil (sep : Char) (l : List Char) : splitChar sep l ≠ [] := by
  cases l with
  | nil => simp [splitChar]
  | cons c rest =>
    simp only [splitChar]
    by_cases h : c = sep
    · simp [h]
    · simp only [h, if_false, if_neg, not_false_iff]
      cases splitChar sep rest <;> simp

theorem splitChar_length (sep : Char) (l : List Char) :
    (splitChar sep l).length = l.count sep + 1 := by
  induction l with
  | nil => simp [splitChar]
  | cons c rest ih =>
    simp only [splitChar]
    by_cases h : c = sep
    · subst h
      simp [List.count_cons, ih]
    · simp only [h, if_false, if_neg, not_false_iff]
      rcases hr : splitChar sep rest with _ | ⟨hd, tl⟩
      · exact absurd hr (splitChar_ne_nil sep rest)
      · have := ih
        rw [hr] at this
        simp only [List.length_cons] at this ⊢
        rw [List.count_cons]
        simp [h, ← this]

theorem lastIndexOfLe_of_not_mem (c : Char) (l : List Char) (b : Nat)
    (h : c ∉ l) : lastIndexOfLe c l b = -1 := by
  induction l generalizing b with
  | nil => rfl
  | cons x xs ih =>
    simp only [List.mem_cons] at h
    push_neg at h
    cases b with
    | zero => simp [lastIndexOfLe, Ne.symm h.1]
    | succ b' => simp [lastIndexOfLe, ih b' h.2, Ne.symm h.1]

theorem lastIndexOfLe_of_not_mem_take (c : Char) (l : List Char) (b : Nat)
    (h : c ∉ l.take (b + 1)) : lastIndexOfLe c l b = -1 := by
  induction l generalizing b with
  | nil => rfl
  | cons x xs ih =>
    simp only [List.take_succ_cons, List.mem_cons] at h
    push_neg at h
    cases b with
    | zero => simp [lastIndexOfLe, Ne.symm h.1]
    | succ b' => simp [lastIndexOfLe, ih b' h.2, Ne.symm h.1]

theorem lastIndexOfLe_append_last (c : Char) (xs ys : List Char) (b : Nat)
    (hys : c ∉ ys) (hb : xs.length ≤ b) :
    lastIndexOfLe c (xs ++ c :: ys) b = xs.length := by
  induction xs generalizing b with
  | nil =>
    cases b with
    | zero => simp [lastIndexOfLe]
    | succ b' =>
      simp [lastIndexOfLe, lastIndexOfLe_of_not_mem c ys b' hys]
  | cons x xs' ih =>
    cases b with
    | zero => simp at hb
    | succ b' =>
      have hb' : xs'.length ≤ b' := by simpa using hb
      have hrec := ih b' hb'
      have hpos : (0 : Int) ≤ (xs'.length : Int) := Int.ofNat_nonneg _
      simp only [List.cons_append, lastIndexOfLe, List.append_eq, hrec, ge_iff_le,
        hpos, if_pos, List.length_cons]
      push_cast
      ring

theorem lastIndexOfLe_append_mid (c : Char) (xs rest : List Char) (b : Nat)
    (h : c ∉ rest.take b) :
    lastIndexOfLe c (xs ++ c :: rest) (xs.length + b) = xs.length := by
  induction xs generalizing b with
  | nil =>
    cases b with
    | zero => simp [lastIndexOfLe]
    | succ b' =>
      have : lastIndexOfLe c rest b' = -1 := lastIndexOfLe_of_not_mem_take c rest b' h
      simp [lastIndexOfLe, this]
  | cons x xs' ih =>
    have hrec := ih b h
    have harith : (x :: xs').length + b = Nat.succ (xs'.length + b) := by
      simp only [List.length_cons]
      omega
    have hpos : (0 : Int) ≤ (xs'.length : Int) := Int.ofNat_nonneg _
    rw [List.cons_append, harith]
    simp only [lastIndexOfLe, List.append_eq, hrec, ge_iff_le, hpos, if_pos,
      List.length_cons]
    push_cast
    ring

theorem take_append_left (l₁ l₂ : List Char) : (l₁ ++ l₂).take l₁.length = l₁ := by
  induction l₁ with
  | nil => simp
  | cons x xs ih => simp [ih]

theorem count_mkCallId (id p : Str) (n : Nat) (hp : '_' ∉ p) :
    (mkCallId id p n).count '_' = id.count '_' + 2 := by
  have hd : '_' ∉ Nat.toDigits 10 n := underscore_not_mem_toDigits n
  simp [mkCallId, List.count_append, List.count_cons,
    List.count_eq_zero_of_not_mem hp, List.count_eq_zero_of_not_mem hd]

theorem mkCallId_assoc (id p : Str) (n : Nat) :
    mkCallId id p n = (id ++ '_' :: p) ++ '_' :: Nat.toDigits 10 n := by
  simp [mkCallId]

theorem jsLastIndexOf_mkCallId (id p : Str) (n : Nat) :
    jsLastIndexOf '_' (mkCallId id p n) = ((id.length + 1 + p.length : Nat) : Int) := by
  have hd : '_' ∉ Nat.toDigits 10 n := underscore_not_mem_toDigits n
  rw [jsLastIndexOf, mkCallId_assoc]
  have hb : (id ++ '_' :: p).length ≤ ((id ++ '_' :: p) ++ '_' :: Nat.toDigits 10 n).length := by
    simp
  rw [lastIndexOfLe_append_last '_' _ _ _ hd hb]
  simp
  omega

theorem jsLastIndexOfFrom_mkCallId (id p : Str) (n : Nat) (hp : '_' ∉ p) :
    jsLastIndexOfFrom '_' (mkCallId id p n)
      (((id.length + 1 + p.length : Nat) : Int) - 1) = (id.length : Int) := by
  have hlen : (mkCallId id p n).length
      = id.length + 1 + p.length + 1 + (Nat.toDigits 10 n).length := by
    simp [mkCallId]
    omega
  have hb : (min (max (((id.length + 1 + p.length : Nat) : Int) - 1) 0)
      ((mkCallId id p n).length : Int)).toNat = id.length + p.length := by
    rw [hlen]
    push_cast
    omega
  rw [jsLastIndexOfFrom, hb]
  have htake : '_' ∉ (p ++ '_' :: Nat.toDigits 10 n).take p.length := by
    rw [take_append_left]
    exact hp
  have := lastIndexOfLe_append_mid '_' id (p ++ '_' :: Nat.toDigits 10 n) p.length htake
  rw [mkCallId]
  exact this

/-- Round trip of the codec: for a non-empty session id — even one containing
the separator — and an underscore-free operation prefix, decoding recovers
exactly the session id. -/
theorem extract_mkCallId (id p : Str) (n : Nat) (hid : id ≠ []) (hp : '_' ∉ p) :
    extractSessionIdFromCallId (mkCallId id p n) = some id := by
  have hguard : (splitChar '_' (mkCallId id p n)).length ≥ 3 := by
    rw [splitChar_length, count_mkCallId id p n hp]
    omega
  have hidpos : 0 < id.length := List.length_pos.2 hid
  have hpos : jsLastIndexOfFrom '_' (mkCallId id p n)
      (jsLastIndexOf '_' (mkCallId id p n) - 1) = (id.length : Int) := by
    rw [jsLastIndexOf_mkCallId id p n]
    exact jsLastIndexOfFrom_mkCallId id p n hp
  simp only [extractSessionIdFromCallId, hguard, if_true, if_pos, hpos]
  have hgt : ((id.length : Nat) : Int) > 0 := by
    omega
  rw [if_pos hgt]
  have : ((id.length : Nat) : Int).toNat = id.length := Int.toNat_ofNat _
  rw [this, mkCallId, take_append_left]

theorem firstSep_inj (p p' s s' : Str) (hp : '_' ∉ p) (hp' : '_' ∉ p')
    (h : p ++ '_' :: s = p' ++ '_' :: s') : p = p' ∧ s = s' := by
  induction p generalizing p' with
  | nil =>
    cases p' with
    | nil => simpa using h
    | cons y ys =>
      simp only [List.nil_append, List.cons_append, List.cons.injEq] at h
      exfalso
      exact hp' (h.1 ▸ List.mem_cons_self y ys)
  | cons x xs ih =>
    cases p' with
    | nil =>
      simp only [List.nil_append, List.cons_append, List.cons.injEq] at h
      exfalso
      exact hp (h.1 ▸ List.mem_cons_self x xs)
    | cons y ys =>
      simp only [List.cons_append, List.cons.injEq] at h
      have hx : '_' ∉ xs := fun hm => hp (List.mem_cons_of_mem x hm)
      have hy : '_' ∉ ys := fun hm => hp' (List.mem_cons_of_mem y hm)
      obtain ⟨h1, h2⟩ := ih ys hx hy h.2
      exact ⟨by rw [h.1, h1], h2⟩

theorem mkCallId_inj (id p p' : Str) (n n' : Nat) (hp : '_' ∉ p) (hp' : '_' ∉ p')
    (h : mkCallId id p n = mkCallId id p' n') : p = p' ∧ n = n' := by
  unfold mkCallId at h
  have h2 := List.append_cancel_left h
  injection h2 with _ h3
  obtain ⟨h4, h5⟩ := firstSep_inj p p' _ _ hp hp' h3
  exact ⟨h4, toDigits_inj n n' h5⟩

theorem extract_eq_none_of_count_lt (cid : Str) (h : cid.count '_' < 2) :
    extractSessionIdFromCallId cid = none := by
  have hguard : ¬ (splitChar '_' cid).length ≥ 3 := by
    rw [splitChar_length]
    omega
  simp only [extractSessionIdFromCallId, hguard, if_false, if_neg, not_false_iff]

theorem extract_ne_some_nil (cid id : Str)
    (h : extractSessionIdFromCallId cid = some id) : id ≠ [] := by
  simp only [extractSessionIdFromCallId] at h
  split at h
  case isFalse => simp at h
  case isTrue hguard =>
    split at h
    case isFalse => simp at h
    case isTrue hgt =>
      have hcid : cid ≠ [] := by
        intro hc
        subst hc
        simp [splitChar] at hguard
      injection h with h
      subst h
      intro hnil
      rcases List.take_eq_nil_iff.1 hnil with h0 | h0
      · omega
      · exact hcid h0

/-! ### Data model: `types.ts` and the shared browser state of `state.ts` -/

structure Tool where
  name : Str
  description : Str
  inputSchema : Str
deriving DecidableEq

structure TabInfo where
  id : Nat
  title : Str
  url : Str
  tools : List Tool
deriving DecidableEq

structure BrowserInfo where
  name : Str
  version : Str
deriving DecidableEq

structure BrowserState where
  connected : Bool
  tabs : List (Nat × TabInfo)
  browserInfo : Option BrowserInfo
deriving DecidableEq

def createInitialState : BrowserState :=
  { connected := false, tabs := [], browserInfo := none }

/-- `setConnected` of `state.ts`: stores the flag and info, and clears the
tab map whenever the flag is set to false. -/
def setConnected (st : BrowserState) (connected : Bool)
    (browserInfo : Option BrowserInfo) : BrowserState :=
  { st with
    connected := connected
    browserInfo := browserInfo
    tabs := if connected then st.tabs else [] }

def addTab (st : BrowserState) (tab : TabInfo) : BrowserState :=
  { st with tabs := mSet st.tabs tab.id tab }

def updateTab (st : BrowserState) (tab : TabInfo) : BrowserState :=
  { st with tabs := mSet st.tabs tab.id tab }

def removeTab (st : BrowserState) (tabId : Nat) : BrowserState :=
  { st with tabs := mDel st.tabs tabId }

def updateTabTools (st : BrowserState) (tabId : Nat) (tools : List Tool) :
    BrowserState :=
  match mGet st.tabs tabId with
  | some tab => { st with tabs := mSet st.tabs tabId { tab with tools := tools } }
  | none => st

/-! ### Sessions and pending operations

A pending operation records the token of the promise whose continuations it
captured, and (except for tool calls) the JS timer handle stored with it.
`callPageTool` / `discoverToolsForTab` in `extension-client.ts` store only
`{ resolve, reject }` — no timeout handle — so `PendingCall` has no timer
field; the `setTimeout` they start is tracked separately as an armed timer
that re-checks membership when it fires. -/

structure PendingCall where
  token : Nat
deriving DecidableEq

structure PendingOpenTabOperation where
  token : Nat
  timeout : Nat
deriving DecidableEq

structure PendingCloseTabOperation where
  token : Nat
  timeout : Nat
deriving DecidableEq

structure PendingConnect where
  token : Nat
  timeout : Nat
deriving DecidableEq

/-- A session record (`session.js`).  `createdAt`/`lastActivityAt` are
elided: they only feed the idle sweep's clock comparison. -/
structure Session where
  id : Str
  callIdCounter : Nat
  pendingCalls : List (Str × PendingCall)
  pendingOpenTabs : List (Str × PendingOpenTabOperation)
  pendingCloseTabs : List (Nat × PendingCloseTabOperation)
  pendingConnect : Option PendingConnect
  connectInProgress : Bool
deriving DecidableEq

/-- `generateCallId`: `` `${session.id}_${prefix}_${++session.callIdCounter}` ``,
returning the id together with the session whose counter was incremented. -/
def generateCallId (s : Session) (pfx : Str) : Str × Session :=
  (mkCallId s.id pfx (s.callIdCounter + 1),
   { s with callIdCounter := s.callIdCounter + 1 })

/-- The tokens of every operation currently pending on a session, in
container order (calls, open tabs, close tabs, connect). -/
def Session.pendingTokens (s : Session) : List Nat :=
  s.pendingCalls.map (fun e => e.2.token)
    ++ s.pendingOpenTabs.map (fun e => e.2.token)
    ++ s.pendingCloseTabs.map (fun e => e.2.token)
    ++ (match s.pendingConnect with
        | some p => [p.token]
        | none => [])

/-- The four timer closures created by the operations of
`extension-client.ts`, each capturing the session object (a heap index),
the key it guards, and the reject continuation (a token). -/
inductive TimerKind where
  | callTimeout (obj : Nat) (callId : Str) (token : Nat)
  | openTabTimeout (obj : Nat) (requestId : Str) (token : Nat)
  | closeTabTimeout (obj : Nat) (tabId : Nat) (token : Nat)
  | connectTimeout (obj : Nat) (token : Nat)
deriving DecidableEq

inductive Reason where
  | notConnected
  | connectAlreadyInProgress
  | alreadyClosing (tabId : Nat)
  | timedOut
  | connectionClosed
  | sessionClosed
  | remoteError (msg : Str)
deriving DecidableEq

inductive Outcome where
  | resolved
  | rejected (r : Reason)
deriving DecidableEq

/-- A completion: one invocation of a promise continuation. -/
abbrev Completion := Nat × Outcome

/-- Global state: the socket flag of `ws` handling, the shared browser
state, the session table (id → heap index), the heap of session objects
(append-only: JS objects captured by closures outlive the table entry),
the armed timers, and the fresh-id counters. -/
structure World where
  socketConnected : Bool
  browser : BrowserState
  table : List (Str × Nat)
  heap : List Session
  timers : List (Nat × TimerKind)
  nextTimer : Nat
  nextToken : Nat
deriving DecidableEq

def World.pendingTokens (w : World) : List Nat :=
  w.heap.flatMap Session.pendingTokens

def initialWorld : World :=
  { socketConnected := false, browser := createInitialState, table := [],
    heap := [], timers := [], nextTimer := 0, nextToken := 0 }

/-- `createSession`: fresh record with empty containers; `sessions.set`
overwrites the table entry in place, orphaning any previous object. -/
def createSession (w : World) (sid : Str) : World × Nat :=
  let obj := w.heap.length
  let s : Session :=
    { id := sid, callIdCounter := 0, pendingCalls := [], pendingOpenTabs := [],
      pendingCloseTabs := [], pendingConnect := none, connectInProgress := false }
  ({ w with heap := w.heap ++ [s], table := mSet w.table sid obj }, obj)

/-- `getSession`: table lookup (the `lastActivityAt` touch is elided). -/
def getSession (w : World) (sid : Str) : Option (Nat × Session) :=
  match mGet w.table sid with
  | none => none
  | some obj =>
    match w.heap[obj]? with
    | none => none
    | some s => some (obj, s)

/-- `getOrCreateSession`: lookup, else create. -/
def getOrCreateSession (w : World) (sid : Str) : World × Nat :=
  match mGet w.table sid with
  | some obj => (w, obj)
  | none => createSession w sid

def setObj (w : World) (obj : Nat) (s : Session) : World :=
  { w with heap := w.heap.set obj s }

def clearTimeoutW (w : World) (t : Nat) : World :=
  { w with timers := mDel w.timers t }

/-- `clearTimeout` for every stored pending handle of a session: the
open-tab, close-tab and connect entries carry handles; the tool-call
entries store none (`clearTimeout(undefined)` is a no-op). -/
def drainTimers (w : World) (s : Session) : World :=
  let w1 := s.pendingOpenTabs.foldl (fun acc e => clearTimeoutW acc e.2.timeout) w
  let w2 := s.pendingCloseTabs.foldl (fun acc e => clearTimeoutW acc e.2.timeout) w1
  match s.pendingConnect with
  | some p => clearTimeoutW w2 p.timeout
  | none => w2

/-- `rejectAllSessionPendingOps` of `extension-client.ts`: reject and clear
all four containers (resetting `connectInProgress`), cancelling the stored
timers of the open/close/connect entries. -/
def rejectAllSessionPendingOps (w : World) (obj : Nat) (reason : Reason) :
    World × List Completion :=
  match w.heap[obj]? with
  | none => (w, [])
  | some s =>
    let comps := s.pendingTokens.map (fun t => (t, Outcome.rejected reason))
    let w1 := drainTimers w s
    let s' := { s with
      pendingCalls := [], pendingOpenTabs := [], pendingCloseTabs := [],
      pendingConnect := none, connectInProgress := false }
    (setObj w1 obj s', comps)

/-- `deleteSession` of `session.js`: drain every container with
"Session closed", cancel stored timers, remove the table entry.  Unlike
`rejectAllSessionPendingOps` it does not reset `connectInProgress`. -/
def deleteSession (w : World) (sid : Str) : World × List Completion :=
  match getSession w sid with
  | none => (w, [])
  | some (obj, s) =>
    let comps := s.pendingTokens.map (fun t => (t, Outcome.rejected Reason.sessionClosed))
    let w1 := drainTimers w s
    let s' := { s with
      pendingCalls := [], pendingOpenTabs := [], pendingCloseTabs := [],
      pendingConnect := none }
    let w2 := setObj w1 obj s'
    ({ w2 with table := mDel w2.table sid }, comps)

/-! ### The public operations of `extension-client.ts` -/

/-- `connectToExtension`: per-session singleton connect.  The
`connectInProgress` guard is checked before the socket, then a 5s timer is
armed and the singleton slot filled. -/
def connectToExtension (w : World) (sid : Str) : World × List Completion :=
  let r := getOrCreateSession w sid
  let token := r.1.nextToken
  let w2 : World := { r.1 with nextToken := r.1.nextToken + 1 }
  match w2.heap[r.2]? with
  | none => (w2, [])
  | some s =>
    if s.connectInProgress then
      (w2, [(token, Outcome.rejected Reason.connectAlreadyInProgress)])
    else if w2.socketConnected = false then
      (w2, [(token, Outcome.rejected Reason.notConnected)])
    else
      let timer := w2.nextTimer
      let s' := { s with
        connectInProgress := true
        pendingConnect := some { token := token, timeout := timer } }
      ({ setObj w2 r.2 s' with
          timers := w2.timers ++ [(timer, TimerKind.connectTimeout r.2 token)]
          nextTimer := w2.nextTimer + 1 }, [])

/-- `openTab`: rejects synchronously when not connected, else registers a
pending open-tab under a fresh request id with a 30s timer. -/
def openTab (w : World) (sid : Str) (_url : Str) : World × List Completion :=
  let token := w.nextToken
  let w0 : World := { w with nextToken := w.nextToken + 1 }
  if w0.socketConnected = false then
    (w0, [(token, Outcome.rejected Reason.notConnected)])
  else
    let r := getOrCreateSession w0 sid
    match r.1.heap[r.2]? with
    | none => (r.1, [])
    | some s =>
      let g := generateCallId s pfxOpen
      let timer := r.1.nextTimer
      let s2 := { g.2 with
        pendingOpenTabs := mSet g.2.pendingOpenTabs g.1
          { token := token, timeout := timer } }
      ({ setObj r.1 r.2 s2 with
          timers := r.1.timers ++ [(timer, TimerKind.openTabTimeout r.2 g.1 token)]
          nextTimer := r.1.nextTimer + 1 }, [])

/-- `closeTab`: rejects synchronously when not connected; rejects with
"Already closing tab" when this session already has a pending close for the
tab id; else registers the pending close with a 5s timer. -/
def closeTab (w : World) (sid : Str) (tabId : Nat) : World × List Completion :=
  let token := w.nextToken
  let w0 : World := { w with nextToken := w.nextToken + 1 }
  if w0.socketConnected = false then
    (w0, [(token, Outcome.rejected Reason.notConnected)])
  else
    let r := getOrCreateSession w0 sid
    match r.1.heap[r.2]? with
    | none => (r.1, [])
    | some s =>
      if (mGet s.pendingCloseTabs tabId).isSome then
        (r.1, [(token, Outcome.rejected (Reason.alreadyClosing tabId))])
      else
        let timer := r.1.nextTimer
        let s2 := { s with
          pendingCloseTabs := mSet s.pendingCloseTabs tabId
            { token := token, timeout := timer } }
        ({ setObj r.1 r.2 s2 with
            timers := r.1.timers ++ [(timer, TimerKind.closeTabTimeout r.2 tabId token)]
            nextTimer := r.1.nextTimer + 1 }, [])

/-- `callPageTool`: registers the pending call storing only the
continuations (no timeout handle), then arms a 30s timer whose closure
re-checks membership before rejecting. -/
def callPageTool (w : World) (sid : Str) (_tabId : Nat) (_toolName : Str) :
    World × List Completion :=
  let token := w.nextToken
  let w0 : World := { w with nextToken := w.nextToken + 1 }
  if w0.socketConnected = false then
    (w0, [(token, Outcome.rejected Reason.notConnected)])
  else
    let r := getOrCreateSession w0 sid
    match r.1.heap[r.2]? with
    | none => (r.1, [])
    | some s =>
      let g := generateCallId s pfxCall
      let s2 := { g.2 with
        pendingCalls := mSet g.2.pendingCalls g.1 { token := token } }
      let timer := r.1.nextTimer
      ({ setObj r.1 r.2 s2 with
          timers := r.1.timers ++ [(timer, TimerKind.callTimeout r.2 g.1 token)]
          nextTimer := r.1.nextTimer + 1 }, [])

/-- `discoverToolsForTab`: same shape as `callPageTool` with the
"discover" prefix and a 10s timer. -/
def discoverToolsForTab (w : World) (sid : Str) (_tabId : Nat) :
    World × List Completion :=
  let token := w.nextToken
  let w0 : World := { w with nextToken := w.nextToken + 1 }
  if w0.socketConnected = false then
    (w0, [(token, Outcome.rejected Reason.notConnected)])
  else
    let r := getOrCreateSession w0 sid
    match r.1.heap[r.2]? with
    | none => (r.1, [])
    | some s =>
      let g := generateCallId s pfxDiscover
      let s2 := { g.2 with
        pendingCalls := mSet g.2.pendingCalls g.1 { token := token } }
      let timer := r.1.nextTimer
      ({ setObj r.1 r.2 s2 with
          timers := r.1.timers ++ [(timer, TimerKind.callTimeout r.2 g.1 token)]
          nextTimer := r.1.nextTimer + 1 }, [])

/-- Firing an armed timer: runs the captured closure and disarms it. -/
def fireTimer (w : World) (tid : Nat) : World × List Completion :=
  match mGet w.timers tid with
  | none => (w, [])
  | some k =>
    let w1 := clearTimeoutW w tid
    match k with
    | TimerKind.callTimeout obj callId token =>
      match w1.heap[obj]? with
      | none => (w1, [])
      | some s =>
        if (mGet s.pendingCalls callId).isSome then
          (setObj w1 obj { s with pendingCalls := mDel s.pendingCalls callId },
           [(token, Outcome.rejected Reason.timedOut)])
        else (w1, [])
    | TimerKind.openTabTimeout obj requestId token =>
      match w1.heap[obj]? with
      | none => (w1, [])
      | some s =>
        (setObj w1 obj { s with pendingOpenTabs := mDel s.pendingOpenTabs requestId },
         [(token, Outcome.rejected Reason.timedOut)])
    | TimerKind.closeTabTimeout obj tabId token =>
      match w1.heap[obj]? with
      | none => (w1, [])
      | some s =>
        (setObj w1 obj { s with pendingCloseTabs := mDel s.pendingCloseTabs tabId },
         [(token, Outcome.rejected Reason.timedOut)])
    | TimerKind.connectTimeout obj token =>
      match w1.heap[obj]? with
      | none => (w1, [])
      | some s =>
        (setObj w1 obj { s with connectInProgress := false, pendingConnect := none },
         [(token, Outcome.rejected Reason.timedOut)])

/-! ### The inbound message router of `extension-client.ts` -/

inductive ExtensionMessage where
  | connected (sessionId : Option Str) (browser : BrowserInfo) (tabs : List TabInfo)
  | disconnected (sessionId : Option Str)
  | tabCreated (sessionId : Option Str) (tab : TabInfo) (requestId : Option Str)
  | tabUpdated (sessionId : Option Str) (tab : TabInfo)
  | tabClosed (sessionId : Option Str) (tabId : Nat)
  | toolsChanged (sessionId : Option Str) (tabId : Nat) (tools : List Tool)
  | toolResult (sessionId : Option Str) (callId : Str) (error : Option Str)
  | toolsDiscovered (sessionId : Option Str) (callId : Str) (tabId : Nat) (tools : List Tool)
  | tabFocused (sessionId : Option Str) (tabId : Nat) (tools : List Tool) (requestId : Option Str)
deriving DecidableEq

def ExtensionMessage.sessionIdField : ExtensionMessage → Option Str
  | connected sid _ _ => sid
  | disconnected sid => sid
  | tabCreated sid _ _ => sid
  | tabUpdated sid _ => sid
  | tabClosed sid _ => sid
  | toolsChanged sid _ _ => sid
  | toolResult sid _ _ => sid
  | toolsDiscovered sid _ _ _ => sid
  | tabFocused sid _ _ _ => sid

/-- `"callId" in message`: only `toolResult` and `toolsDiscovered` carry it. -/
def ExtensionMessage.callIdField : ExtensionMessage → Option Str
  | toolResult _ cid _ => some cid
  | toolsDiscovered _ cid _ _ => some cid
  | _ => none

/-- `"requestId" in message && message.requestId`: only `tabCreated` and
`tabFocused` carry a (optional) request id. -/
def ExtensionMessage.requestIdField : ExtensionMessage → Option Str
  | tabCreated _ _ rid => rid
  | tabFocused _ _ _ rid => rid
  | _ => none

/-- The session-id resolution preamble of `handleExtensionMessage`:
explicit (truthy) session field, else decode from `callId`, else decode
from a truthy `requestId`, else the default session id.  An empty string is
falsy in JS, so `some []` behaves like an absent field. -/
def resolveSessionId (msg : ExtensionMessage) : Str :=
  let s0 : Option Str :=
    match msg.sessionIdField with
    | some s => if s.isEmpty then none else some s
    | none => none
  let s1 : Option Str :=
    match s0 with
    | some s => some s
    | none =>
      match msg.callIdField with
      | some cid => some ((extractSessionIdFromCallId cid).getD defaultSessionId)
      | none => none
  let s2 : Option Str :=
    match s1 with
    | some s => some s
    | none =>
      match msg.requestIdField with
      | some rid =>
        if rid.isEmpty then none
        else some ((extractSessionIdFromCallId rid).getD defaultSessionId)
      | none => none
  s2.getD defaultSessionId

/-- The `tabClosed` search: `getAllSessions()` in table order, resolving
the first session holding a pending close for the tab id, then `break`. -/
def resolveCloseInSessions (w : World) (entries : List (Str × Nat)) (tabId : Nat) :
    World × List Completion :=
  match entries with
  | [] => (w, [])
  | (_, obj) :: rest =>
    match w.heap[obj]? with
    | none => resolveCloseInSessions w rest tabId
    | some s =>
      match mGet s.pendingCloseTabs tabId with
      | some pending =>
        let w1 := clearTimeoutW w pending.timeout
        (setObj w1 obj { s with pendingCloseTabs := mDel s.pendingCloseTabs tabId },
         [(pending.token, Outcome.resolved)])
      | none => resolveCloseInSessions w rest tabId

/-- `handleExtensionMessage` of `extension-client.ts`. -/
def handleExtensionMessage (w : World) (msg : ExtensionMessage) :
    World × List Completion :=
  let sessionId := resolveSessionId msg
  match msg with
  | ExtensionMessage.connected _ binfo tabs =>
    let w1 : World := { w with browser := setConnected w.browser true (some binfo) }
    let w2 : World := tabs.foldl (fun acc tab => { acc with browser := addTab acc.browser tab }) w1
    match getSession w2 sessionId with
    | some (obj, s) =>
      match s.pendingConnect with
      | some p =>
        let w3 := clearTimeoutW w2 p.timeout
        (setObj w3 obj { s with connectInProgress := false, pendingConnect := none },
         [(p.token, Outcome.resolved)])
      | none => (w2, [])
    | none => (w2, [])
  | ExtensionMessage.disconnected _ =>
    ({ w with browser := setConnected w.browser false none }, [])
  | ExtensionMessage.tabCreated _ tab requestId =>
    let w1 : World := { w with browser := addTab w.browser tab }
    match requestId with
    | some rid =>
      if rid.isEmpty then (w1, [])
      else
        let reqSessionId := (extractSessionIdFromCallId rid).getD sessionId
        match getSession w1 reqSessionId with
        | some (obj, s) =>
          match mGet s.pendingOpenTabs rid with
          | some pending =>
            let w2 := clearTimeoutW w1 pending.timeout
            (setObj w2 obj { s with pendingOpenTabs := mDel s.pendingOpenTabs rid },
             [(pending.token, Outcome.resolved)])
          | none => (w1, [])
        | none => (w1, [])
    | none => (w1, [])
  | ExtensionMessage.tabUpdated _ tab =>
    ({ w with browser := updateTab w.browser tab }, [])
  | ExtensionMessage.tabClosed _ tabId =>
    let w1 : World := { w with browser := removeTab w.browser tabId }
    resolveCloseInSessions w1 w1.table tabId
  | ExtensionMessage.toolsChanged _ tabId tools =>
    ({ w with browser := updateTabTools w.browser tabId tools }, [])
  | ExtensionMessage.toolResult _ callId error =>
    let resultSessionId := (extractSessionIdFromCallId callId).getD sessionId
    match getSession w resultSessionId with
    | some (obj, s) =>
      match mGet s.pendingCalls callId with
      | some pending =>
        let w1 := setObj w obj { s with pendingCalls := mDel s.pendingCalls callId }
        match error with
        | some e => (w1, [(pending.token, Outcome.rejected (Reason.remoteError e))])
        | none => (w1, [(pending.token, Outcome.resolved)])
      | none => (w, [])
    | none => (w, [])
  | ExtensionMessage.toolsDiscovered _ callId tabId tools =>
    let discoverSessionId := (extractSessionIdFromCallId callId).getD sessionId
    match getSession w discoverSessionId with
    | some (obj, s) =>
      match mGet s.pendingCalls callId with
      | some pending =>
        let w1 := setObj w obj { s with pendingCalls := mDel s.pendingCalls callId }
        let w2 : World := { w1 with browser := updateTabTools w1.browser tabId tools }
        (w2, [(pending.token, Outcome.resolved)])
      | none => (w, [])
    | none => (w, [])
  | ExtensionMessage.tabFocused _ tabId tools requestId =>
    let w1 : World := { w with browser := updateTabTools w.browser tabId tools }
    match requestId with
    | some rid =>
      if rid.isEmpty then (w1, [])
      else
        let reqSessionId := (extractSessionIdFromCallId rid).getD sessionId
        match getSession w1 reqSessionId with
        | some (obj, s) =>
          match mGet s.pendingOpenTabs rid with
          | some pending =>
            match mGet w1.browser.tabs tabId with
            | some _ =>
              let w2 := clearTimeoutW w1 pending.timeout
              (setObj w2 obj { s with pendingOpenTabs := mDel s.pendingOpenTabs rid },
               [(pending.token, Outcome.resolved)])
            | none => (w1, [])
          | none => (w1, [])
        | none => (w1, [])
    | none => (w1, [])

/-- The drain loop of the socket `close` handler: reject every session's
pending operations with "Connection closed". -/
def rejectAllSessions (w : World) (entries : List (Str × Nat)) :
    World × List Completion :=
  match entries with
  | [] => (w, [])
  | (_, obj) :: rest =>
    let r := rejectAllSessionPendingOps w obj Reason.connectionClosed
    let r2 := rejectAllSessions r.1 rest
    (r2.1, r.2 ++ r2.2)

/-- The socket `close` handler: drop the socket, `setConnected(false)`, and
drain every session. -/
def handleSocketClose (w : World) : World × List Completion :=
  let w1 : World := { w with
    socketConnected := false
    browser := setConnected w.browser false none }
  rejectAllSessions w1 w1.table

/-! ### The transition system -/

inductive Event where
  | evSocketOpen
  | evSocketClose
  | evMessage (msg : ExtensionMessage)
  | evFire (tid : Nat)
  | evConnect (sid : Str)
  | evOpenTab (sid : Str) (url : Str)
  | evCloseTab (sid : Str) (tabId : Nat)
  | evCallTool (sid : Str) (tabId : Nat) (toolName : Str)
  | evDiscover (sid : Str) (tabId : Nat)
  | evCreateSession (sid : Str)
  | evDeleteSession (sid : Str)
deriving DecidableEq

/-- One step: messages are delivered only while the socket is open (the
handlers are attached to the live socket); the `close` handler fires only
for an open socket; a second concurrent connection is rejected without
disturbing the first. -/
def step (w : World) (e : Event) : World × List Completion :=
  match e with
  | Event.evSocketOpen =>
    (if w.socketConnected then w else { w with socketConnected := true }, [])
  | Event.evSocketClose =>
    if w.socketConnected then handleSocketClose w else (w, [])
  | Event.evMessage msg =>
    if w.socketConnected then handleExtensionMessage w msg else (w, [])
  | Event.evFire tid => fireTimer w tid
  | Event.evConnect sid => connectToExtension w sid
  | Event.evOpenTab sid url => openTab w sid url
  | Event.evCloseTab sid tabId => closeTab w sid tabId
  | Event.evCallTool sid tabId toolName => callPageTool w sid tabId toolName
  | Event.evDiscover sid tabId => discoverToolsForTab w sid tabId
  | Event.evCreateSession sid => ((createSession w sid).1, [])
  | Event.evDeleteSession sid => deleteSession w sid

/-- Run a list of events, accumulating the completions they perform. -/
def run (w : World) : List Event → World × List Completion
  | [] => (w, [])
  | e :: es =>
    let r := step w e
    let r2 := run r.1 es
    (r2.1, r.2 ++ r2.2)

/-! ### Further association-list and counting lemmas -/

theorem mDel_sublist [DecidableEq κ] (m : List (κ × α)) (k : κ) :
    (mDel m k).Sublist m := by
  induction m with
  | nil => simp [mDel]
  | cons e rest ih =>
    by_cases he : e.1 = k
    · simp only [mDel, he, if_pos]
      exact (List.sublist_cons_self e rest)
    · simp only [mDel, he, if_false, if_neg, not_false_iff]
      exact List.Sublist.cons₂ e ih

theorem mem_mDel [DecidableEq κ] (m : List (κ × α)) (k : κ) (e : κ × α)
    (h : e ∈ mDel m k) : e ∈ m :=
  (mDel_sublist m k).mem h

theorem mDel_keys_nodup [DecidableEq κ] (m : List (κ × α)) (k : κ)
    (hnd : (m.map Prod.fst).Nodup) : ((mDel m k).map Prod.fst).Nodup :=
  ((mDel_sublist m k).map Prod.fst).nodup hnd

theorem mem_mDel_key_ne [DecidableEq κ] (m : List (κ × α)) (k : κ)
    (hnd : (m.map Prod.fst).Nodup) (e : κ × α) (h : e ∈ mDel m k) : e.1 ≠ k := by
  induction m with
  | nil => simp [mDel] at h
  | cons x rest ih =>
    simp only [List.map_cons, List.nodup_cons] at hnd
    by_cases hx : x.1 = k
    · simp only [mDel, hx, if_pos] at h
      intro hek
      exact hnd.1 (hx ▸ hek ▸ List.mem_map_of_mem Prod.fst h)
    · simp only [mDel, hx, if_false, if_neg, not_false_iff, List.mem_cons] at h
      rcases h with h | h
      · subst h; exact hx
      · exact ih hnd.2 h

theorem mDel_perm [DecidableEq κ] (m : List (κ × α)) (k : κ) (v : α)
    (h : mGet m k = some v) : m.Perm ((k, v) :: mDel m k) := by
  induction m with
  | nil => simp [mGet] at h
  | cons e rest ih =>
    by_cases he : e.1 = k
    · simp only [mGet, he, if_pos] at h
      injection h with h
      have : e = (k, v) := by
        cases e
        simp_all
      subst this
      simp only [mDel, if_pos]
      exact List.Perm.refl _
    · simp only [mGet, he, if_false, if_neg, not_false_iff] at h
      simp only [mDel, he, if_false, if_neg, not_false_iff]
      exact (List.Perm.cons e (ih h)).trans (List.Perm.swap _ _ _)

theorem mem_mSet [DecidableEq κ] (m : List (κ × α)) (k : κ) (v : α) (e : κ × α)
    (h : e ∈ mSet m k v) : e ∈ m ∨ e = (k, v) := by
  induction m with
  | nil => simp only [mSet, List.mem_singleton] at h; exact Or.inr h
  | cons x rest ih =>
    by_cases hx : x.1 = k
    · simp only [mSet, hx, if_pos, List.mem_cons] at h
      rcases h with h | h
      · exact Or.inr h
      · exact Or.inl (List.mem_cons_of_mem _ h)
    · simp only [mSet, hx, if_false, if_neg, not_false_iff, List.mem_cons] at h
      rcases h with h | h
      · exact Or.inl (h ▸ List.mem_cons_self _ _)
      · rcases ih h with h2 | h2
        · exact Or.inl (List.mem_cons_of_mem _ h2)
        · exact Or.inr h2

theorem exists_mGet_of_mem_keys [DecidableEq κ] (m : List (κ × α)) (k : κ)
    (h : k ∈ m.map Prod.fst) : ∃ v, mGet m k = some v := by
  induction m with
  | nil => simp at h
  | cons e rest ih =>
    by_cases he : e.1 = k
    · exact ⟨e.2, by simp [mGet, he]⟩
    · simp only [List.map_cons, List.mem_cons] at h
      rcases h with h | h
      · exact absurd h.symm he
      · obtain ⟨v, hv⟩ := ih h
        exact ⟨v, by simp [mGet, he, hv]⟩

theorem mem_keys_of_mGet [DecidableEq κ] (m : List (κ × α)) (k : κ) (v : α)
    (h : mGet m k = some v) : k ∈ m.map Prod.fst := by
  have := mGet_mem m k v h
  exact List.mem_map_of_mem Prod.fst this

/-- Counting tokens across the heap after updating one object in place. -/
theorem count_flatMap_set {α β : Type} [DecidableEq β] (l : List α) (i : Nat)
    (a a' : α) (f : α → List β) (h : l[i]? = some a) (b : β) :
    ((l.set i a').flatMap f).count b + (f a).count b
      = (l.flatMap f).count b + (f a').count b := by
  induction l generalizing i with
  | nil => simp at h
  | cons x rest ih =>
    cases i with
    | zero =>
      simp only [List.getElem?_cons_zero] at h
      injection h with h
      subst h
      simp only [List.set_cons_zero, List.flatMap_cons, List.count_append]
      omega
    | succ i' =>
      simp only [List.getElem?_cons_succ] at h
      have := ih i' h
      simp only [List.set_cons_succ, List.flatMap_cons, List.count_append]
      omega

theorem getElem?_set_self {α : Type} (l : List α) (i : Nat) (a a' : α)
    (h : l[i]? = some a) : (l.set i a')[i]? = some a' := by
  induction l generalizing i with
  | nil => simp at h
  | cons x rest ih =>
    cases i with
    | zero => simp
    | succ i' =>
      simp only [List.getElem?_cons_succ] at h
      simp only [List.set_cons_succ, List.getElem?_cons_succ]
      exact ih i' h

theorem getElem?_set_ne {α : Type} (l : List α) (i j : Nat) (a' : α)
    (h : j ≠ i) : (l.set i a')[j]? = l[j]? := by
  induction l generalizing i j with
  | nil => simp
  | cons x rest ih =>
    cases i with
    | zero =>
      cases j with
      | zero => exact absurd rfl h
      | succ j' => simp
    | succ i' =>
      cases j with
      | zero => simp
      | succ j' =>
        simp only [List.set_cons_succ, List.getElem?_cons_succ]
        exact ih i' j' (fun hc => h (by omega))

theorem getElem?_append_last {α : Type} (l : List α) (a : α) :
    (l ++ [a])[l.length]? = some a := by
  induction l with
  | nil => simp
  | cons x rest ih =>
    simp only [List.cons_append, List.length_cons, List.getElem?_cons_succ]
    exact ih

theorem getElem?_append_lt {α : Type} (l l' : List α) (i : Nat)
    (h : i < l.length) : (l ++ l')[i]? = l[i]? := by
  induction l generalizing i with
  | nil => simp at h
  | cons x rest ih =>
    cases i with
    | zero => simp
    | succ i' =>
      simp only [List.cons_append, List.getElem?_cons_succ]
      exact ih i' (by simpa using h)

theorem count_map_token_mDel [DecidableEq κ] {β : Type} (m : List (κ × β)) (k : κ)
    (v : β) (f : β → Nat) (h : mGet m k = some v) (t : Nat) :
    (m.map (fun e => f e.2)).count t
      = ((mDel m k).map (fun e => f e.2)).count t + (if f v = t then 1 else 0) := by
  have hp := (mDel_perm m k v h).map (fun e => f e.2)
  rw [hp.count_eq]
  simp only [List.map_cons, List.count_cons]
  by_cases hv : f v = t <;> simp [hv]

theorem count_map_token_mSet_fresh [DecidableEq κ] {β : Type} (m : List (κ × β))
    (k : κ) (v : β) (f : β → Nat) (h : mGet m k = none) (t : Nat) :
    ((mSet m k v).map (fun e => f e.2)).count t
      = (m.map (fun e => f e.2)).count t + (if f v = t then 1 else 0) := by
  rw [mSet_eq_append m k v h]
  simp only [List.map_append, List.count_append, List.map_cons, List.map_nil]
  by_cases hv : f v = t <;> simp [hv, List.count_cons]

/-! ### The reachable-state invariant

The structural facts maintained by every step: the table points into the
heap, timer ids and tokens are below their counters, container keys are
well-formed call ids bounded by the session counter, and armed timers of
the open/close/connect kinds are in exact correspondence with the pending
entries that store their handles.  Tool-call entries have no stored
handle; instead every pending call has some armed membership-checking
timer, and every armed call timer agrees with the entry (if any) at its
call id. -/

structure WInv (w : World) : Prop where
  tableObj : ∀ e ∈ w.table, e.2 < w.heap.length
  timerIds : ∀ e ∈ w.timers, e.1 < w.nextTimer
  timerNodup : (w.timers.map Prod.fst).Nodup
  tokFresh : ∀ t ∈ w.pendingTokens, t < w.nextToken
  mapsNodup : ∀ (obj : Nat) (s : Session), w.heap[obj]? = some s →
      (s.pendingCalls.map Prod.fst).Nodup ∧ (s.pendingOpenTabs.map Prod.fst).Nodup ∧
      (s.pendingCloseTabs.map Prod.fst).Nodup
  keyStruct : ∀ (obj : Nat) (s : Session), w.heap[obj]? = some s → ∀ cid : Str,
      (cid ∈ s.pendingCalls.map Prod.fst ∨ cid ∈ s.pendingOpenTabs.map Prod.fst) →
      ∃ p n, '_' ∉ p ∧ 0 < n ∧ n ≤ s.callIdCounter ∧ cid = mkCallId s.id p n
  timerOpen : ∀ tid obj rid tok, (tid, TimerKind.openTabTimeout obj rid tok) ∈ w.timers →
      ∃ s, w.heap[obj]? = some s ∧
        mGet s.pendingOpenTabs rid = some { token := tok, timeout := tid }
  timerClose : ∀ tid obj tabId tok, (tid, TimerKind.closeTabTimeout obj tabId tok) ∈ w.timers →
      ∃ s, w.heap[obj]? = some s ∧
        mGet s.pendingCloseTabs tabId = some { token := tok, timeout := tid }
  timerConn : ∀ tid obj tok, (tid, TimerKind.connectTimeout obj tok) ∈ w.timers →
      ∃ s, w.heap[obj]? = some s ∧
        s.pendingConnect = some { token := tok, timeout := tid }
  timerCall : ∀ tid obj cid tok, (tid, TimerKind.callTimeout obj cid tok) ∈ w.timers →
      ∃ s, w.heap[obj]? = some s ∧
        (∀ pc, mGet s.pendingCalls cid = some pc → pc.token = tok) ∧
        ∃ p n, '_' ∉ p ∧ 0 < n ∧ n ≤ s.callIdCounter ∧ cid = mkCallId s.id p n
  entryOpen : ∀ (obj : Nat) (s : Session), w.heap[obj]? = some s → ∀ e ∈ s.pendingOpenTabs,
      mGet w.timers e.2.timeout = some (TimerKind.openTabTimeout obj e.1 e.2.token)
  entryClose : ∀ (obj : Nat) (s : Session), w.heap[obj]? = some s → ∀ e ∈ s.pendingCloseTabs,
      mGet w.timers e.2.timeout = some (TimerKind.closeTabTimeout obj e.1 e.2.token)
  entryConn : ∀ (obj : Nat) (s : Session), w.heap[obj]? = some s → ∀ p, s.pendingConnect = some p →
      mGet w.timers p.timeout = some (TimerKind.connectTimeout obj p.token)
  entryCall : ∀ (obj : Nat) (s : Session), w.heap[obj]? = some s → ∀ e ∈ s.pendingCalls,
      ∃ tid, mGet w.timers tid = some (TimerKind.callTimeout obj e.1 e.2.token)
  connFlag : ∀ (obj : Nat) (s : Session), w.heap[obj]? = some s → s.pendingConnect.isSome →
      s.connectInProgress = true
  quietWhenClosed : w.socketConnected = false → ∀ e ∈ w.table, ∀ (s : Session),
      w.heap[e.2]? = some s → s.connectInProgress = false

/-- What one step must satisfy: the invariant is preserved, the token
counter is monotone, and each token's completions plus its remaining
pending registrations balance: old pending plus one for each token
allocated during the step. -/
def StepOK (w : World) (r : World × List Completion) : Prop :=
  WInv r.1 ∧ w.nextToken ≤ r.1.nextToken ∧
  ∀ t : Nat, (r.2.map Prod.fst).count t + r.1.pendingTokens.count t
      = w.pendingTokens.count t
        + (if w.nextToken ≤ t ∧ t < r.1.nextToken then 1 else 0)

theorem inv_initialWorld : WInv initialWorld := by
  constructor <;> intros <;> simp_all [initialWorld, World.pendingTokens]

theorem getElem?_some_lt {α : Type} (l : List α) (i : Nat) (a : α)
    (h : l[i]? = some a) : i < l.length := by
  induction l generalizing i with
  | nil => simp at h
  | cons x rest ih =>
    cases i with
    | zero => simp
    | succ i' =>
      simp only [List.getElem?_cons_succ] at h
      simpa using ih i' h

theorem getElem?_none_of_le {α : Type} (l : List α) (i : Nat)
    (h : l.length ≤ i) : l[i]? = none := by
  induction l generalizing i with
  | nil => simp
  | cons x rest ih =>
    cases i with
    | zero => simp at h
    | succ i' =>
      simp only [List.getElem?_cons_succ]
      exact ih i' (by simpa using h)

theorem getElem?_is_some_of_lt {α : Type} (l : List α) (i : Nat)
    (h : i < l.length) : ∃ a, l[i]? = some a := by
  induction l generalizing i with
  | nil => simp at h
  | cons x rest ih =>
    cases i with
    | zero => exact ⟨x, by simp⟩
    | succ i' =>
      simp only [List.getElem?_cons_succ]
      exact ih i' (by simpa using h)

theorem getElem?_append_singleton_cases {α : Type} (l : List α) (a : α) (i : Nat)
    (x : α) (h : (l ++ [a])[i]? = some x) :
    (i < l.length ∧ l[i]? = some x) ∨ (i = l.length ∧ x = a) := by
  by_cases hi : i < l.length
  · left
    exact ⟨hi, by rw [getElem?_append_lt l [a] i hi] at h; exact h⟩
  · right
    by_cases he : i = l.length
    · subst he
      rw [getElem?_append_last] at h
      injection h with h
      exact ⟨rfl, h.symm⟩
    · exfalso
      have : (l ++ [a]).length ≤ i := by
        simp only [List.length_append, List.length_singleton]
        omega
      rw [getElem?_none_of_le _ _ this] at h
      simp at h

/-- The freshly created session of `createSession`. -/
def freshSession (sid : Str) : Session :=
  { id := sid, callIdCounter := 0, pendingCalls := [], pendingOpenTabs := [],
    pendingCloseTabs := [], pendingConnect := none, connectInProgress := false }

theorem freshSession_tokens (sid : Str) : (freshSession sid).pendingTokens = [] := rfl

theorem winv_browser (w : World) (b : BrowserState) (h : WInv w) :
    WInv { w with browser := b } :=
  ⟨h.tableObj, h.timerIds, h.timerNodup, h.tokFresh, h.mapsNodup, h.keyStruct,
   h.timerOpen, h.timerClose, h.timerConn, h.timerCall, h.entryOpen, h.entryClose,
   h.entryConn, h.entryCall, h.connFlag, h.quietWhenClosed⟩

theorem winv_bumpToken (w : World) (h : WInv w) :
    WInv { w with nextToken := w.nextToken + 1 } :=
  ⟨h.tableObj, h.timerIds, h.timerNodup,
   fun t ht => Nat.lt_succ_of_lt (h.tokFresh t ht),
   h.mapsNodup, h.keyStruct, h.timerOpen, h.timerClose, h.timerConn, h.timerCall,
   h.entryOpen, h.entryClose, h.entryConn, h.entryCall, h.connFlag, h.quietWhenClosed⟩

theorem createSession_eq (w : World) (sid : Str) :
    createSession w sid
      = ({ w with heap := w.heap ++ [freshSession sid],
                  table := mSet w.table sid w.heap.length }, w.heap.length) := rfl

theorem createSession_pendingTokens (w : World) (sid : Str) :
    (createSession w sid).1.pendingTokens = w.pendingTokens := by
  simp [createSession_eq, World.pendingTokens, freshSession, Session.pendingTokens]

theorem winv_createSession (w : World) (sid : Str) (h : WInv w) :
    WInv (createSession w sid).1 := by
  rw [createSession_eq]
  constructor
  · intro e he
    rcases mem_mSet _ _ _ _ he with hm | hm
    · have := h.tableObj e hm
      simp only [List.length_append, List.length_singleton]
      omega
    · subst hm
      simp
  · exact h.timerIds
  · exact h.timerNodup
  · intro t ht
    simp only [World.pendingTokens, List.flatMap_append, List.flatMap_cons,
      List.flatMap_nil, freshSession_tokens, List.append_nil] at ht
    exact h.tokFresh t (by simpa [World.pendingTokens] using ht)
  · intro obj s hs
    rcases getElem?_append_singleton_cases _ _ _ _ hs with ⟨_, hold⟩ | ⟨_, hnew⟩
    · exact h.mapsNodup obj s hold
    · subst hnew; simp [freshSession]
  · intro obj s hs cid hcid
    rcases getElem?_append_singleton_cases _ _ _ _ hs with ⟨_, hold⟩ | ⟨_, hnew⟩
    · exact h.keyStruct obj s hold cid hcid
    · subst hnew; simp [freshSession] at hcid
  · intro tid obj rid tok ht
    obtain ⟨s, hs, hm⟩ := h.timerOpen tid obj rid tok ht
    exact ⟨s, by rw [getElem?_append_lt _ _ _ (getElem?_some_lt _ _ _ hs)]; exact hs, hm⟩
  · intro tid obj tabId tok ht
    obtain ⟨s, hs, hm⟩ := h.timerClose tid obj tabId tok ht
    exact ⟨s, by rw [getElem?_append_lt _ _ _ (getElem?_some_lt _ _ _ hs)]; exact hs, hm⟩
  · intro tid obj tok ht
    obtain ⟨s, hs, hm⟩ := h.timerConn tid obj tok ht
    exact ⟨s, by rw [getElem?_append_lt _ _ _ (getElem?_some_lt _ _ _ hs)]; exact hs, hm⟩
  · intro tid obj cid tok ht
    obtain ⟨s, hs, hm⟩ := h.timerCall tid obj cid tok ht
    exact ⟨s, by rw [getElem?_append_lt _ _ _ (getElem?_some_lt _ _ _ hs)]; exact hs, hm⟩
  · intro obj s hs e he
    rcases getElem?_append_singleton_cases _ _ _ _ hs with ⟨_, hold⟩ | ⟨_, hnew⟩
    · exact h.entryOpen obj s hold e he
    · subst hnew; simp [freshSession] at he
  · intro obj s hs e he
    rcases getElem?_append_singleton_cases _ _ _ _ hs with ⟨_, hold⟩ | ⟨_, hnew⟩
    · exact h.entryClose obj s hold e he
    · subst hnew; simp [freshSession] at he
  · intro obj s hs p hp
    rcases getElem?_append_singleton_cases _ _ _ _ hs with ⟨_, hold⟩ | ⟨_, hnew⟩
    · exact h.entryConn obj s hold p hp
    · subst hnew; simp [freshSession] at hp
  · intro obj s hs e he
    rcases getElem?_append_singleton_cases _ _ _ _ hs with ⟨_, hold⟩ | ⟨_, hnew⟩
    · exact h.entryCall obj s hold e he
    · subst hnew; simp [freshSession] at he
  · intro obj s hs hps
    rcases getElem?_append_singleton_cases _ _ _ _ hs with ⟨_, hold⟩ | ⟨_, hnew⟩
    · exact h.connFlag obj s hold hps
    · subst hnew; simp [freshSession] at hps
  · intro hsc e he s hs
    rcases mem_mSet _ _ _ _ he with hm | hm
    · have hlt := h.tableObj e hm
      rw [getElem?_append_lt _ _ _ hlt] at hs
      exact h.quietWhenClosed hsc e hm s hs
    · subst hm
      simp only at hs
      rw [getElem?_append_last] at hs
      injection hs with hs
      subst hs
      rfl

theorem getOrCreateSession_spec (w : World) (sid : Str) (h : WInv w) :
    WInv (getOrCreateSession w sid).1 ∧
    (getOrCreateSession w sid).1.pendingTokens = w.pendingTokens ∧
    (getOrCreateSession w sid).1.timers = w.timers ∧
    (getOrCreateSession w sid).1.nextTimer = w.nextTimer ∧
    (getOrCreateSession w sid).1.nextToken = w.nextToken ∧
    (getOrCreateSession w sid).1.socketConnected = w.socketConnected ∧
    ∃ s : Session,
      (getOrCreateSession w sid).1.heap[(getOrCreateSession w sid).2]? = some s := by
  unfold getOrCreateSession
  cases hm : mGet w.table sid with
  | some obj =>
    have hlt : obj < w.heap.length := h.tableObj (sid, obj) (mGet_mem _ _ _ hm)
    obtain ⟨s, hs⟩ := getElem?_is_some_of_lt w.heap obj hlt
    exact ⟨h, rfl, rfl, rfl, rfl, rfl, s, hs⟩
  | none =>
    refine ⟨winv_createSession w sid h, createSession_pendingTokens w sid, rfl, rfl, rfl, rfl, ?_⟩
    rw [createSession_eq]
    exact ⟨freshSession sid, getElem?_append_last _ _⟩

theorem nodup_append_singleton {α : Type} (l : List α) (a : α)
    (h : l.Nodup) (ha : a ∉ l) : (l ++ [a]).Nodup := by
  simp [List.nodup_append, h, ha]

theorem pfxCall_no_underscore : '_' ∉ pfxCall := by decide

theorem pfxOpen_no_underscore : '_' ∉ pfxOpen := by decide

theorem pfxDiscover_no_underscore : '_' ∉ pfxDiscover := by decide

/-- The freshly generated call id differs from every key already stored in
a container satisfying the key-structure invariant. -/
theorem fresh_key_not_mem (s : Session) (pfx : Str) (hpfx : '_' ∉ pfx)
    (keys : List Str)
    (hstruct : ∀ cid ∈ keys, ∃ p n, '_' ∉ p ∧ 0 < n ∧ n ≤ s.callIdCounter ∧
        cid = mkCallId s.id p n) :
    mkCallId s.id pfx (s.callIdCounter + 1) ∉ keys := by
  intro hmem
  obtain ⟨p, n, hp, hn0, hnc, heq⟩ := hstruct _ hmem
  obtain ⟨_, hn⟩ := mkCallId_inj s.id p pfx n (s.callIdCounter + 1) hp hpfx heq.symm
  omega

/-- Count of a token over the world after updating one heap object. -/
theorem count_world_set (w : World) (obj : Nat) (s s' : Session)
    (hs : w.heap[obj]? = some s) (t : Nat) :
    (World.pendingTokens { w with heap := w.heap.set obj s' }).count t
        + s.pendingTokens.count t
      = w.pendingTokens.count t + s'.pendingTokens.count t := by
  simpa [World.pendingTokens] using
    count_flatMap_set w.heap obj s s' Session.pendingTokens hs t

theorem tokens_mem_of_count_pos (l : List Nat) (t : Nat) (h : 0 < l.count t) :
    t ∈ l := List.count_pos_iff.1 h

theorem count_pos_of_tokens_mem (l : List Nat) (t : Nat) (h : t ∈ l) :
    0 < l.count t := List.count_pos_iff.2 h


/-- Invariant preservation for registering a pending open-tab operation
with its timer (the core of `openTab`). -/
theorem winv_register_open (w1 : World) (obj : Nat) (s : Session) (tok : Nat)
    (hInv : WInv w1) (hs : w1.heap[obj]? = some s) (htok : tok < w1.nextToken) :
    WInv { setObj w1 obj
            { s with
              callIdCounter := s.callIdCounter + 1
              pendingOpenTabs := mSet s.pendingOpenTabs
                (mkCallId s.id pfxOpen (s.callIdCounter + 1))
                { token := tok, timeout := w1.nextTimer } } with
          timers := w1.timers ++
            [(w1.nextTimer, TimerKind.openTabTimeout obj
                (mkCallId s.id pfxOpen (s.callIdCounter + 1)) tok)]
          nextTimer := w1.nextTimer + 1 } := by
  set K := mkCallId s.id pfxOpen (s.callIdCounter + 1) with hK
  set v : PendingOpenTabOperation := { token := tok, timeout := w1.nextTimer } with hv
  set s2 : Session :=
    { s with
      callIdCounter := s.callIdCounter + 1
      pendingOpenTabs := mSet s.pendingOpenTabs K v } with hs2
  have hKfresh : mGet s.pendingOpenTabs K = none := by
    apply mGet_eq_none_of_not_mem_keys
    exact fresh_key_not_mem s pfxOpen pfxOpen_no_underscore _
      (fun cid hc => hInv.keyStruct obj s hs cid (Or.inr hc))
  have hmSetApp : mSet s.pendingOpenTabs K v = s.pendingOpenTabs ++ [(K, v)] :=
    mSet_eq_append _ _ _ hKfresh
  have htimNotMem : w1.nextTimer ∉ w1.timers.map Prod.fst := by
    intro hmem
    obtain ⟨e, he, heq⟩ := List.mem_map.1 hmem
    have := hInv.timerIds e he
    omega
  have htimNone : mGet w1.timers w1.nextTimer = none :=
    mGet_eq_none_of_not_mem_keys _ _ htimNotMem
  have hcount2 : ∀ t : Nat, s2.pendingTokens.count t
      = s.pendingTokens.count t + (if tok = t then 1 else 0) := by
    intro t
    simp only [hs2, Session.pendingTokens, List.count_append]
    rw [count_map_token_mSet_fresh s.pendingOpenTabs K v
      (fun p => p.token) hKfresh t]
    simp only [hv]
    omega
  constructor <;> (try simp only [setObj, World.pendingTokens])
  · intro e he
    have := hInv.tableObj e he
    simpa using this
  · intro e he
    rcases List.mem_append.1 he with hm | hm
    · have := hInv.timerIds e hm
      omega
    · simp only [List.mem_singleton] at hm
      subst hm
      simp
  · simp only [List.map_append, List.map_cons, List.map_nil]
    exact nodup_append_singleton _ _ hInv.timerNodup htimNotMem
  · intro t ht
    have hcnt : 0 < ((w1.heap.set obj s2).flatMap Session.pendingTokens).count t :=
      count_pos_of_tokens_mem _ t ht
    have hcw := count_flatMap_set w1.heap obj s s2 Session.pendingTokens hs t
    have h2 := hcount2 t
    by_cases he : tok = t
    · omega
    · have hp : 0 < (w1.heap.flatMap Session.pendingTokens).count t := by
        simp only [he, if_false, if_neg, not_false_iff] at h2
        omega
      exact hInv.tokFresh t (tokens_mem_of_count_pos _ t hp)
  · intro obj' s' hs'
    by_cases hobj : obj' = obj
    · subst hobj
      rw [getElem?_set_self _ _ s s2 hs] at hs'
      injection hs' with hs'
      subst hs'
      obtain ⟨hc1, hc2, hc3⟩ := hInv.mapsNodup obj' s hs
      refine ⟨hc1, ?_, hc3⟩
      rw [show s2.pendingOpenTabs = s.pendingOpenTabs ++ [(K, v)] from hmSetApp]
      simp only [List.map_append, List.map_cons, List.map_nil]
      refine nodup_append_singleton _ _ hc2 ?_
      apply fresh_key_not_mem s pfxOpen pfxOpen_no_underscore _
        (fun cid hc => hInv.keyStruct obj' s hs cid (Or.inr hc))
    · rw [getElem?_set_ne _ _ _ _ hobj] at hs'
      exact hInv.mapsNodup obj' s' hs'
  · intro obj' s' hs' cid hcid
    by_cases hobj : obj' = obj
    · subst hobj
      rw [getElem?_set_self _ _ s s2 hs] at hs'
      injection hs' with hs'
      subst hs'
      have hcc : s2.callIdCounter = s.callIdCounter + 1 := rfl
      rcases hcid with hcid | hcid
      · obtain ⟨p, n, hp, hn0, hnc, heq⟩ :=
          hInv.keyStruct obj' s hs cid (Or.inl hcid)
        exact ⟨p, n, hp, hn0, by omega, heq⟩
      · rw [show s2.pendingOpenTabs = s.pendingOpenTabs ++ [(K, v)] from hmSetApp] at hcid
        simp only [List.map_append, List.map_cons, List.map_nil, List.mem_append,
          List.mem_singleton] at hcid
        rcases hcid with hcid | hcid
        · obtain ⟨p, n, hp, hn0, hnc, heq⟩ :=
            hInv.keyStruct obj' s hs cid (Or.inr hcid)
          exact ⟨p, n, hp, hn0, by omega, heq⟩
        · subst hcid
          exact ⟨pfxOpen, s.callIdCounter + 1, pfxOpen_no_underscore,
            by omega, by omega, rfl⟩
    · rw [getElem?_set_ne _ _ _ _ hobj] at hs'
      exact hInv.keyStruct obj' s' hs' cid hcid
  · intro tid obj' rid tok' ht
    rcases List.mem_append.1 ht with hm | hm
    · obtain ⟨s', hs', hmg⟩ := hInv.timerOpen tid obj' rid tok' hm
      by_cases hobj : obj' = obj
      · subst hobj
        rw [hs] at hs'
        injection hs' with hs'
        subst hs'
        refine ⟨s2, getElem?_set_self _ _ s s2 hs, ?_⟩
        have hridne : rid ≠ K := by
          intro hc
          subst hc
          rw [hKfresh] at hmg
          simp at hmg
        rw [show s2.pendingOpenTabs = mSet s.pendingOpenTabs K v from rfl,
          mGet_mSet_ne _ _ _ _ hridne]
        exact hmg
      · exact ⟨s', by rw [getElem?_set_ne _ _ _ _ hobj]; exact hs', hmg⟩
    · simp only [List.mem_singleton] at hm
      injection hm with hm1 hm2
      subst hm1
      injection hm2 with e1 e2 e3
      subst e1
      subst e2
      subst e3
      refine ⟨s2, getElem?_set_self _ _ s s2 hs, ?_⟩
      rw [show s2.pendingOpenTabs = mSet s.pendingOpenTabs K v from rfl]
      exact mGet_mSet_self _ _ _
  · intro tid obj' tabId tok' ht
    rcases List.mem_append.1 ht with hm | hm
    · obtain ⟨s', hs', hmg⟩ := hInv.timerClose tid obj' tabId tok' hm
      by_cases hobj : obj' = obj
      · subst hobj
        rw [hs] at hs'
        injection hs' with hs'
        subst hs'
        exact ⟨s2, getElem?_set_self _ _ s s2 hs, hmg⟩
      · exact ⟨s', by rw [getElem?_set_ne _ _ _ _ hobj]; exact hs', hmg⟩
    · simp at hm
  · intro tid obj' tok' ht
    rcases List.mem_append.1 ht with hm | hm
    · obtain ⟨s', hs', hmg⟩ := hInv.timerConn tid obj' tok' hm
      by_cases hobj : obj' = obj
      · subst hobj
        rw [hs] at hs'
        injection hs' with hs'
        subst hs'
        exact ⟨s2, getElem?_set_self _ _ s s2 hs, hmg⟩
      · exact ⟨s', by rw [getElem?_set_ne _ _ _ _ hobj]; exact hs', hmg⟩
    · simp at hm
  · intro tid obj' cid tok' ht
    rcases List.mem_append.1 ht with hm | hm
    · obtain ⟨s', hs', hag, p, n, hp, hn0, hnc, heq⟩ := hInv.timerCall tid obj' cid tok' hm
      by_cases hobj : obj' = obj
      · subst hobj
        rw [hs] at hs'
        injection hs' with hs'
        subst hs'
        have hcc : s2.callIdCounter = s.callIdCounter + 1 := rfl
        refine ⟨s2, getElem?_set_self _ _ s s2 hs, hag,
          p, n, hp, hn0, by omega, heq⟩
      · exact ⟨s', by rw [getElem?_set_ne _ _ _ _ hobj]; exact hs', hag,
          p, n, hp, hn0, hnc, heq⟩
    · simp at hm
  · intro obj' s' hs' e he
    by_cases hobj : obj' = obj
    · subst hobj
      rw [getElem?_set_self _ _ s s2 hs] at hs'
      injection hs' with hs'
      subst hs'
      rw [show s2.pendingOpenTabs = s.pendingOpenTabs ++ [(K, v)] from hmSetApp] at he
      rcases List.mem_append.1 he with hm | hm
      · exact mGet_append_left _ _ _ _ (hInv.entryOpen obj' s hs e hm)
      · simp only [List.mem_singleton] at hm
        subst hm
        rw [mGet_append_right _ _ _ htimNone]
        simp [mGet, hv]
    · rw [getElem?_set_ne _ _ _ _ hobj] at hs'
      exact mGet_append_left _ _ _ _ (hInv.entryOpen obj' s' hs' e he)
  · intro obj' s' hs' e he
    by_cases hobj : obj' = obj
    · subst hobj
      rw [getElem?_set_self _ _ s s2 hs] at hs'
      injection hs' with hs'
      subst hs'
      exact mGet_append_left _ _ _ _ (hInv.entryClose obj' s hs e he)
    · rw [getElem?_set_ne _ _ _ _ hobj] at hs'
      exact mGet_append_left _ _ _ _ (hInv.entryClose obj' s' hs' e he)
  · intro obj' s' hs' p hp
    by_cases hobj : obj' = obj
    · subst hobj
      rw [getElem?_set_self _ _ s s2 hs] at hs'
      injection hs' with hs'
      subst hs'
      exact mGet_append_left _ _ _ _ (hInv.entryConn obj' s hs p hp)
    · rw [getElem?_set_ne _ _ _ _ hobj] at hs'
      exact mGet_append_left _ _ _ _ (hInv.entryConn obj' s' hs' p hp)
  · intro obj' s' hs' e he
    by_cases hobj : obj' = obj
    · subst hobj
      rw [getElem?_set_self _ _ s s2 hs] at hs'
      injection hs' with hs'
      subst hs'
      obtain ⟨tid, htid⟩ := hInv.entryCall obj' s hs e he
      exact ⟨tid, mGet_append_left _ _ _ _ htid⟩
    · rw [getElem?_set_ne _ _ _ _ hobj] at hs'
      obtain ⟨tid, htid⟩ := hInv.entryCall obj' s' hs' e he
      exact ⟨tid, mGet_append_left _ _ _ _ htid⟩
  · intro obj' s' hs' hps
    by_cases hobj : obj' = obj
    · subst hobj
      rw [getElem?_set_self _ _ s s2 hs] at hs'
      injection hs' with hs'
      subst hs'
      exact hInv.connFlag obj' s hs hps
    · rw [getElem?_set_ne _ _ _ _ hobj] at hs'
      exact hInv.connFlag obj' s' hs' hps
  · intro hcl e he s' hs'
    have hcl' : w1.socketConnected = false := hcl
    by_cases hobj : e.2 = obj
    · rw [hobj, getElem?_set_self _ _ s s2 hs] at hs'
      injection hs' with hs'
      subst hs'
      exact hInv.quietWhenClosed hcl' e he s (by rw [hobj]; exact hs)
    · rw [getElem?_set_ne _ _ _ _ hobj] at hs'
      exact hInv.quietWhenClosed hcl' e he s' hs'

theorem stepOK_openTab (w : World) (sid url : Str) (h : WInv w) :
    StepOK w (openTab w sid url) := by
  by_cases hsc : w.socketConnected = false
  · have hres : openTab w sid url
        = ({ w with nextToken := w.nextToken + 1 },
           [(w.nextToken, Outcome.rejected Reason.notConnected)]) := by
      simp only [openTab]
      rw [if_pos
        (show ({ w with nextToken := w.nextToken + 1 } : World).socketConnected
            = false from hsc)]
    rw [hres]
    refine ⟨winv_bumpToken w h, by simp, ?_⟩
    intro t
    have hsame : World.pendingTokens { w with nextToken := w.nextToken + 1 }
        = w.pendingTokens := rfl
    have hnt2 : ({ w with nextToken := w.nextToken + 1 } : World).nextToken
        = w.nextToken + 1 := rfl
    rw [hsame, hnt2]
    by_cases ht : w.nextToken = t
    · subst ht
      simp [List.count_cons]
      omega
    · have hno : ¬ (w.nextToken ≤ t ∧ t < w.nextToken + 1) := by omega
      simp [List.count_cons, Ne.symm ht, hno]
  · have hcond : ¬ (({ w with nextToken := w.nextToken + 1 } : World).socketConnected
        = false) := hsc
    obtain ⟨hInv1, hpt, htimers, hnt, hntok, hscEq, s, hs⟩ :=
      getOrCreateSession_spec { w with nextToken := w.nextToken + 1 } sid
        (winv_bumpToken w h)
    have hres : openTab w sid url
        = ({ setObj (getOrCreateSession { w with nextToken := w.nextToken + 1 } sid).1
              (getOrCreateSession { w with nextToken := w.nextToken + 1 } sid).2
              { s with
                callIdCounter := s.callIdCounter + 1
                pendingOpenTabs := mSet s.pendingOpenTabs
                  (mkCallId s.id pfxOpen (s.callIdCounter + 1))
                  { token := w.nextToken,
                    timeout := (getOrCreateSession
                      { w with nextToken := w.nextToken + 1 } sid).1.nextTimer } } with
            timers := (getOrCreateSession { w with nextToken := w.nextToken + 1 } sid).1.timers ++
              [((getOrCreateSession { w with nextToken := w.nextToken + 1 } sid).1.nextTimer,
                 TimerKind.openTabTimeout
                   (getOrCreateSession { w with nextToken := w.nextToken + 1 } sid).2
                   (mkCallId s.id pfxOpen (s.callIdCounter + 1)) w.nextToken)]
            nextTimer := (getOrCreateSession
              { w with nextToken := w.nextToken + 1 } sid).1.nextTimer + 1 }, []) := by
      simp only [openTab]
      rw [if_neg hcond, hs]
      rfl
    set r := getOrCreateSession { w with nextToken := w.nextToken + 1 } sid with hr
    set K := mkCallId s.id pfxOpen (s.callIdCounter + 1) with hK
    set v : PendingOpenTabOperation :=
      { token := w.nextToken, timeout := r.1.nextTimer } with hv
    set s2 : Session :=
      { s with
        callIdCounter := s.callIdCounter + 1
        pendingOpenTabs := mSet s.pendingOpenTabs K v } with hs2
    have htokLt : w.nextToken < r.1.nextToken := by
      rw [hntok]
      exact Nat.lt_succ_self _
    have hKfresh : mGet s.pendingOpenTabs K = none := by
      apply mGet_eq_none_of_not_mem_keys
      exact fresh_key_not_mem s pfxOpen pfxOpen_no_underscore _
        (fun cid hc => hInv1.keyStruct r.2 s hs cid (Or.inr hc))
    have hcount2 : ∀ t : Nat, s2.pendingTokens.count t
        = s.pendingTokens.count t + (if w.nextToken = t then 1 else 0) := by
      intro t
      simp only [hs2, Session.pendingTokens, List.count_append]
      rw [count_map_token_mSet_fresh s.pendingOpenTabs K v
        (fun p => p.token) hKfresh t]
      simp only [hv]
      omega
    rw [hres]
    refine ⟨winv_register_open r.1 r.2 s w.nextToken hInv1 hs htokLt, ?_, ?_⟩
    · show w.nextToken ≤ r.1.nextToken
      omega
    · intro t
      have hcw := count_flatMap_set r.1.heap r.2 s s2 Session.pendingTokens hs t
      have h2 := hcount2 t
      have hW1 : (r.1.heap.flatMap Session.pendingTokens).count t
          = w.pendingTokens.count t := by
        have h3 : r.1.pendingTokens = w.pendingTokens := hpt
        simpa [World.pendingTokens] using congrArg (fun l => l.count t) h3
      show (List.map Prod.fst ([] : List Completion)).count t
          + ((r.1.heap.set r.2 s2).flatMap Session.pendingTokens).count t
        = w.pendingTokens.count t
          + (if w.nextToken ≤ t ∧ t < r.1.nextToken then 1 else 0)
      rw [hntok, show ({ w with nextToken := w.nextToken + 1 } : World).nextToken
          = w.nextToken + 1 from rfl]
      simp only [List.map_nil, List.count_nil]
      by_cases he : w.nextToken = t
      · rw [if_pos he] at h2
        subst he
        rw [if_pos (by omega)]
        omega
      · rw [if_neg he] at h2
        rw [if_neg (by omega)]
        omega

/-- Invariant preservation for registering a pending close-tab operation
with its timer (the core of `closeTab` after the duplicate guard). -/
theorem winv_register_close (w1 : World) (obj : Nat) (s : Session) (tabId tok : Nat)
    (hInv : WInv w1) (hs : w1.heap[obj]? = some s) (htok : tok < w1.nextToken)
    (hfresh : mGet s.pendingCloseTabs tabId = none) :
    WInv { setObj w1 obj
            { s with
              pendingCloseTabs := mSet s.pendingCloseTabs tabId
                { token := tok, timeout := w1.nextTimer } } with
          timers := w1.timers ++
            [(w1.nextTimer, TimerKind.closeTabTimeout obj tabId tok)]
          nextTimer := w1.nextTimer + 1 } := by
  set v : PendingCloseTabOperation := { token := tok, timeout := w1.nextTimer } with hv
  set s2 : Session :=
    { s with pendingCloseTabs := mSet s.pendingCloseTabs tabId v } with hs2
  have hKnotmem : tabId ∉ s.pendingCloseTabs.map Prod.fst := by
    intro hmem
    obtain ⟨v', hv'⟩ := exists_mGet_of_mem_keys _ _ hmem
    rw [hfresh] at hv'
    simp at hv'
  have hmSetApp : mSet s.pendingCloseTabs tabId v = s.pendingCloseTabs ++ [(tabId, v)] :=
    mSet_eq_append _ _ _ hfresh
  have htimNotMem : w1.nextTimer ∉ w1.timers.map Prod.fst := by
    intro hmem
    obtain ⟨e, he, heq⟩ := List.mem_map.1 hmem
    have := hInv.timerIds e he
    omega
  have htimNone : mGet w1.timers w1.nextTimer = none :=
    mGet_eq_none_of_not_mem_keys _ _ htimNotMem
  constructor <;> (try simp only [setObj, World.pendingTokens])
  · intro e he
    have := hInv.tableObj e he
    simpa using this
  · intro e he
    rcases List.mem_append.1 he with hm | hm
    · have := hInv.timerIds e hm
      omega
    · simp only [List.mem_singleton] at hm
      subst hm
      simp
  · simp only [List.map_append, List.map_cons, List.map_nil]
    exact nodup_append_singleton _ _ hInv.timerNodup htimNotMem
  · intro t ht
    have hcnt : 0 < ((w1.heap.set obj s2).flatMap Session.pendingTokens).count t :=
      count_pos_of_tokens_mem _ t ht
    have hcw := count_flatMap_set w1.heap obj s s2 Session.pendingTokens hs t
    have h2 : s2.pendingTokens.count t
        = s.pendingTokens.count t + (if tok = t then 1 else 0) := by
      simp only [hs2, Session.pendingTokens, List.count_append]
      rw [count_map_token_mSet_fresh s.pendingCloseTabs tabId v
        (fun p => p.token) hfresh t]
      simp only [hv]
      omega
    by_cases he : tok = t
    · omega
    · have hp : 0 < (w1.heap.flatMap Session.pendingTokens).count t := by
        simp only [he, if_false, if_neg, not_false_iff] at h2
        omega
      exact hInv.tokFresh t (tokens_mem_of_count_pos _ t hp)
  · intro obj' s' hs'
    by_cases hobj : obj' = obj
    · subst hobj
      rw [getElem?_set_self _ _ s s2 hs] at hs'
      injection hs' with hs'
      subst hs'
      obtain ⟨hc1, hc2, hc3⟩ := hInv.mapsNodup obj' s hs
      refine ⟨hc1, hc2, ?_⟩
      rw [show s2.pendingCloseTabs = s.pendingCloseTabs ++ [(tabId, v)] from hmSetApp]
      simp only [List.map_append, List.map_cons, List.map_nil]
      exact nodup_append_singleton _ _ hc3 hKnotmem
    · rw [getElem?_set_ne _ _ _ _ hobj] at hs'
      exact hInv.mapsNodup obj' s' hs'
  · intro obj' s' hs' cid hcid
    by_cases hobj : obj' = obj
    · subst hobj
      rw [getElem?_set_self _ _ s s2 hs] at hs'
      injection hs' with hs'
      subst hs'
      exact hInv.keyStruct obj' s hs cid hcid
    · rw [getElem?_set_ne _ _ _ _ hobj] at hs'
      exact hInv.keyStruct obj' s' hs' cid hcid
  · intro tid obj' rid tok' ht
    rcases List.mem_append.1 ht with hm | hm
    · obtain ⟨s', hs', hmg⟩ := hInv.timerOpen tid obj' rid tok' hm
      by_cases hobj : obj' = obj
      · subst hobj
        rw [hs] at hs'
        injection hs' with hs'
        subst hs'
        exact ⟨s2, getElem?_set_self _ _ s s2 hs, hmg⟩
      · exact ⟨s', by rw [getElem?_set_ne _ _ _ _ hobj]; exact hs', hmg⟩
    · simp at hm
  · intro tid obj' tabId' tok' ht
    rcases List.mem_append.1 ht with hm | hm
    · obtain ⟨s', hs', hmg⟩ := hInv.timerClose tid obj' tabId' tok' hm
      by_cases hobj : obj' = obj
      · subst hobj
        rw [hs] at hs'
        injection hs' with hs'
        subst hs'
        refine ⟨s2, getElem?_set_self _ _ s s2 hs, ?_⟩
        have hne : tabId' ≠ tabId := by
          intro hc
          subst hc
          rw [hfresh] at hmg
          simp at hmg
        rw [show s2.pendingCloseTabs = mSet s.pendingCloseTabs tabId v from rfl,
          mGet_mSet_ne _ _ _ _ hne]
        exact hmg
      · exact ⟨s', by rw [getElem?_set_ne _ _ _ _ hobj]; exact hs', hmg⟩
    · simp only [List.mem_singleton] at hm
      injection hm with hm1 hm2
      subst hm1
      injection hm2 with e1 e2 e3
      subst e1
      refine ⟨s2, getElem?_set_self _ _ s s2 hs, ?_⟩
      rw [e2, e3]
      rw [show s2.pendingCloseTabs = mSet s.pendingCloseTabs tabId v from rfl]
      exact mGet_mSet_self _ _ _
  · intro tid obj' tok' ht
    rcases List.mem_append.1 ht with hm | hm
    · obtain ⟨s', hs', hmg⟩ := hInv.timerConn tid obj' tok' hm
      by_cases hobj : obj' = obj
      · subst hobj
        rw [hs] at hs'
        injection hs' with hs'
        subst hs'
        exact ⟨s2, getElem?_set_self _ _ s s2 hs, hmg⟩
      · exact ⟨s', by rw [getElem?_set_ne _ _ _ _ hobj]; exact hs', hmg⟩
    · simp at hm
  · intro tid obj' cid tok' ht
    rcases List.mem_append.1 ht with hm | hm
    · obtain ⟨s', hs', hag, p, n, hp, hn0, hnc, heq⟩ := hInv.timerCall tid obj' cid tok' hm
      by_cases hobj : obj' = obj
      · subst hobj
        rw [hs] at hs'
        injection hs' with hs'
        subst hs'
        exact ⟨s2, getElem?_set_self _ _ s s2 hs, hag, p, n, hp, hn0, hnc, heq⟩
      · exact ⟨s', by rw [getElem?_set_ne _ _ _ _ hobj]; exact hs', hag,
          p, n, hp, hn0, hnc, heq⟩
    · simp at hm
  · intro obj' s' hs' e he
    by_cases hobj : obj' = obj
    · subst hobj
      rw [getElem?_set_self _ _ s s2 hs] at hs'
      injection hs' with hs'
      subst hs'
      exact mGet_append_left _ _ _ _ (hInv.entryOpen obj' s hs e he)
    · rw [getElem?_set_ne _ _ _ _ hobj] at hs'
      exact mGet_append_left _ _ _ _ (hInv.entryOpen obj' s' hs' e he)
  · intro obj' s' hs' e he
    by_cases hobj : obj' = obj
    · subst hobj
      rw [getElem?_set_self _ _ s s2 hs] at hs'
      injection hs' with hs'
      subst hs'
      rw [show s2.pendingCloseTabs = s.pendingCloseTabs ++ [(tabId, v)] from hmSetApp] at he
      rcases List.mem_append.1 he with hm | hm
      · exact mGet_append_left _ _ _ _ (hInv.entryClose obj' s hs e hm)
      · simp only [List.mem_singleton] at hm
        subst hm
        rw [mGet_append_right _ _ _ htimNone]
        simp [mGet, hv]
    · rw [getElem?_set_ne _ _ _ _ hobj] at hs'
      exact mGet_append_left _ _ _ _ (hInv.entryClose obj' s' hs' e he)
  · intro obj' s' hs' p hp
    by_cases hobj : obj' = obj
    · subst hobj
      rw [getElem?_set_self _ _ s s2 hs] at hs'
      injection hs' with hs'
      subst hs'
      exact mGet_append_left _ _ _ _ (hInv.entryConn obj' s hs p hp)
    · rw [getElem?_set_ne _ _ _ _ hobj] at hs'
      exact mGet_append_left _ _ _ _ (hInv.entryConn obj' s' hs' p hp)
  · intro obj' s' hs' e he
    by_cases hobj : obj' = obj
    · subst hobj
      rw [getElem?_set_self _ _ s s2 hs] at hs'
      injection hs' with hs'
      subst hs'
      obtain ⟨tid, htid⟩ := hInv.entryCall obj' s hs e he
      exact ⟨tid, mGet_append_left _ _ _ _ htid⟩
    · rw [getElem?_set_ne _ _ _ _ hobj] at hs'
      obtain ⟨tid, htid⟩ := hInv.entryCall obj' s' hs' e he
      exact ⟨tid, mGet_append_left _ _ _ _ htid⟩
  · intro obj' s' hs' hps
    by_cases hobj : obj' = obj
    · subst hobj
      rw [getElem?_set_self _ _ s s2 hs] at hs'
      injection hs' with hs'
      subst hs'
      exact hInv.connFlag obj' s hs hps
    · rw [getElem?_set_ne _ _ _ _ hobj] at hs'
      exact hInv.connFlag obj' s' hs' hps
  · intro hcl e he s' hs'
    have hcl' : w1.socketConnected = false := hcl
    by_cases hobj : e.2 = obj
    · rw [hobj, getElem?_set_self _ _ s s2 hs] at hs'
      injection hs' with hs'
      subst hs'
      exact hInv.quietWhenClosed hcl' e he s (by rw [hobj]; exact hs)
    · rw [getElem?_set_ne _ _ _ _ hobj] at hs'
      exact hInv.quietWhenClosed hcl' e he s' hs'

theorem stepOK_closeTab (w : World) (sid : Str) (tabId : Nat) (h : WInv w) :
    StepOK w (closeTab w sid tabId) := by
  by_cases hsc : w.socketConnected = false
  · have hres : closeTab w sid tabId
        = ({ w with nextToken := w.nextToken + 1 },
           [(w.nextToken, Outcome.rejected Reason.notConnected)]) := by
      simp only [closeTab]
      rw [if_pos
        (show ({ w with nextToken := w.nextToken + 1 } : World).socketConnected
            = false from hsc)]
    rw [hres]
    refine ⟨winv_bumpToken w h, by simp, ?_⟩
    intro t
    have hsame : World.pendingTokens { w with nextToken := w.nextToken + 1 }
        = w.pendingTokens := rfl
    have hnt2 : ({ w with nextToken := w.nextToken + 1 } : World).nextToken
        = w.nextToken + 1 := rfl
    rw [hsame, hnt2]
    by_cases ht : w.nextToken = t
    · subst ht
      simp [List.count_cons]
      omega
    · have hno : ¬ (w.nextToken ≤ t ∧ t < w.nextToken + 1) := by omega
      simp [List.count_cons, Ne.symm ht, hno]
  · have hcond : ¬ (({ w with nextToken := w.nextToken + 1 } : World).socketConnected
        = false) := hsc
    obtain ⟨hInv1, hpt, htimers, hnt, hntok, hscEq, s, hs⟩ :=
      getOrCreateSession_spec { w with nextToken := w.nextToken + 1 } sid
        (winv_bumpToken w h)
    cases hget : mGet s.pendingCloseTabs tabId with
    | some pc =>
      have hres : closeTab w sid tabId
          = ((getOrCreateSession { w with nextToken := w.nextToken + 1 } sid).1,
             [(w.nextToken, Outcome.rejected (Reason.alreadyClosing tabId))]) := by
        simp only [closeTab]
        rw [if_neg hcond, hs]
        simp [hget]
      rw [hres]
      set r := getOrCreateSession { w with nextToken := w.nextToken + 1 } sid with hr
      refine ⟨hInv1, ?_, ?_⟩
      · show w.nextToken ≤ r.1.nextToken
        rw [hntok]
        exact Nat.le_succ _
      · intro t
        have hW1 : r.1.pendingTokens.count t = w.pendingTokens.count t := by
          rw [hpt]
          rfl
        rw [hW1, hntok, show ({ w with nextToken := w.nextToken + 1 } : World).nextToken
            = w.nextToken + 1 from rfl]
        by_cases ht : w.nextToken = t
        · subst ht
          simp [List.count_cons]
          omega
        · have hno : ¬ (w.nextToken ≤ t ∧ t < w.nextToken + 1) := by omega
          simp [List.count_cons, Ne.symm ht, hno]
    | none =>
      have hres : closeTab w sid tabId
          = ({ setObj (getOrCreateSession { w with nextToken := w.nextToken + 1 } sid).1
                (getOrCreateSession { w with nextToken := w.nextToken + 1 } sid).2
                { s with
                  pendingCloseTabs := mSet s.pendingCloseTabs tabId
                    { token := w.nextToken,
                      timeout := (getOrCreateSession
                        { w with nextToken := w.nextToken + 1 } sid).1.nextTimer } } with
              timers := (getOrCreateSession
                  { w with nextToken := w.nextToken + 1 } sid).1.timers ++
                [((getOrCreateSession { w with nextToken := w.nextToken + 1 } sid).1.nextTimer,
                   TimerKind.closeTabTimeout
                     (getOrCreateSession { w with nextToken := w.nextToken + 1 } sid).2
                     tabId w.nextToken)]
              nextTimer := (getOrCreateSession
                { w with nextToken := w.nextToken + 1 } sid).1.nextTimer + 1 }, []) := by
        simp only [closeTab]
        rw [if_neg hcond, hs]
        simp [hget]
      set r := getOrCreateSession { w with nextToken := w.nextToken + 1 } sid with hr
      set v : PendingCloseTabOperation :=
        { token := w.nextToken, timeout := r.1.nextTimer } with hv
      set s2 : Session :=
        { s with pendingCloseTabs := mSet s.pendingCloseTabs tabId v } with hs2
      have htokLt : w.nextToken < r.1.nextToken := by
        rw [hntok]
        exact Nat.lt_succ_self _
      have hcount2 : ∀ t : Nat, s2.pendingTokens.count t
          = s.pendingTokens.count t + (if w.nextToken = t then 1 else 0) := by
        intro t
        simp only [hs2, Session.pendingTokens, List.count_append]
        rw [count_map_token_mSet_fresh s.pendingCloseTabs tabId v
          (fun p => p.token) hget t]
        simp only [hv]
        omega
      rw [hres]
      refine ⟨winv_register_close r.1 r.2 s tabId w.nextToken hInv1 hs htokLt hget, ?_, ?_⟩
      · show w.nextToken ≤ r.1.nextToken
        omega
      · intro t
        have hcw := count_flatMap_set r.1.heap r.2 s s2 Session.pendingTokens hs t
        have h2 := hcount2 t
        have hW1 : (r.1.heap.flatMap Session.pendingTokens).count t
            = w.pendingTokens.count t := by
          have h3 : r.1.pendingTokens = w.pendingTokens := hpt
          simpa [World.pendingTokens] using congrArg (fun l => l.count t) h3
        show (List.map Prod.fst ([] : List Completion)).count t
            + ((r.1.heap.set r.2 s2).flatMap Session.pendingTokens).count t
          = w.pendingTokens.count t
            + (if w.nextToken ≤ t ∧ t < r.1.nextToken then 1 else 0)
        rw [hntok, show ({ w with nextToken := w.nextToken + 1 } : World).nextToken
            = w.nextToken + 1 from rfl]
        simp only [List.map_nil, List.count_nil]
        by_cases he : w.nextToken = t
        · rw [if_pos he] at h2
          subst he
          rw [if_pos (by omega)]
          omega
        · rw [if_neg he] at h2
          rw [if_neg (by omega)]
          omega

/-- Invariant preservation for registering a pending tool call (the shared
core of `callPageTool` and `discoverToolsForTab`): the entry stores no
timeout handle, and a membership-checking timer is armed. -/
theorem winv_register_call (w1 : World) (obj : Nat) (s : Session) (pfx : Str)
    (tok : Nat) (hpfx : '_' ∉ pfx)
    (hInv : WInv w1) (hs : w1.heap[obj]? = some s) (htok : tok < w1.nextToken) :
    WInv { setObj w1 obj
            { s with
              callIdCounter := s.callIdCounter + 1
              pendingCalls := mSet s.pendingCalls
                (mkCallId s.id pfx (s.callIdCounter + 1)) { token := tok } } with
          timers := w1.timers ++
            [(w1.nextTimer, TimerKind.callTimeout obj
                (mkCallId s.id pfx (s.callIdCounter + 1)) tok)]
          nextTimer := w1.nextTimer + 1 } := by
  set K := mkCallId s.id pfx (s.callIdCounter + 1) with hK
  set v : PendingCall := { token := tok } with hv
  set s2 : Session :=
    { s with
      callIdCounter := s.callIdCounter + 1
      pendingCalls := mSet s.pendingCalls K v } with hs2
  have hKfresh : mGet s.pendingCalls K = none := by
    apply mGet_eq_none_of_not_mem_keys
    exact fresh_key_not_mem s pfx hpfx _
      (fun cid hc => hInv.keyStruct obj s hs cid (Or.inl hc))
  have hmSetApp : mSet s.pendingCalls K v = s.pendingCalls ++ [(K, v)] :=
    mSet_eq_append _ _ _ hKfresh
  have htimNotMem : w1.nextTimer ∉ w1.timers.map Prod.fst := by
    intro hmem
    obtain ⟨e, he, heq⟩ := List.mem_map.1 hmem
    have := hInv.timerIds e he
    omega
  have htimNone : mGet w1.timers w1.nextTimer = none :=
    mGet_eq_none_of_not_mem_keys _ _ htimNotMem
  have hcc : s2.callIdCounter = s.callIdCounter + 1 := rfl
  constructor <;> (try simp only [setObj, World.pendingTokens])
  · intro e he
    have := hInv.tableObj e he
    simpa using this
  · intro e he
    rcases List.mem_append.1 he with hm | hm
    · have := hInv.timerIds e hm
      omega
    · simp only [List.mem_singleton] at hm
      subst hm
      simp
  · simp only [List.map_append, List.map_cons, List.map_nil]
    exact nodup_append_singleton _ _ hInv.timerNodup htimNotMem
  · intro t ht
    have hcnt : 0 < ((w1.heap.set obj s2).flatMap Session.pendingTokens).count t :=
      count_pos_of_tokens_mem _ t ht
    have hcw := count_flatMap_set w1.heap obj s s2 Session.pendingTokens hs t
    have h2 : s2.pendingTokens.count t
        = s.pendingTokens.count t + (if tok = t then 1 else 0) := by
      simp only [hs2, Session.pendingTokens, List.count_append]
      rw [count_map_token_mSet_fresh s.pendingCalls K v
        (fun p => p.token) hKfresh t]
      simp only [hv]
      omega
    by_cases he : tok = t
    · omega
    · have hp : 0 < (w1.heap.flatMap Session.pendingTokens).count t := by
        simp only [he, if_false, if_neg, not_false_iff] at h2
        omega
      exact hInv.tokFresh t (tokens_mem_of_count_pos _ t hp)
  · intro obj' s' hs'
    by_cases hobj : obj' = obj
    · subst hobj
      rw [getElem?_set_self _ _ s s2 hs] at hs'
      injection hs' with hs'
      subst hs'
      obtain ⟨hc1, hc2, hc3⟩ := hInv.mapsNodup obj' s hs
      refine ⟨?_, hc2, hc3⟩
      rw [show s2.pendingCalls = s.pendingCalls ++ [(K, v)] from hmSetApp]
      simp only [List.map_append, List.map_cons, List.map_nil]
      refine nodup_append_singleton _ _ hc1 ?_
      apply fresh_key_not_mem s pfx hpfx _
        (fun cid hc => hInv.keyStruct obj' s hs cid (Or.inl hc))
    · rw [getElem?_set_ne _ _ _ _ hobj] at hs'
      exact hInv.mapsNodup obj' s' hs'
  · intro obj' s' hs' cid hcid
    by_cases hobj : obj' = obj
    · subst hobj
      rw [getElem?_set_self _ _ s s2 hs] at hs'
      injection hs' with hs'
      subst hs'
      rcases hcid with hcid | hcid
      · rw [show s2.pendingCalls = s.pendingCalls ++ [(K, v)] from hmSetApp] at hcid
        simp only [List.map_append, List.map_cons, List.map_nil, List.mem_append,
          List.mem_singleton] at hcid
        rcases hcid with hcid | hcid
        · obtain ⟨p, n, hp, hn0, hnc, heq⟩ :=
            hInv.keyStruct obj' s hs cid (Or.inl hcid)
          exact ⟨p, n, hp, hn0, by omega, heq⟩
        · subst hcid
          exact ⟨pfx, s.callIdCounter + 1, hpfx, by omega, by omega, rfl⟩
      · obtain ⟨p, n, hp, hn0, hnc, heq⟩ :=
          hInv.keyStruct obj' s hs cid (Or.inr hcid)
        exact ⟨p, n, hp, hn0, by omega, heq⟩
    · rw [getElem?_set_ne _ _ _ _ hobj] at hs'
      exact hInv.keyStruct obj' s' hs' cid hcid
  · intro tid obj' rid tok' ht
    rcases List.mem_append.1 ht with hm | hm
    · obtain ⟨s', hs', hmg⟩ := hInv.timerOpen tid obj' rid tok' hm
      by_cases hobj : obj' = obj
      · subst hobj
        rw [hs] at hs'
        injection hs' with hs'
        subst hs'
        exact ⟨s2, getElem?_set_self _ _ s s2 hs, hmg⟩
      · exact ⟨s', by rw [getElem?_set_ne _ _ _ _ hobj]; exact hs', hmg⟩
    · simp at hm
  · intro tid obj' tabId' tok' ht
    rcases List.mem_append.1 ht with hm | hm
    · obtain ⟨s', hs', hmg⟩ := hInv.timerClose tid obj' tabId' tok' hm
      by_cases hobj : obj' = obj
      · subst hobj
        rw [hs] at hs'
        injection hs' with hs'
        subst hs'
        exact ⟨s2, getElem?_set_self _ _ s s2 hs, hmg⟩
      · exact ⟨s', by rw [getElem?_set_ne _ _ _ _ hobj]; exact hs', hmg⟩
    · simp at hm
  · intro tid obj' tok' ht
    rcases List.mem_append.1 ht with hm | hm
    · obtain ⟨s', hs', hmg⟩ := hInv.timerConn tid obj' tok' hm
      by_cases hobj : obj' = obj
      · subst hobj
        rw [hs] at hs'
        injection hs' with hs'
        subst hs'
        exact ⟨s2, getElem?_set_self _ _ s s2 hs, hmg⟩
      · exact ⟨s', by rw [getElem?_set_ne _ _ _ _ hobj]; exact hs', hmg⟩
    · simp at hm
  · intro tid obj' cid tok' ht
    rcases List.mem_append.1 ht with hm | hm
    · obtain ⟨s', hs', hag, p, n, hp, hn0, hnc, heq⟩ := hInv.timerCall tid obj' cid tok' hm
      by_cases hobj : obj' = obj
      · subst hobj
        rw [hs] at hs'
        injection hs' with hs'
        subst hs'
        refine ⟨s2, getElem?_set_self _ _ s s2 hs, ?_, p, n, hp, hn0, by omega, heq⟩
        have hcidne : cid ≠ K := by
          intro hc
          rw [hc, hK] at heq
          obtain ⟨_, hn⟩ := mkCallId_inj s.id pfx p (s.callIdCounter + 1) n hpfx hp heq
          omega
        rw [show s2.pendingCalls = mSet s.pendingCalls K v from rfl,
          mGet_mSet_ne _ _ _ _ hcidne]
        exact hag
      · exact ⟨s', by rw [getElem?_set_ne _ _ _ _ hobj]; exact hs', hag,
          p, n, hp, hn0, hnc, heq⟩
    · simp only [List.mem_singleton] at hm
      injection hm with hm1 hm2
      subst hm1
      injection hm2 with e1 e2 e3
      subst e1
      refine ⟨s2, getElem?_set_self _ _ s s2 hs, ?_, pfx, s.callIdCounter + 1,
        hpfx, by omega, by omega, by rw [e2]⟩
      intro pc hpc
      rw [e2] at hpc
      rw [show s2.pendingCalls = mSet s.pendingCalls K v from rfl,
        mGet_mSet_self] at hpc
      injection hpc with hpc
      rw [← hpc, e3]
  · intro obj' s' hs' e he
    by_cases hobj : obj' = obj
    · subst hobj
      rw [getElem?_set_self _ _ s s2 hs] at hs'
      injection hs' with hs'
      subst hs'
      exact mGet_append_left _ _ _ _ (hInv.entryOpen obj' s hs e he)
    · rw [getElem?_set_ne _ _ _ _ hobj] at hs'
      exact mGet_append_left _ _ _ _ (hInv.entryOpen obj' s' hs' e he)
  · intro obj' s' hs' e he
    by_cases hobj : obj' = obj
    · subst hobj
      rw [getElem?_set_self _ _ s s2 hs] at hs'
      injection hs' with hs'
      subst hs'
      exact mGet_append_left _ _ _ _ (hInv.entryClose obj' s hs e he)
    · rw [getElem?_set_ne _ _ _ _ hobj] at hs'
      exact mGet_append_left _ _ _ _ (hInv.entryClose obj' s' hs' e he)
  · intro obj' s' hs' p hp
    by_cases hobj : obj' = obj
    · subst hobj
      rw [getElem?_set_self _ _ s s2 hs] at hs'
      injection hs' with hs'
      subst hs'
      exact mGet_append_left _ _ _ _ (hInv.entryConn obj' s hs p hp)
    · rw [getElem?_set_ne _ _ _ _ hobj] at hs'
      exact mGet_append_left _ _ _ _ (hInv.entryConn obj' s' hs' p hp)
  · intro obj' s' hs' e he
    by_cases hobj : obj' = obj
    · subst hobj
      rw [getElem?_set_self _ _ s s2 hs] at hs'
      injection hs' with hs'
      subst hs'
      rw [show s2.pendingCalls = s.pendingCalls ++ [(K, v)] from hmSetApp] at he
      rcases List.mem_append.1 he with hm | hm
      · obtain ⟨tid, htid⟩ := hInv.entryCall obj' s hs e hm
        exact ⟨tid, mGet_append_left _ _ _ _ htid⟩
      · simp only [List.mem_singleton] at hm
        subst hm
        refine ⟨w1.nextTimer, ?_⟩
        rw [mGet_append_right _ _ _ htimNone]
        simp [mGet, hv]
    · rw [getElem?_set_ne _ _ _ _ hobj] at hs'
      obtain ⟨tid, htid⟩ := hInv.entryCall obj' s' hs' e he
      exact ⟨tid, mGet_append_left _ _ _ _ htid⟩
  · intro obj' s' hs' hps
    by_cases hobj : obj' = obj
    · subst hobj
      rw [getElem?_set_self _ _ s s2 hs] at hs'
      injection hs' with hs'
      subst hs'
      exact hInv.connFlag obj' s hs hps
    · rw [getElem?_set_ne _ _ _ _ hobj] at hs'
      exact hInv.connFlag obj' s' hs' hps
  · intro hcl e he s' hs'
    have hcl' : w1.socketConnected = false := hcl
    by_cases hobj : e.2 = obj
    · rw [hobj, getElem?_set_self _ _ s s2 hs] at hs'
      injection hs' with hs'
      subst hs'
      exact hInv.quietWhenClosed hcl' e he s (by rw [hobj]; exact hs)
    · rw [getElem?_set_ne _ _ _ _ hobj] at hs'
      exact hInv.quietWhenClosed hcl' e he s' hs'

theorem stepOK_callPageTool (w : World) (sid : Str) (tabId : Nat) (toolName : Str)
    (h : WInv w) : StepOK w (callPageTool w sid tabId toolName) := by
  by_cases hsc : w.socketConnected = false
  · have hres : callPageTool w sid tabId toolName
        = ({ w with nextToken := w.nextToken + 1 },
           [(w.nextToken, Outcome.rejected Reason.notConnected)]) := by
      simp only [callPageTool]
      rw [if_pos
        (show ({ w with nextToken := w.nextToken + 1 } : World).socketConnected
            = false from hsc)]
    rw [hres]
    refine ⟨winv_bumpToken w h, by simp, ?_⟩
    intro t
    have hsame : World.pendingTokens { w with nextToken := w.nextToken + 1 }
        = w.pendingTokens := rfl
    have hnt2 : ({ w with nextToken := w.nextToken + 1 } : World).nextToken
        = w.nextToken + 1 := rfl
    rw [hsame, hnt2]
    by_cases ht : w.nextToken = t
    · subst ht
      simp [List.count_cons]
      omega
    · have hno : ¬ (w.nextToken ≤ t ∧ t < w.nextToken + 1) := by omega
      simp [List.count_cons, Ne.symm ht, hno]
  · have hcond : ¬ (({ w with nextToken := w.nextToken + 1 } : World).socketConnected
        = false) := hsc
    obtain ⟨hInv1, hpt, htimers, hnt, hntok, hscEq, s, hs⟩ :=
      getOrCreateSession_spec { w with nextToken := w.nextToken + 1 } sid
        (winv_bumpToken w h)
    have hres : callPageTool w sid tabId toolName
        = ({ setObj (getOrCreateSession { w with nextToken := w.nextToken + 1 } sid).1
              (getOrCreateSession { w with nextToken := w.nextToken + 1 } sid).2
              { s with
                callIdCounter := s.callIdCounter + 1
                pendingCalls := mSet s.pendingCalls
                  (mkCallId s.id pfxCall (s.callIdCounter + 1))
                  { token := w.nextToken } } with
            timers := (getOrCreateSession { w with nextToken := w.nextToken + 1 } sid).1.timers ++
              [((getOrCreateSession { w with nextToken := w.nextToken + 1 } sid).1.nextTimer,
                 TimerKind.callTimeout
                   (getOrCreateSession { w with nextToken := w.nextToken + 1 } sid).2
                   (mkCallId s.id pfxCall (s.callIdCounter + 1)) w.nextToken)]
            nextTimer := (getOrCreateSession
              { w with nextToken := w.nextToken + 1 } sid).1.nextTimer + 1 }, []) := by
      simp only [callPageTool]
      rw [if_neg hcond, hs]
      rfl
    set r := getOrCreateSession { w with nextToken := w.nextToken + 1 } sid with hr
    set K := mkCallId s.id pfxCall (s.callIdCounter + 1) with hK
    set v : PendingCall := { token := w.nextToken } with hv
    set s2 : Session :=
      { s with
        callIdCounter := s.callIdCounter + 1
        pendingCalls := mSet s.pendingCalls K v } with hs2
    have htokLt : w.nextToken < r.1.nextToken := by
      rw [hntok]
      exact Nat.lt_succ_self _
    have hKfresh : mGet s.pendingCalls K = none := by
      apply mGet_eq_none_of_not_mem_keys
      exact fresh_key_not_mem s pfxCall pfxCall_no_underscore _
        (fun cid hc => hInv1.keyStruct r.2 s hs cid (Or.inl hc))
    have hcount2 : ∀ t : Nat, s2.pendingTokens.count t
        = s.pendingTokens.count t + (if w.nextToken = t then 1 else 0) := by
      intro t
      simp only [hs2, Session.pendingTokens, List.count_append]
      rw [count_map_token_mSet_fresh s.pendingCalls K v
        (fun p => p.token) hKfresh t]
      simp only [hv]
      omega
    rw [hres]
    refine ⟨winv_register_call r.1 r.2 s pfxCall w.nextToken
      pfxCall_no_underscore hInv1 hs htokLt, ?_, ?_⟩
    · show w.nextToken ≤ r.1.nextToken
      omega
    · intro t
      have hcw := count_flatMap_set r.1.heap r.2 s s2 Session.pendingTokens hs t
      have h2 := hcount2 t
      have hW1 : (r.1.heap.flatMap Session.pendingTokens).count t
          = w.pendingTokens.count t := by
        have h3 : r.1.pendingTokens = w.pendingTokens := hpt
        simpa [World.pendingTokens] using congrArg (fun l => l.count t) h3
      show (List.map Prod.fst ([] : List Completion)).count t
          + ((r.1.heap.set r.2 s2).flatMap Session.pendingTokens).count t
        = w.pendingTokens.count t
          + (if w.nextToken ≤ t ∧ t < r.1.nextToken then 1 else 0)
      rw [hntok, show ({ w with nextToken := w.nextToken + 1 } : World).nextToken
          = w.nextToken + 1 from rfl]
      simp only [List.map_nil, List.count_nil]
      by_cases he : w.nextToken = t
      · rw [if_pos he] at h2
        subst he
        rw [if_pos (by omega)]
        omega
      · rw [if_neg he] at h2
        rw [if_neg (by omega)]
        omega

theorem stepOK_discoverToolsForTab (w : World) (sid : Str) (tabId : Nat)
    (h : WInv w) : StepOK w (discoverToolsForTab w sid tabId) := by
  by_cases hsc : w.socketConnected = false
  · have hres : discoverToolsForTab w sid tabId
        = ({ w with nextToken := w.nextToken + 1 },
           [(w.nextToken, Outcome.rejected Reason.notConnected)]) := by
      simp only [discoverToolsForTab]
      rw [if_pos
        (show ({ w with nextToken := w.nextToken + 1 } : World).socketConnected
            = false from hsc)]
    rw [hres]
    refine ⟨winv_bumpToken w h, by simp, ?_⟩
    intro t
    have hsame : World.pendingTokens { w with nextToken := w.nextToken + 1 }
        = w.pendingTokens := rfl
    have hnt2 : ({ w with nextToken := w.nextToken + 1 } : World).nextToken
        = w.nextToken + 1 := rfl
    rw [hsame, hnt2]
    by_cases ht : w.nextToken = t
    · subst ht
      simp [List.count_cons]
      omega
    · have hno : ¬ (w.nextToken ≤ t ∧ t < w.nextToken + 1) := by omega
      simp [List.count_cons, Ne.symm ht, hno]
  · have hcond : ¬ (({ w with nextToken := w.nextToken + 1 } : World).socketConnected
        = false) := hsc
    obtain ⟨hInv1, hpt, htimers, hnt, hntok, hscEq, s, hs⟩ :=
      getOrCreateSession_spec { w with nextToken := w.nextToken + 1 } sid
        (winv_bumpToken w h)
    have hres : discoverToolsForTab w sid tabId
        = ({ setObj (getOrCreateSession { w with nextToken := w.nextToken + 1 } sid).1
              (getOrCreateSession { w with nextToken := w.nextToken + 1 } sid).2
              { s with
                callIdCounter := s.callIdCounter + 1
                pendingCalls := mSet s.pendingCalls
                  (mkCallId s.id pfxDiscover (s.callIdCounter + 1))
                  { token := w.nextToken } } with
            timers := (getOrCreateSession { w with nextToken := w.nextToken + 1 } sid).1.timers ++
              [((getOrCreateSession { w with nextToken := w.nextToken + 1 } sid).1.nextTimer,
                 TimerKind.callTimeout
                   (getOrCreateSession { w with nextToken := w.nextToken + 1 } sid).2
                   (mkCallId s.id pfxDiscover (s.callIdCounter + 1)) w.nextToken)]
            nextTimer := (getOrCreateSession
              { w with nextToken := w.nextToken + 1 } sid).1.nextTimer + 1 }, []) := by
      simp only [discoverToolsForTab]
      rw [if_neg hcond, hs]
      rfl
    set r := getOrCreateSession { w with nextToken := w.nextToken + 1 } sid with hr
    set K := mkCallId s.id pfxDiscover (s.callIdCounter + 1) with hK
    set v : PendingCall := { token := w.nextToken } with hv
    set s2 : Session :=
      { s with
        callIdCounter := s.callIdCounter + 1
        pendingCalls := mSet s.pendingCalls K v } with hs2
    have htokLt : w.nextToken < r.1.nextToken := by
      rw [hntok]
      exact Nat.lt_succ_self _
    have hKfresh : mGet s.pendingCalls K = none := by
      apply mGet_eq_none_of_not_mem_keys
      exact fresh_key_not_mem s pfxDiscover pfxDiscover_no_underscore _
        (fun cid hc => hInv1.keyStruct r.2 s hs cid (Or.inl hc))
    have hcount2 : ∀ t : Nat, s2.pendingTokens.count t
        = s.pendingTokens.count t + (if w.nextToken = t then 1 else 0) := by
      intro t
      simp only [hs2, Session.pendingTokens, List.count_append]
      rw [count_map_token_mSet_fresh s.pendingCalls K v
        (fun p => p.token) hKfresh t]
      simp only [hv]
      omega
    rw [hres]
    refine ⟨winv_register_call r.1 r.2 s pfxDiscover w.nextToken
      pfxDiscover_no_underscore hInv1 hs htokLt, ?_, ?_⟩
    · show w.nextToken ≤ r.1.nextToken
      omega
    · intro t
      have hcw := count_flatMap_set r.1.heap r.2 s s2 Session.pendingTokens hs t
      have h2 := hcount2 t
      have hW1 : (r.1.heap.flatMap Session.pendingTokens).count t
          = w.pendingTokens.count t := by
        have h3 : r.1.pendingTokens = w.pendingTokens := hpt
        simpa [World.pendingTokens] using congrArg (fun l => l.count t) h3
      show (List.map Prod.fst ([] : List Completion)).count t
          + ((r.1.heap.set r.2 s2).flatMap Session.pendingTokens).count t
        = w.pendingTokens.count t
          + (if w.nextToken ≤ t ∧ t < r.1.nextToken then 1 else 0)
      rw [hntok, show ({ w with nextToken := w.nextToken + 1 } : World).nextToken
          = w.nextToken + 1 from rfl]
      simp only [List.map_nil, List.count_nil]
      by_cases he : w.nextToken = t
      · rw [if_pos he] at h2
        subst he
        rw [if_pos (by omega)]
        omega
      · rw [if_neg he] at h2
        rw [if_neg (by omega)]
        omega

/-- Invariant preservation for filling the singleton connect slot (the
registration branch of `connectToExtension`). -/
theorem winv_register_connect (w1 : World) (obj : Nat) (s : Session) (tok : Nat)
    (hInv : WInv w1) (hs : w1.heap[obj]? = some s) (htok : tok < w1.nextToken)
    (hflag : s.connectInProgress = false) (hsc : w1.socketConnected = true) :
    WInv { setObj w1 obj
            { s with
              connectInProgress := true
              pendingConnect := some { token := tok, timeout := w1.nextTimer } } with
          timers := w1.timers ++ [(w1.nextTimer, TimerKind.connectTimeout obj tok)]
          nextTimer := w1.nextTimer + 1 } := by
  have hnone : s.pendingConnect = none := by
    cases hpc : s.pendingConnect with
    | none => rfl
    | some p =>
      have := hInv.connFlag obj s hs (by rw [hpc]; rfl)
      rw [hflag] at this
      exact absurd this (by simp)
  set pcv : PendingConnect := { token := tok, timeout := w1.nextTimer } with hpcv
  set s2 : Session :=
    { s with connectInProgress := true, pendingConnect := some pcv } with hs2
  have htimNotMem : w1.nextTimer ∉ w1.timers.map Prod.fst := by
    intro hmem
    obtain ⟨e, he, heq⟩ := List.mem_map.1 hmem
    have := hInv.timerIds e he
    omega
  have htimNone : mGet w1.timers w1.nextTimer = none :=
    mGet_eq_none_of_not_mem_keys _ _ htimNotMem
  have hcount2 : ∀ t : Nat, s2.pendingTokens.count t
      = s.pendingTokens.count t + (if tok = t then 1 else 0) := by
    intro t
    simp only [hs2, Session.pendingTokens, List.count_append, hnone, hpcv]
    by_cases he : tok = t <;> simp [List.count_cons, he]
  constructor <;> (try simp only [setObj, World.pendingTokens])
  · intro e he
    have := hInv.tableObj e he
    simpa using this
  · intro e he
    rcases List.mem_append.1 he with hm | hm
    · have := hInv.timerIds e hm
      omega
    · simp only [List.mem_singleton] at hm
      subst hm
      simp
  · simp only [List.map_append, List.map_cons, List.map_nil]
    exact nodup_append_singleton _ _ hInv.timerNodup htimNotMem
  · intro t ht
    have hcnt : 0 < ((w1.heap.set obj s2).flatMap Session.pendingTokens).count t :=
      count_pos_of_tokens_mem _ t ht
    have hcw := count_flatMap_set w1.heap obj s s2 Session.pendingTokens hs t
    have h2 := hcount2 t
    by_cases he : tok = t
    · omega
    · have hp : 0 < (w1.heap.flatMap Session.pendingTokens).count t := by
        simp only [he, if_false, if_neg, not_false_iff] at h2
        omega
      exact hInv.tokFresh t (tokens_mem_of_count_pos _ t hp)
  · intro obj' s' hs'
    by_cases hobj : obj' = obj
    · subst hobj
      rw [getElem?_set_self _ _ s s2 hs] at hs'
      injection hs' with hs'
      subst hs'
      exact hInv.mapsNodup obj' s hs
    · rw [getElem?_set_ne _ _ _ _ hobj] at hs'
      exact hInv.mapsNodup obj' s' hs'
  · intro obj' s' hs' cid hcid
    by_cases hobj : obj' = obj
    · subst hobj
      rw [getElem?_set_self _ _ s s2 hs] at hs'
      injection hs' with hs'
      subst hs'
      exact hInv.keyStruct obj' s hs cid hcid
    · rw [getElem?_set_ne _ _ _ _ hobj] at hs'
      exact hInv.keyStruct obj' s' hs' cid hcid
  · intro tid obj' rid tok' ht
    rcases List.mem_append.1 ht with hm | hm
    · obtain ⟨s', hs', hmg⟩ := hInv.timerOpen tid obj' rid tok' hm
      by_cases hobj : obj' = obj
      · subst hobj
        rw [hs] at hs'
        injection hs' with hs'
        subst hs'
        exact ⟨s2, getElem?_set_self _ _ s s2 hs, hmg⟩
      · exact ⟨s', by rw [getElem?_set_ne _ _ _ _ hobj]; exact hs', hmg⟩
    · simp at hm
  · intro tid obj' tabId' tok' ht
    rcases List.mem_append.1 ht with hm | hm
    · obtain ⟨s', hs', hmg⟩ := hInv.timerClose tid obj' tabId' tok' hm
      by_cases hobj : obj' = obj
      · subst hobj
        rw [hs] at hs'
        injection hs' with hs'
        subst hs'
        exact ⟨s2, getElem?_set_self _ _ s s2 hs, hmg⟩
      · exact ⟨s', by rw [getElem?_set_ne _ _ _ _ hobj]; exact hs', hmg⟩
    · simp at hm
  · intro tid obj' tok' ht
    rcases List.mem_append.1 ht with hm | hm
    · obtain ⟨s', hs', hmg⟩ := hInv.timerConn tid obj' tok' hm
      by_cases hobj : obj' = obj
      · subst hobj
        rw [hs] at hs'
        injection hs' with hs'
        subst hs'
        rw [hnone] at hmg
        simp at hmg
      · exact ⟨s', by rw [getElem?_set_ne _ _ _ _ hobj]; exact hs', hmg⟩
    · simp only [List.mem_singleton] at hm
      injection hm with hm1 hm2
      subst hm1
      injection hm2 with e1 e2
      subst e1
      refine ⟨s2, getElem?_set_self _ _ s s2 hs, ?_⟩
      rw [e2]
  · intro tid obj' cid tok' ht
    rcases List.mem_append.1 ht with hm | hm
    · obtain ⟨s', hs', hag, p, n, hp, hn0, hnc, heq⟩ := hInv.timerCall tid obj' cid tok' hm
      by_cases hobj : obj' = obj
      · subst hobj
        rw [hs] at hs'
        injection hs' with hs'
        subst hs'
        exact ⟨s2, getElem?_set_self _ _ s s2 hs, hag, p, n, hp, hn0, hnc, heq⟩
      · exact ⟨s', by rw [getElem?_set_ne _ _ _ _ hobj]; exact hs', hag,
          p, n, hp, hn0, hnc, heq⟩
    · simp at hm
  · intro obj' s' hs' e he
    by_cases hobj : obj' = obj
    · subst hobj
      rw [getElem?_set_self _ _ s s2 hs] at hs'
      injection hs' with hs'
      subst hs'
      exact mGet_append_left _ _ _ _ (hInv.entryOpen obj' s hs e he)
    · rw [getElem?_set_ne _ _ _ _ hobj] at hs'
      exact mGet_append_left _ _ _ _ (hInv.entryOpen obj' s' hs' e he)
  · intro obj' s' hs' e he
    by_cases hobj : obj' = obj
    · subst hobj
      rw [getElem?_set_self _ _ s s2 hs] at hs'
      injection hs' with hs'
      subst hs'
      exact mGet_append_left _ _ _ _ (hInv.entryClose obj' s hs e he)
    · rw [getElem?_set_ne _ _ _ _ hobj] at hs'
      exact mGet_append_left _ _ _ _ (hInv.entryClose obj' s' hs' e he)
  · intro obj' s' hs' p hp
    by_cases hobj : obj' = obj
    · subst hobj
      rw [getElem?_set_self _ _ s s2 hs] at hs'
      injection hs' with hs'
      subst hs'
      have hp2 : p = pcv := by
        have : s2.pendingConnect = some pcv := rfl
        rw [this] at hp
        injection hp with hp
        exact hp.symm
      subst hp2
      rw [mGet_append_right _ _ _ htimNone]
      simp [mGet, hpcv]
    · rw [getElem?_set_ne _ _ _ _ hobj] at hs'
      exact mGet_append_left _ _ _ _ (hInv.entryConn obj' s' hs' p hp)
  · intro obj' s' hs' e he
    by_cases hobj : obj' = obj
    · subst hobj
      rw [getElem?_set_self _ _ s s2 hs] at hs'
      injection hs' with hs'
      subst hs'
      obtain ⟨tid, htid⟩ := hInv.entryCall obj' s hs e he
      exact ⟨tid, mGet_append_left _ _ _ _ htid⟩
    · rw [getElem?_set_ne _ _ _ _ hobj] at hs'
      obtain ⟨tid, htid⟩ := hInv.entryCall obj' s' hs' e he
      exact ⟨tid, mGet_append_left _ _ _ _ htid⟩
  · intro obj' s' hs' hps
    by_cases hobj : obj' = obj
    · subst hobj
      rw [getElem?_set_self _ _ s s2 hs] at hs'
      injection hs' with hs'
      subst hs'
      rfl
    · rw [getElem?_set_ne _ _ _ _ hobj] at hs'
      exact hInv.connFlag obj' s' hs' hps
  · intro hcl
    have hcl' : w1.socketConnected = false := hcl
    rw [hsc] at hcl'
    exact absurd hcl' (by simp)

theorem stepOK_connectToExtension (w : World) (sid : Str) (h : WInv w) :
    StepOK w (connectToExtension w sid) := by
  obtain ⟨hInv1, hpt, htimers, hnt, hntok, hscEq, s, hs⟩ :=
    getOrCreateSession_spec w sid h
  have hs2 : ({ (getOrCreateSession w sid).1 with
      nextToken := (getOrCreateSession w sid).1.nextToken + 1 } : World).heap[
        (getOrCreateSession w sid).2]? = some s := hs
  have hW1 : ∀ t : Nat, (getOrCreateSession w sid).1.pendingTokens.count t
      = w.pendingTokens.count t := by
    intro t
    rw [hpt]
  cases hflag : s.connectInProgress with
  | true =>
    have hres : connectToExtension w sid
        = ({ (getOrCreateSession w sid).1 with
              nextToken := (getOrCreateSession w sid).1.nextToken + 1 },
           [((getOrCreateSession w sid).1.nextToken,
             Outcome.rejected Reason.connectAlreadyInProgress)]) := by
      simp only [connectToExtension]
      rw [hs2]
      simp [hflag]
    rw [hres]
    set r := getOrCreateSession w sid with hr
    refine ⟨winv_bumpToken r.1 hInv1, ?_, ?_⟩
    · show w.nextToken ≤ r.1.nextToken + 1
      rw [hntok]
      exact Nat.le_succ _
    · intro t
      show ([(r.1.nextToken, Outcome.rejected Reason.connectAlreadyInProgress)].map
          Prod.fst).count t + r.1.pendingTokens.count t
        = w.pendingTokens.count t
          + (if w.nextToken ≤ t ∧ t < r.1.nextToken + 1 then 1 else 0)
      rw [hW1 t, hntok]
      by_cases ht : w.nextToken = t
      · subst ht
        simp [List.count_cons]
        omega
      · have hno : ¬ (w.nextToken ≤ t ∧ t < w.nextToken + 1) := by omega
        simp [List.count_cons, Ne.symm ht, hno]
  | false =>
    have hflagneg : ¬ (s.connectInProgress = true) := by simp [hflag]
    cases hsc : w.socketConnected with
    | false =>
      have hcond : ({ (getOrCreateSession w sid).1 with
          nextToken := (getOrCreateSession w sid).1.nextToken + 1 } : World).socketConnected
          = false := by
        show (getOrCreateSession w sid).1.socketConnected = false
        rw [hscEq, hsc]
      have hres : connectToExtension w sid
          = ({ (getOrCreateSession w sid).1 with
                nextToken := (getOrCreateSession w sid).1.nextToken + 1 },
             [((getOrCreateSession w sid).1.nextToken,
               Outcome.rejected Reason.notConnected)]) := by
        simp only [connectToExtension]
        rw [hs2]
        simp [hflag, hscEq, hsc]
      rw [hres]
      set r := getOrCreateSession w sid with hr
      refine ⟨winv_bumpToken r.1 hInv1, ?_, ?_⟩
      · show w.nextToken ≤ r.1.nextToken + 1
        rw [hntok]
        exact Nat.le_succ _
      · intro t
        show ([(r.1.nextToken, Outcome.rejected Reason.notConnected)].map
            Prod.fst).count t + r.1.pendingTokens.count t
          = w.pendingTokens.count t
            + (if w.nextToken ≤ t ∧ t < r.1.nextToken + 1 then 1 else 0)
        rw [hW1 t, hntok]
        by_cases ht : w.nextToken = t
        · subst ht
          simp [List.count_cons]
          omega
        · have hno : ¬ (w.nextToken ≤ t ∧ t < w.nextToken + 1) := by omega
          simp [List.count_cons, Ne.symm ht, hno]
    | true =>
      have hcond : ¬ (({ (getOrCreateSession w sid).1 with
          nextToken := (getOrCreateSession w sid).1.nextToken + 1 } : World).socketConnected
          = false) := by
        show ¬ ((getOrCreateSession w sid).1.socketConnected = false)
        rw [hscEq, hsc]
        simp
      have hres : connectToExtension w sid
          = ({ setObj { (getOrCreateSession w sid).1 with
                  nextToken := (getOrCreateSession w sid).1.nextToken + 1 }
                (getOrCreateSession w sid).2
                { s with
                  connectInProgress := true
                  pendingConnect := some
                    { token := (getOrCreateSession w sid).1.nextToken,
                      timeout := ({ (getOrCreateSession w sid).1 with
                        nextToken := (getOrCreateSession w sid).1.nextToken + 1 }
                          : World).nextTimer } } with
              timers := ({ (getOrCreateSession w sid).1 with
                  nextToken := (getOrCreateSession w sid).1.nextToken + 1 }
                    : World).timers ++
                [(({ (getOrCreateSession w sid).1 with
                    nextToken := (getOrCreateSession w sid).1.nextToken + 1 }
                      : World).nextTimer,
                   TimerKind.connectTimeout (getOrCreateSession w sid).2
                     (getOrCreateSession w sid).1.nextToken)]
              nextTimer := ({ (getOrCreateSession w sid).1 with
                  nextToken := (getOrCreateSession w sid).1.nextToken + 1 }
                    : World).nextTimer + 1 }, []) := by
        simp only [connectToExtension]
        rw [hs2]
        simp [hflag, hscEq, hsc]
      rw [hres]
      set w2 : World := { (getOrCreateSession w sid).1 with
          nextToken := (getOrCreateSession w sid).1.nextToken + 1 } with hw2
      set r := getOrCreateSession w sid with hr
      have hs3 : w2.heap[r.2]? = some s := hs2
      have htokLt : r.1.nextToken < w2.nextToken := by
        show r.1.nextToken < r.1.nextToken + 1
        exact Nat.lt_succ_self _
      have hsc2 : w2.socketConnected = true := by
        show r.1.socketConnected = true
        rw [hscEq, hsc]
      have hInv2 : WInv w2 := winv_bumpToken r.1 hInv1
      have hnone : s.pendingConnect = none := by
        cases hpc : s.pendingConnect with
        | none => rfl
        | some p =>
          have := hInv1.connFlag r.2 s hs (by rw [hpc]; rfl)
          rw [hflag] at this
          exact absurd this (by simp)
      set pcv : PendingConnect :=
        { token := r.1.nextToken, timeout := w2.nextTimer } with hpcv
      set s2 : Session :=
        { s with connectInProgress := true, pendingConnect := some pcv } with hs2x
      have hcount2 : ∀ t : Nat, s2.pendingTokens.count t
          = s.pendingTokens.count t + (if r.1.nextToken = t then 1 else 0) := by
        intro t
        simp only [hs2x, Session.pendingTokens, List.count_append, hnone, hpcv]
        by_cases he : r.1.nextToken = t <;> simp [List.count_cons, he]
      refine ⟨winv_register_connect w2 r.2 s r.1.nextToken hInv2 hs3 htokLt hflag hsc2,
        ?_, ?_⟩
      · show w.nextToken ≤ w2.nextToken
        show w.nextToken ≤ r.1.nextToken + 1
        rw [hntok]
        exact Nat.le_succ _
      · intro t
        have hcw := count_flatMap_set w2.heap r.2 s s2 Session.pendingTokens hs3 t
        have h2 := hcount2 t
        have hW2 : (w2.heap.flatMap Session.pendingTokens).count t
            = w.pendingTokens.count t := by
          have h3 : r.1.pendingTokens = w.pendingTokens := hpt
          simpa [World.pendingTokens] using congrArg (fun l => l.count t) h3
        have hcwX : (((getOrCreateSession w sid).1.heap.set r.2 s2).flatMap
              Session.pendingTokens).count t + s.pendingTokens.count t
            = (((getOrCreateSession w sid).1.heap).flatMap
                Session.pendingTokens).count t + s2.pendingTokens.count t := hcw
        have hW2X : (((getOrCreateSession w sid).1.heap).flatMap
              Session.pendingTokens).count t = w.pendingTokens.count t := hW2
        show (List.map Prod.fst ([] : List Completion)).count t
            + (((getOrCreateSession w sid).1.heap.set r.2 s2).flatMap
                Session.pendingTokens).count t
          = w.pendingTokens.count t
            + (if w.nextToken ≤ t ∧ t < r.1.nextToken + 1 then 1 else 0)
        simp only [List.map_nil, List.count_nil]
        rw [hntok] at h2 ⊢
        by_cases he : w.nextToken = t
        · rw [if_pos he] at h2
          subst he
          rw [if_pos (by omega)]
          omega
        · rw [if_neg he] at h2
          rw [if_neg (by omega)]
          omega

theorem mGet_mDel_self_nodup [DecidableEq κ] (m : List (κ × α)) (k : κ)
    (hnd : (m.map Prod.fst).Nodup) : mGet (mDel m k) k = none := by
  induction m with
  | nil => rfl
  | cons e rest ih =>
    simp only [List.map_cons, List.nodup_cons] at hnd
    by_cases he : e.1 = k
    · simp only [mDel, he, if_pos]
      apply mGet_eq_none_of_not_mem_keys
      rw [← he]
      exact hnd.1
    · simp only [mDel, he, if_false, if_neg, not_false_iff, mGet]
      exact ih hnd.2

theorem foldl_mDel_sublist [DecidableEq κ] (ks : List κ) (m : List (κ × α)) :
    (ks.foldl (fun acc k => mDel acc k) m).Sublist m := by
  induction ks generalizing m with
  | nil => exact List.Sublist.refl m
  | cons k rest ih =>
    simp only [List.foldl_cons]
    exact (ih (mDel m k)).trans (mDel_sublist m k)

theorem mGet_foldl_mDel [DecidableEq κ] (ks : List κ) (m : List (κ × α)) (k : κ)
    (hnd : (m.map Prod.fst).Nodup) :
    mGet (ks.foldl (fun acc kk => mDel acc kk) m) k
      = if k ∈ ks then none else mGet m k := by
  induction ks generalizing m with
  | nil => simp
  | cons k0 rest ih =>
    simp only [List.foldl_cons]
    have hnd' : ((mDel m k0).map Prod.fst).Nodup := mDel_keys_nodup m k0 hnd
    rw [ih (mDel m k0) hnd']
    by_cases hk : k = k0
    · subst hk
      by_cases hmem : k ∈ rest
      · simp [hmem]
      · simp [hmem, mGet_mDel_self_nodup m k hnd]
    · by_cases hmem : k ∈ rest
      · simp [hmem]
      · simp [hmem, hk, mGet_mDel_ne m k0 k hk]

/-- The timer handles stored in a session's open/close/connect containers,
in the order `drainTimers` cancels them. -/
def drainKeys (s : Session) : List Nat :=
  s.pendingOpenTabs.map (fun e => e.2.timeout)
    ++ s.pendingCloseTabs.map (fun e => e.2.timeout)
    ++ (match s.pendingConnect with
        | some p => [p.timeout]
        | none => [])

theorem foldl_clearTimeout_timers {β : Type} (l : List β) (f : β → Nat) (w : World) :
    (l.foldl (fun acc e => clearTimeoutW acc (f e)) w)
      = { w with timers := (l.map f).foldl (fun acc k => mDel acc k) w.timers } := by
  induction l generalizing w with
  | nil => rfl
  | cons e rest ih =>
    simp only [List.foldl_cons, List.map_cons]
    rw [ih]
    rfl

theorem drainTimers_eq (w : World) (s : Session) :
    drainTimers w s
      = { w with timers := (drainKeys s).foldl (fun acc k => mDel acc k) w.timers } := by
  simp only [drainTimers]
  rw [foldl_clearTimeout_timers s.pendingOpenTabs (fun e => e.2.timeout) w,
    foldl_clearTimeout_timers s.pendingCloseTabs (fun e => e.2.timeout)]
  cases hpc : s.pendingConnect with
  | none =>
    simp [drainKeys, hpc, List.foldl_append]
  | some p =>
    simp [drainKeys, hpc, List.foldl_append, clearTimeoutW]

/-- The heap object a timer closure captured. -/
def TimerKind.kindObj : TimerKind → Nat
  | TimerKind.callTimeout obj _ _ => obj
  | TimerKind.openTabTimeout obj _ _ => obj
  | TimerKind.closeTabTimeout obj _ _ => obj
  | TimerKind.connectTimeout obj _ => obj

theorem drainKeys_owned (w : World) (obj : Nat) (s : Session)
    (hInv : WInv w) (hs : w.heap[obj]? = some s) :
    ∀ k ∈ drainKeys s, ∃ kind, mGet w.timers k = some kind ∧ kind.kindObj = obj := by
  intro k hk
  simp only [drainKeys, List.mem_append] at hk
  rcases hk with (hk | hk) | hk
  · obtain ⟨e, he, heq⟩ := List.mem_map.1 hk
    have := hInv.entryOpen obj s hs e he
    exact ⟨TimerKind.openTabTimeout obj e.1 e.2.token, heq ▸ this, rfl⟩
  · obtain ⟨e, he, heq⟩ := List.mem_map.1 hk
    have := hInv.entryClose obj s hs e he
    exact ⟨TimerKind.closeTabTimeout obj e.1 e.2.token, heq ▸ this, rfl⟩
  · cases hpc : s.pendingConnect with
    | none => rw [hpc] at hk; simp at hk
    | some p =>
      rw [hpc] at hk
      simp only [List.mem_singleton] at hk
      subst hk
      have := hInv.entryConn obj s hs p hpc
      exact ⟨TimerKind.connectTimeout obj p.token, this, rfl⟩

/-- Draining one session object: all containers are emptied, its stored
open/close/connect timers are cancelled, and the `connectInProgress` flag
becomes `b` (`false` for `rejectAllSessionPendingOps`, unchanged for
`deleteSession`).  The invariant is preserved and the object's tokens
leave the pending multiset. -/
theorem winv_drain_obj (w : World) (obj : Nat) (s : Session) (b : Bool)
    (hInv : WInv w) (hs : w.heap[obj]? = some s)
    (hb : b = false ∨ b = s.connectInProgress) :
    WInv { w with
            heap := w.heap.set obj
              { s with
                pendingCalls := []
                pendingOpenTabs := []
                pendingCloseTabs := []
                pendingConnect := none
                connectInProgress := b }
            timers := (drainKeys s).foldl (fun acc k => mDel acc k) w.timers }
    ∧ ∀ t : Nat,
      (World.pendingTokens { w with
          heap := w.heap.set obj
            { s with
              pendingCalls := []
              pendingOpenTabs := []
              pendingCloseTabs := []
              pendingConnect := none
              connectInProgress := b }
          timers := (drainKeys s).foldl (fun acc k => mDel acc k) w.timers }).count t
        + s.pendingTokens.count t
      = w.pendingTokens.count t := by
  set s2 : Session :=
    { s with
      pendingCalls := []
      pendingOpenTabs := []
      pendingCloseTabs := []
      pendingConnect := none
      connectInProgress := b } with hs2
  have hs2tok : s2.pendingTokens = [] := rfl
  have hcount : ∀ t : Nat,
      ((w.heap.set obj s2).flatMap Session.pendingTokens).count t
        + s.pendingTokens.count t
      = (w.heap.flatMap Session.pendingTokens).count t := by
    intro t
    have := count_flatMap_set w.heap obj s s2 Session.pendingTokens hs t
    rw [hs2tok] at this
    simpa using this
  have hsurv : ∀ tid (kind : TimerKind),
      (tid, kind) ∈ (drainKeys s).foldl (fun acc k => mDel acc k) w.timers →
      (tid, kind) ∈ w.timers ∧ tid ∉ drainKeys s ∧ mGet w.timers tid = some kind := by
    intro tid kind hmem
    have hsub := foldl_mDel_sublist (drainKeys s) w.timers
    have hmemw : (tid, kind) ∈ w.timers := hsub.mem hmem
    have hnd' : (((drainKeys s).foldl (fun acc k => mDel acc k) w.timers).map
        Prod.fst).Nodup := (hsub.map Prod.fst).nodup hInv.timerNodup
    have hg : mGet ((drainKeys s).foldl (fun acc k => mDel acc k) w.timers) tid
        = some kind := mem_mGet _ _ _ hnd' hmem
    rw [mGet_foldl_mDel _ _ _ hInv.timerNodup] at hg
    by_cases hin : tid ∈ drainKeys s
    · rw [if_pos hin] at hg
      simp at hg
    · rw [if_neg hin] at hg
      exact ⟨hmemw, hin, hg⟩
  have hkeep : ∀ tid (kind : TimerKind), mGet w.timers tid = some kind →
      kind.kindObj ≠ obj →
      mGet ((drainKeys s).foldl (fun acc k => mDel acc k) w.timers) tid
        = some kind := by
    intro tid kind hg hko
    rw [mGet_foldl_mDel _ _ _ hInv.timerNodup]
    by_cases hin : tid ∈ drainKeys s
    · exfalso
      obtain ⟨kind₀, hg₀, hko₀⟩ := drainKeys_owned w obj s hInv hs tid hin
      rw [hg] at hg₀
      injection hg₀ with hg₀
      exact hko (hg₀ ▸ hko₀)
    · rw [if_neg hin]
      exact hg
  refine ⟨?_, ?_⟩
  · constructor
    · intro e he
      have := hInv.tableObj e he
      simpa using this
    · intro e he
      exact hInv.timerIds e ((foldl_mDel_sublist (drainKeys s) w.timers).mem he)
    · exact ((foldl_mDel_sublist (drainKeys s) w.timers).map Prod.fst).nodup
        hInv.timerNodup
    · intro t ht
      simp only [World.pendingTokens] at ht
      have hcnt := count_pos_of_tokens_mem _ t ht
      have := hcount t
      have hp : 0 < (w.heap.flatMap Session.pendingTokens).count t := by omega
      exact hInv.tokFresh t (tokens_mem_of_count_pos _ t hp)
    · intro obj' s' hs'
      by_cases hobj : obj' = obj
      · subst hobj
        rw [getElem?_set_self _ _ s s2 hs] at hs'
        injection hs' with hs'
        subst hs'
        refine ⟨?_, ?_, ?_⟩ <;> simp [hs2]
      · rw [getElem?_set_ne _ _ _ _ hobj] at hs'
        exact hInv.mapsNodup obj' s' hs'
    · intro obj' s' hs' cid hcid
      by_cases hobj : obj' = obj
      · subst hobj
        rw [getElem?_set_self _ _ s s2 hs] at hs'
        injection hs' with hs'
        subst hs'
        simp [hs2] at hcid
      · rw [getElem?_set_ne _ _ _ _ hobj] at hs'
        exact hInv.keyStruct obj' s' hs' cid hcid
    · intro tid obj' rid tok ht
      obtain ⟨hmemw, hnin, hg⟩ := hsurv tid _ ht
      obtain ⟨s', hs', hmg⟩ := hInv.timerOpen tid obj' rid tok hmemw
      by_cases hobj : obj' = obj
      · subst hobj
        rw [hs] at hs'
        injection hs' with hs'
        subst hs'
        exfalso
        apply hnin
        simp only [drainKeys, List.mem_append]
        left; left
        exact List.mem_map.2 ⟨(rid, { token := tok, timeout := tid }),
          mGet_mem _ _ _ hmg, rfl⟩
      · exact ⟨s', by rw [getElem?_set_ne _ _ _ _ hobj]; exact hs', hmg⟩
    · intro tid obj' tabId tok ht
      obtain ⟨hmemw, hnin, hg⟩ := hsurv tid _ ht
      obtain ⟨s', hs', hmg⟩ := hInv.timerClose tid obj' tabId tok hmemw
      by_cases hobj : obj' = obj
      · subst hobj
        rw [hs] at hs'
        injection hs' with hs'
        subst hs'
        exfalso
        apply hnin
        simp only [drainKeys, List.mem_append]
        left; right
        exact List.mem_map.2 ⟨(tabId, { token := tok, timeout := tid }),
          mGet_mem _ _ _ hmg, rfl⟩
      · exact ⟨s', by rw [getElem?_set_ne _ _ _ _ hobj]; exact hs', hmg⟩
    · intro tid obj' tok ht
      obtain ⟨hmemw, hnin, hg⟩ := hsurv tid _ ht
      obtain ⟨s', hs', hmg⟩ := hInv.timerConn tid obj' tok hmemw
      by_cases hobj : obj' = obj
      · subst hobj
        rw [hs] at hs'
        injection hs' with hs'
        subst hs'
        exfalso
        apply hnin
        simp only [drainKeys, List.mem_append, hmg]
        right
        simp
      · exact ⟨s', by rw [getElem?_set_ne _ _ _ _ hobj]; exact hs', hmg⟩
    · intro tid obj' cid tok ht
      obtain ⟨hmemw, hnin, hg⟩ := hsurv tid _ ht
      obtain ⟨s', hs', hag, p, n, hp, hn0, hnc, heq⟩ :=
        hInv.timerCall tid obj' cid tok hmemw
      by_cases hobj : obj' = obj
      · subst hobj
        rw [hs] at hs'
        injection hs' with hs'
        subst hs'
        refine ⟨s2, getElem?_set_self _ _ s s2 hs, ?_, p, n, hp, hn0, hnc, heq⟩
        intro pc hpc
        rw [show s2.pendingCalls = ([] : List (Str × PendingCall)) from rfl] at hpc
        simp [mGet] at hpc
      · exact ⟨s', by rw [getElem?_set_ne _ _ _ _ hobj]; exact hs', hag,
          p, n, hp, hn0, hnc, heq⟩
    · intro obj' s' hs' e he
      by_cases hobj : obj' = obj
      · subst hobj
        rw [getElem?_set_self _ _ s s2 hs] at hs'
        injection hs' with hs'
        subst hs'
        simp [hs2] at he
      · rw [getElem?_set_ne _ _ _ _ hobj] at hs'
        exact hkeep _ _ (hInv.entryOpen obj' s' hs' e he) (by simp [TimerKind.kindObj, hobj])
    · intro obj' s' hs' e he
      by_cases hobj : obj' = obj
      · subst hobj
        rw [getElem?_set_self _ _ s s2 hs] at hs'
        injection hs' with hs'
        subst hs'
        simp [hs2] at he
      · rw [getElem?_set_ne _ _ _ _ hobj] at hs'
        exact hkeep _ _ (hInv.entryClose obj' s' hs' e he) (by simp [TimerKind.kindObj, hobj])
    · intro obj' s' hs' p hp
      by_cases hobj : obj' = obj
      · subst hobj
        rw [getElem?_set_self _ _ s s2 hs] at hs'
        injection hs' with hs'
        subst hs'
        rw [show s2.pendingConnect = (none : Option PendingConnect) from rfl] at hp
        simp at hp
      · rw [getElem?_set_ne _ _ _ _ hobj] at hs'
        exact hkeep _ _ (hInv.entryConn obj' s' hs' p hp) (by simp [TimerKind.kindObj, hobj])
    · intro obj' s' hs' e he
      by_cases hobj : obj' = obj
      · subst hobj
        rw [getElem?_set_self _ _ s s2 hs] at hs'
        injection hs' with hs'
        subst hs'
        simp [hs2] at he
      · rw [getElem?_set_ne _ _ _ _ hobj] at hs'
        obtain ⟨tid, htid⟩ := hInv.entryCall obj' s' hs' e he
        exact ⟨tid, hkeep _ _ htid (by simp [TimerKind.kindObj, hobj])⟩
    · intro obj' s' hs' hps
      by_cases hobj : obj' = obj
      · subst hobj
        rw [getElem?_set_self _ _ s s2 hs] at hs'
        injection hs' with hs'
        subst hs'
        rw [show s2.pendingConnect = (none : Option PendingConnect) from rfl] at hps
        simp at hps
      · rw [getElem?_set_ne _ _ _ _ hobj] at hs'
        exact hInv.connFlag obj' s' hs' hps
    · intro hcl e he s' hs'
      have hcl' : w.socketConnected = false := hcl
      by_cases hobj : e.2 = obj
      · rw [hobj, getElem?_set_self _ _ s s2 hs] at hs'
        injection hs' with hs'
        subst hs'
        show b = false
        rcases hb with hb | hb
        · exact hb
        · rw [hb]
          exact hInv.quietWhenClosed hcl' e he s (by rw [hobj]; exact hs)
      · rw [getElem?_set_ne _ _ _ _ hobj] at hs'
        exact hInv.quietWhenClosed hcl' e he s' hs'
  · intro t
    exact hcount t

/-- Completing a pending open-tab entry: the entry leaves its container and
its stored timer is cancelled. -/
theorem winv_complete_open (w : World) (obj : Nat) (s : Session) (rid : Str)
    (pending : PendingOpenTabOperation)
    (hInv : WInv w) (hs : w.heap[obj]? = some s)
    (hentry : mGet s.pendingOpenTabs rid = some pending) :
    WInv { w with
            heap := w.heap.set obj { s with pendingOpenTabs := mDel s.pendingOpenTabs rid }
            timers := mDel w.timers pending.timeout }
    ∧ ∀ t : Nat,
      (World.pendingTokens { w with
          heap := w.heap.set obj { s with pendingOpenTabs := mDel s.pendingOpenTabs rid }
          timers := mDel w.timers pending.timeout }).count t
        + (if pending.token = t then 1 else 0)
      = w.pendingTokens.count t := by
  set s2 : Session := { s with pendingOpenTabs := mDel s.pendingOpenTabs rid } with hs2
  have hnodups := hInv.mapsNodup obj s hs
  have hptimer : mGet w.timers pending.timeout
      = some (TimerKind.openTabTimeout obj rid pending.token) :=
    hInv.entryOpen obj s hs (rid, pending) (mGet_mem _ _ _ hentry)
  have hcount : ∀ t : Nat,
      ((w.heap.set obj s2).flatMap Session.pendingTokens).count t
        + (if pending.token = t then 1 else 0)
      = (w.heap.flatMap Session.pendingTokens).count t := by
    intro t
    have hcw := count_flatMap_set w.heap obj s s2 Session.pendingTokens hs t
    have h2 : s.pendingTokens.count t
        = s2.pendingTokens.count t + (if pending.token = t then 1 else 0) := by
      simp only [hs2, Session.pendingTokens, List.count_append]
      rw [count_map_token_mDel s.pendingOpenTabs rid pending
        (fun p => p.token) hentry t]
      omega
    omega
  have hkeep : ∀ tid (kind : TimerKind), mGet w.timers tid = some kind →
      tid ≠ pending.timeout → mGet (mDel w.timers pending.timeout) tid = some kind := by
    intro tid kind hg hne
    rw [mGet_mDel_ne _ _ _ hne]
    exact hg
  refine ⟨?_, hcount⟩
  constructor
  · intro e he
    have := hInv.tableObj e he
    simpa using this
  · intro e he
    exact hInv.timerIds e (mem_mDel _ _ _ he)
  · exact mDel_keys_nodup _ _ hInv.timerNodup
  · intro t ht
    simp only [World.pendingTokens] at ht
    have hcnt := count_pos_of_tokens_mem _ t ht
    have := hcount t
    have hp : 0 < (w.heap.flatMap Session.pendingTokens).count t := by omega
    exact hInv.tokFresh t (tokens_mem_of_count_pos _ t hp)
  · intro obj' s' hs'
    by_cases hobj : obj' = obj
    · subst hobj
      rw [getElem?_set_self _ _ s s2 hs] at hs'
      injection hs' with hs'
      subst hs'
      exact ⟨hnodups.1, mDel_keys_nodup _ _ hnodups.2.1, hnodups.2.2⟩
    · rw [getElem?_set_ne _ _ _ _ hobj] at hs'
      exact hInv.mapsNodup obj' s' hs'
  · intro obj' s' hs' cid hcid
    by_cases hobj : obj' = obj
    · subst hobj
      rw [getElem?_set_self _ _ s s2 hs] at hs'
      injection hs' with hs'
      subst hs'
      rcases hcid with hcid | hcid
      · exact hInv.keyStruct obj' s hs cid (Or.inl hcid)
      · obtain ⟨e, he, heq⟩ := List.mem_map.1 hcid
        have he2 : e ∈ s.pendingOpenTabs := mem_mDel _ _ _ he
        exact hInv.keyStruct obj' s hs cid
          (Or.inr (heq ▸ List.mem_map_of_mem Prod.fst he2))
    · rw [getElem?_set_ne _ _ _ _ hobj] at hs'
      exact hInv.keyStruct obj' s' hs' cid hcid
  · intro tid obj' rid' tok' ht
    have htm : (tid, TimerKind.openTabTimeout obj' rid' tok') ∈ w.timers :=
      mem_mDel _ _ _ ht
    have htne : tid ≠ pending.timeout :=
      mem_mDel_key_ne _ _ hInv.timerNodup _ ht
    obtain ⟨s', hs', hmg⟩ := hInv.timerOpen tid obj' rid' tok' htm
    by_cases hobj : obj' = obj
    · subst hobj
      rw [hs] at hs'
      injection hs' with hs'
      subst hs'
      refine ⟨s2, getElem?_set_self _ _ s s2 hs, ?_⟩
      have hrne : rid' ≠ rid := by
        intro hc
        subst hc
        rw [hentry] at hmg
        injection hmg with hmg
        apply htne
        rw [hmg]
      rw [show s2.pendingOpenTabs = mDel s.pendingOpenTabs rid from rfl,
        mGet_mDel_ne _ _ _ hrne]
      exact hmg
    · exact ⟨s', by rw [getElem?_set_ne _ _ _ _ hobj]; exact hs', hmg⟩
  · intro tid obj' tabId' tok' ht
    have htm := mem_mDel _ _ _ ht
    obtain ⟨s', hs', hmg⟩ := hInv.timerClose tid obj' tabId' tok' htm
    by_cases hobj : obj' = obj
    · subst hobj
      rw [hs] at hs'
      injection hs' with hs'
      subst hs'
      exact ⟨s2, getElem?_set_self _ _ s s2 hs, hmg⟩
    · exact ⟨s', by rw [getElem?_set_ne _ _ _ _ hobj]; exact hs', hmg⟩
  · intro tid obj' tok' ht
    have htm := mem_mDel _ _ _ ht
    obtain ⟨s', hs', hmg⟩ := hInv.timerConn tid obj' tok' htm
    by_cases hobj : obj' = obj
    · subst hobj
      rw [hs] at hs'
      injection hs' with hs'
      subst hs'
      exact ⟨s2, getElem?_set_self _ _ s s2 hs, hmg⟩
    · exact ⟨s', by rw [getElem?_set_ne _ _ _ _ hobj]; exact hs', hmg⟩
  · intro tid obj' cid tok' ht
    have htm := mem_mDel _ _ _ ht
    obtain ⟨s', hs', hag, p, n, hp, hn0, hnc, heq⟩ := hInv.timerCall tid obj' cid tok' htm
    by_cases hobj : obj' = obj
    · subst hobj
      rw [hs] at hs'
      injection hs' with hs'
      subst hs'
      exact ⟨s2, getElem?_set_self _ _ s s2 hs, hag, p, n, hp, hn0, hnc, heq⟩
    · exact ⟨s', by rw [getElem?_set_ne _ _ _ _ hobj]; exact hs', hag,
        p, n, hp, hn0, hnc, heq⟩
  · intro obj' s' hs' e he
    by_cases hobj : obj' = obj
    · subst hobj
      rw [getElem?_set_self _ _ s s2 hs] at hs'
      injection hs' with hs'
      subst hs'
      have he2 : e ∈ s.pendingOpenTabs := mem_mDel _ _ _ he
      have hkne : e.1 ≠ rid := mem_mDel_key_ne _ _ hnodups.2.1 e he
      have hold := hInv.entryOpen obj' s hs e he2
      refine hkeep _ _ hold ?_
      intro hc
      rw [hc, hptimer] at hold
      injection hold with hold
      injection hold with _ h2 _
      exact hkne h2.symm
    · rw [getElem?_set_ne _ _ _ _ hobj] at hs'
      have hold := hInv.entryOpen obj' s' hs' e he
      refine hkeep _ _ hold ?_
      intro hc
      rw [hc, hptimer] at hold
      injection hold with hold
      injection hold with h1 _ _
      exact hobj h1.symm
  · intro obj' s' hs' e he
    by_cases hobj : obj' = obj
    · subst hobj
      rw [getElem?_set_self _ _ s s2 hs] at hs'
      injection hs' with hs'
      subst hs'
      have hold := hInv.entryClose obj' s hs e he
      refine hkeep _ _ hold ?_
      intro hc
      rw [hc, hptimer] at hold
      exact absurd hold (by simp)
    · rw [getElem?_set_ne _ _ _ _ hobj] at hs'
      have hold := hInv.entryClose obj' s' hs' e he
      refine hkeep _ _ hold ?_
      intro hc
      rw [hc, hptimer] at hold
      exact absurd hold (by simp)
  · intro obj' s' hs' p hp
    by_cases hobj : obj' = obj
    · subst hobj
      rw [getElem?_set_self _ _ s s2 hs] at hs'
      injection hs' with hs'
      subst hs'
      have hold := hInv.entryConn obj' s hs p hp
      refine hkeep _ _ hold ?_
      intro hc
      rw [hc, hptimer] at hold
      exact absurd hold (by simp)
    · rw [getElem?_set_ne _ _ _ _ hobj] at hs'
      have hold := hInv.entryConn obj' s' hs' p hp
      refine hkeep _ _ hold ?_
      intro hc
      rw [hc, hptimer] at hold
      exact absurd hold (by simp)
  · intro obj' s' hs' e he
    by_cases hobj : obj' = obj
    · subst hobj
      rw [getElem?_set_self _ _ s s2 hs] at hs'
      injection hs' with hs'
      subst hs'
      obtain ⟨tid, htid⟩ := hInv.entryCall obj' s hs e he
      refine ⟨tid, hkeep _ _ htid ?_⟩
      intro hc
      rw [hc, hptimer] at htid
      exact absurd htid (by simp)
    · rw [getElem?_set_ne _ _ _ _ hobj] at hs'
      obtain ⟨tid, htid⟩ := hInv.entryCall obj' s' hs' e he
      refine ⟨tid, hkeep _ _ htid ?_⟩
      intro hc
      rw [hc, hptimer] at htid
      exact absurd htid (by simp)
  · intro obj' s' hs' hps
    by_cases hobj : obj' = obj
    · subst hobj
      rw [getElem?_set_self _ _ s s2 hs] at hs'
      injection hs' with hs'
      subst hs'
      exact hInv.connFlag obj' s hs hps
    · rw [getElem?_set_ne _ _ _ _ hobj] at hs'
      exact hInv.connFlag obj' s' hs' hps
  · intro hcl e he s' hs'
    have hcl' : w.socketConnected = false := hcl
    by_cases hobj : e.2 = obj
    · rw [hobj, getElem?_set_self _ _ s s2 hs] at hs'
      injection hs' with hs'
      subst hs'
      exact hInv.quietWhenClosed hcl' e he s (by rw [hobj]; exact hs)
    · rw [getElem?_set_ne _ _ _ _ hobj] at hs'
      exact hInv.quietWhenClosed hcl' e he s' hs'

/-- Completing a pending close-tab entry: the entry leaves its container and
its stored timer is cancelled. -/
theorem winv_complete_close (w : World) (obj : Nat) (s : Session) (tabId : Nat)
    (pending : PendingCloseTabOperation)
    (hInv : WInv w) (hs : w.heap[obj]? = some s)
    (hentry : mGet s.pendingCloseTabs tabId = some pending) :
    WInv { w with
            heap := w.heap.set obj { s with pendingCloseTabs := mDel s.pendingCloseTabs tabId }
            timers := mDel w.timers pending.timeout }
    ∧ ∀ t : Nat,
      (World.pendingTokens { w with
          heap := w.heap.set obj { s with pendingCloseTabs := mDel s.pendingCloseTabs tabId }
          timers := mDel w.timers pending.timeout }).count t
        + (if pending.token = t then 1 else 0)
      = w.pendingTokens.count t := by
  set s2 : Session := { s with pendingCloseTabs := mDel s.pendingCloseTabs tabId } with hs2
  have hnodups := hInv.mapsNodup obj s hs
  have hptimer : mGet w.timers pending.timeout
      = some (TimerKind.closeTabTimeout obj tabId pending.token) :=
    hInv.entryClose obj s hs (tabId, pending) (mGet_mem _ _ _ hentry)
  have hcount : ∀ t : Nat,
      ((w.heap.set obj s2).flatMap Session.pendingTokens).count t
        + (if pending.token = t then 1 else 0)
      = (w.heap.flatMap Session.pendingTokens).count t := by
    intro t
    have hcw := count_flatMap_set w.heap obj s s2 Session.pendingTokens hs t
    have h2 : s.pendingTokens.count t
        = s2.pendingTokens.count t + (if pending.token = t then 1 else 0) := by
      simp only [hs2, Session.pendingTokens, List.count_append]
      rw [count_map_token_mDel s.pendingCloseTabs tabId pending
        (fun p => p.token) hentry t]
      omega
    omega
  have hkeep : ∀ tid (kind : TimerKind), mGet w.timers tid = some kind →
      tid ≠ pending.timeout → mGet (mDel w.timers pending.timeout) tid = some kind := by
    intro tid kind hg hne
    rw [mGet_mDel_ne _ _ _ hne]
    exact hg
  refine ⟨?_, hcount⟩
  constructor
  · intro e he
    have := hInv.tableObj e he
    simpa using this
  · intro e he
    exact hInv.timerIds e (mem_mDel _ _ _ he)
  · exact mDel_keys_nodup _ _ hInv.timerNodup
  · intro t ht
    simp only [World.pendingTokens] at ht
    have hcnt := count_pos_of_tokens_mem _ t ht
    have := hcount t
    have hp : 0 < (w.heap.flatMap Session.pendingTokens).count t := by omega
    exact hInv.tokFresh t (tokens_mem_of_count_pos _ t hp)
  · intro obj' s' hs'
    by_cases hobj : obj' = obj
    · subst hobj
      rw [getElem?_set_self _ _ s s2 hs] at hs'
      injection hs' with hs'
      subst hs'
      exact ⟨hnodups.1, hnodups.2.1, mDel_keys_nodup _ _ hnodups.2.2⟩
    · rw [getElem?_set_ne _ _ _ _ hobj] at hs'
      exact hInv.mapsNodup obj' s' hs'
  · intro obj' s' hs' cid hcid
    by_cases hobj : obj' = obj
    · subst hobj
      rw [getElem?_set_self _ _ s s2 hs] at hs'
      injection hs' with hs'
      subst hs'
      exact hInv.keyStruct obj' s hs cid hcid
    · rw [getElem?_set_ne _ _ _ _ hobj] at hs'
      exact hInv.keyStruct obj' s' hs' cid hcid
  · intro tid obj' rid' tok' ht
    have htm := mem_mDel _ _ _ ht
    obtain ⟨s', hs', hmg⟩ := hInv.timerOpen tid obj' rid' tok' htm
    by_cases hobj : obj' = obj
    · subst hobj
      rw [hs] at hs'
      injection hs' with hs'
      subst hs'
      exact ⟨s2, getElem?_set_self _ _ s s2 hs, hmg⟩
    · exact ⟨s', by rw [getElem?_set_ne _ _ _ _ hobj]; exact hs', hmg⟩
  · intro tid obj' tabId' tok' ht
    have htm : (tid, TimerKind.closeTabTimeout obj' tabId' tok') ∈ w.timers :=
      mem_mDel _ _ _ ht
    have htne : tid ≠ pending.timeout :=
      mem_mDel_key_ne _ _ hInv.timerNodup _ ht
    obtain ⟨s', hs', hmg⟩ := hInv.timerClose tid obj' tabId' tok' htm
    by_cases hobj : obj' = obj
    · subst hobj
      rw [hs] at hs'
      injection hs' with hs'
      subst hs'
      refine ⟨s2, getElem?_set_self _ _ s s2 hs, ?_⟩
      have hrne : tabId' ≠ tabId := by
        intro hc
        subst hc
        rw [hentry] at hmg
        injection hmg with hmg
        apply htne
        rw [hmg]
      rw [show s2.pendingCloseTabs = mDel s.pendingCloseTabs tabId from rfl,
        mGet_mDel_ne _ _ _ hrne]
      exact hmg
    · exact ⟨s', by rw [getElem?_set_ne _ _ _ _ hobj]; exact hs', hmg⟩
  · intro tid obj' tok' ht
    have htm := mem_mDel _ _ _ ht
    obtain ⟨s', hs', hmg⟩ := hInv.timerConn tid obj' tok' htm
    by_cases hobj : obj' = obj
    · subst hobj
      rw [hs] at hs'
      injection hs' with hs'
      subst hs'
      exact ⟨s2, getElem?_set_self _ _ s s2 hs, hmg⟩
    · exact ⟨s', by rw [getElem?_set_ne _ _ _ _ hobj]; exact hs', hmg⟩
  · intro tid obj' cid tok' ht
    have htm := mem_mDel _ _ _ ht
    obtain ⟨s', hs', hag, p, n, hp, hn0, hnc, heq⟩ := hInv.timerCall tid obj' cid tok' htm
    by_cases hobj : obj' = obj
    · subst hobj
      rw [hs] at hs'
      injection hs' with hs'
      subst hs'
      exact ⟨s2, getElem?_set_self _ _ s s2 hs, hag, p, n, hp, hn0, hnc, heq⟩
    · exact ⟨s', by rw [getElem?_set_ne _ _ _ _ hobj]; exact hs', hag,
        p, n, hp, hn0, hnc, heq⟩
  · intro obj' s' hs' e he
    by_cases hobj : obj' = obj
    · subst hobj
      rw [getElem?_set_self _ _ s s2 hs] at hs'
      injection hs' with hs'
      subst hs'
      have hold := hInv.entryOpen obj' s hs e he
      refine hkeep _ _ hold ?_
      intro hc
      rw [hc, hptimer] at hold
      exact absurd hold (by simp)
    · rw [getElem?_set_ne _ _ _ _ hobj] at hs'
      have hold := hInv.entryOpen obj' s' hs' e he
      refine hkeep _ _ hold ?_
      intro hc
      rw [hc, hptimer] at hold
      exact absurd hold (by simp)
  · intro obj' s' hs' e he
    by_cases hobj : obj' = obj
    · subst hobj
      rw [getElem?_set_self _ _ s s2 hs] at hs'
      injection hs' with hs'
      subst hs'
      have he2 : e ∈ s.pendingCloseTabs := mem_mDel _ _ _ he
      have hkne : e.1 ≠ tabId := mem_mDel_key_ne _ _ hnodups.2.2 e he
      have hold := hInv.entryClose obj' s hs e he2
      refine hkeep _ _ hold ?_
      intro hc
      rw [hc, hptimer] at hold
      injection hold with hold
      injection hold with _ h2 _
      exact hkne h2.symm
    · rw [getElem?_set_ne _ _ _ _ hobj] at hs'
      have hold := hInv.entryClose obj' s' hs' e he
      refine hkeep _ _ hold ?_
      intro hc
      rw [hc, hptimer] at hold
      injection hold with hold
      injection hold with h1 _ _
      exact hobj h1.symm
  · intro obj' s' hs' p hp
    by_cases hobj : obj' = obj
    · subst hobj
      rw [getElem?_set_self _ _ s s2 hs] at hs'
      injection hs' with hs'
      subst hs'
      have hold := hInv.entryConn obj' s hs p hp
      refine hkeep _ _ hold ?_
      intro hc
      rw [hc, hptimer] at hold
      exact absurd hold (by simp)
    · rw [getElem?_set_ne _ _ _ _ hobj] at hs'
      have hold := hInv.entryConn obj' s' hs' p hp
      refine hkeep _ _ hold ?_
      intro hc
      rw [hc, hptimer] at hold
      exact absurd hold (by simp)
  · intro obj' s' hs' e he
    by_cases hobj : obj' = obj
    · subst hobj
      rw [getElem?_set_self _ _ s s2 hs] at hs'
      injection hs' with hs'
      subst hs'
      obtain ⟨tid, htid⟩ := hInv.entryCall obj' s hs e he
      refine ⟨tid, hkeep _ _ htid ?_⟩
      intro hc
      rw [hc, hptimer] at htid
      exact absurd htid (by simp)
    · rw [getElem?_set_ne _ _ _ _ hobj] at hs'
      obtain ⟨tid, htid⟩ := hInv.entryCall obj' s' hs' e he
      refine ⟨tid, hkeep _ _ htid ?_⟩
      intro hc
      rw [hc, hptimer] at htid
      exact absurd htid (by simp)
  · intro obj' s' hs' hps
    by_cases hobj : obj' = obj
    · subst hobj
      rw [getElem?_set_self _ _ s s2 hs] at hs'
      injection hs' with hs'
      subst hs'
      exact hInv.connFlag obj' s hs hps
    · rw [getElem?_set_ne _ _ _ _ hobj] at hs'
      exact hInv.connFlag obj' s' hs' hps
  · intro hcl e he s' hs'
    have hcl' : w.socketConnected = false := hcl
    by_cases hobj : e.2 = obj
    · rw [hobj, getElem?_set_self _ _ s s2 hs] at hs'
      injection hs' with hs'
      subst hs'
      exact hInv.quietWhenClosed hcl' e he s (by rw [hobj]; exact hs)
    · rw [getElem?_set_ne _ _ _ _ hobj] at hs'
      exact hInv.quietWhenClosed hcl' e he s' hs'

/-- Completing the singleton pending connect: the slot is cleared, the
in-progress flag dropped, and the stored timer cancelled. -/
theorem winv_complete_conn (w : World) (obj : Nat) (s : Session)
    (p : PendingConnect)
    (hInv : WInv w) (hs : w.heap[obj]? = some s)
    (hp : s.pendingConnect = some p) :
    WInv { w with
            heap := w.heap.set obj
              { s with pendingConnect := none, connectInProgress := false }
            timers := mDel w.timers p.timeout }
    ∧ ∀ t : Nat,
      (World.pendingTokens { w with
          heap := w.heap.set obj
            { s with pendingConnect := none, connectInProgress := false }
          timers := mDel w.timers p.timeout }).count t
        + (if p.token = t then 1 else 0)
      = w.pendingTokens.count t := by
  set s2 : Session := { s with pendingConnect := none, connectInProgress := false } with hs2
  have hnodups := hInv.mapsNodup obj s hs
  have hptimer : mGet w.timers p.timeout
      = some (TimerKind.connectTimeout obj p.token) :=
    hInv.entryConn obj s hs p hp
  have hcount : ∀ t : Nat,
      ((w.heap.set obj s2).flatMap Session.pendingTokens).count t
        + (if p.token = t then 1 else 0)
      = (w.heap.flatMap Session.pendingTokens).count t := by
    intro t
    have hcw := count_flatMap_set w.heap obj s s2 Session.pendingTokens hs t
    have h2 : s.pendingTokens.count t
        = s2.pendingTokens.count t + (if p.token = t then 1 else 0) := by
      simp only [hs2, Session.pendingTokens, List.count_append, hp]
      by_cases h : p.token = t
      · simp [h]
      · simp [h, Ne.symm h]
    omega
  have hkeep : ∀ tid (kind : TimerKind), mGet w.timers tid = some kind →
      tid ≠ p.timeout → mGet (mDel w.timers p.timeout) tid = some kind := by
    intro tid kind hg hne
    rw [mGet_mDel_ne _ _ _ hne]
    exact hg
  refine ⟨?_, hcount⟩
  constructor
  · intro e he
    have := hInv.tableObj e he
    simpa using this
  · intro e he
    exact hInv.timerIds e (mem_mDel _ _ _ he)
  · exact mDel_keys_nodup _ _ hInv.timerNodup
  · intro t ht
    simp only [World.pendingTokens] at ht
    have hcnt := count_pos_of_tokens_mem _ t ht
    have := hcount t
    have hpos : 0 < (w.heap.flatMap Session.pendingTokens).count t := by omega
    exact hInv.tokFresh t (tokens_mem_of_count_pos _ t hpos)
  · intro obj' s' hs'
    by_cases hobj : obj' = obj
    · subst hobj
      rw [getElem?_set_self _ _ s s2 hs] at hs'
      injection hs' with hs'
      subst hs'
      exact hnodups
    · rw [getElem?_set_ne _ _ _ _ hobj] at hs'
      exact hInv.mapsNodup obj' s' hs'
  · intro obj' s' hs' cid hcid
    by_cases hobj : obj' = obj
    · subst hobj
      rw [getElem?_set_self _ _ s s2 hs] at hs'
      injection hs' with hs'
      subst hs'
      exact hInv.keyStruct obj' s hs cid hcid
    · rw [getElem?_set_ne _ _ _ _ hobj] at hs'
      exact hInv.keyStruct obj' s' hs' cid hcid
  · intro tid obj' rid' tok' ht
    have htm := mem_mDel _ _ _ ht
    obtain ⟨s', hs', hmg⟩ := hInv.timerOpen tid obj' rid' tok' htm
    by_cases hobj : obj' = obj
    · subst hobj
      rw [hs] at hs'
      injection hs' with hs'
      subst hs'
      exact ⟨s2, getElem?_set_self _ _ s s2 hs, hmg⟩
    · exact ⟨s', by rw [getElem?_set_ne _ _ _ _ hobj]; exact hs', hmg⟩
  · intro tid obj' tabId' tok' ht
    have htm := mem_mDel _ _ _ ht
    obtain ⟨s', hs', hmg⟩ := hInv.timerClose tid obj' tabId' tok' htm
    by_cases hobj : obj' = obj
    · subst hobj
      rw [hs] at hs'
      injection hs' with hs'
      subst hs'
      exact ⟨s2, getElem?_set_self _ _ s s2 hs, hmg⟩
    · exact ⟨s', by rw [getElem?_set_ne _ _ _ _ hobj]; exact hs', hmg⟩
  · intro tid obj' tok' ht
    have htm : (tid, TimerKind.connectTimeout obj' tok') ∈ w.timers :=
      mem_mDel _ _ _ ht
    have htne : tid ≠ p.timeout :=
      mem_mDel_key_ne _ _ hInv.timerNodup _ ht
    obtain ⟨s', hs', hmg⟩ := hInv.timerConn tid obj' tok' htm
    by_cases hobj : obj' = obj
    · subst hobj
      rw [hs] at hs'
      injection hs' with hs'
      subst hs'
      rw [hp] at hmg
      injection hmg with hmg
      exact absurd (by rw [hmg]) htne
    · exact ⟨s', by rw [getElem?_set_ne _ _ _ _ hobj]; exact hs', hmg⟩
  · intro tid obj' cid tok' ht
    have htm := mem_mDel _ _ _ ht
    obtain ⟨s', hs', hag, q, n, hq, hn0, hnc, heq⟩ := hInv.timerCall tid obj' cid tok' htm
    by_cases hobj : obj' = obj
    · subst hobj
      rw [hs] at hs'
      injection hs' with hs'
      subst hs'
      exact ⟨s2, getElem?_set_self _ _ s s2 hs, hag, q, n, hq, hn0, hnc, heq⟩
    · exact ⟨s', by rw [getElem?_set_ne _ _ _ _ hobj]; exact hs', hag,
        q, n, hq, hn0, hnc, heq⟩
  · intro obj' s' hs' e he
    by_cases hobj : obj' = obj
    · subst hobj
      rw [getElem?_set_self _ _ s s2 hs] at hs'
      injection hs' with hs'
      subst hs'
      have hold := hInv.entryOpen obj' s hs e he
      refine hkeep _ _ hold ?_
      intro hc
      rw [hc, hptimer] at hold
      exact absurd hold (by simp)
    · rw [getElem?_set_ne _ _ _ _ hobj] at hs'
      have hold := hInv.entryOpen obj' s' hs' e he
      refine hkeep _ _ hold ?_
      intro hc
      rw [hc, hptimer] at hold
      exact absurd hold (by simp)
  · intro obj' s' hs' e he
    by_cases hobj : obj' = obj
    · subst hobj
      rw [getElem?_set_self _ _ s s2 hs] at hs'
      injection hs' with hs'
      subst hs'
      have hold := hInv.entryClose obj' s hs e he
      refine hkeep _ _ hold ?_
      intro hc
      rw [hc, hptimer] at hold
      exact absurd hold (by simp)
    · rw [getElem?_set_ne _ _ _ _ hobj] at hs'
      have hold := hInv.entryClose obj' s' hs' e he
      refine hkeep _ _ hold ?_
      intro hc
      rw [hc, hptimer] at hold
      exact absurd hold (by simp)
  · intro obj' s' hs' q hq
    by_cases hobj : obj' = obj
    · subst hobj
      rw [getElem?_set_self _ _ s s2 hs] at hs'
      injection hs' with hs'
      subst hs'
      exact absurd hq (by simp [hs2])
    · rw [getElem?_set_ne _ _ _ _ hobj] at hs'
      have hold := hInv.entryConn obj' s' hs' q hq
      refine hkeep _ _ hold ?_
      intro hc
      rw [hc, hptimer] at hold
      injection hold with hold
      injection hold with h1 _
      exact hobj h1.symm
  · intro obj' s' hs' e he
    by_cases hobj : obj' = obj
    · subst hobj
      rw [getElem?_set_self _ _ s s2 hs] at hs'
      injection hs' with hs'
      subst hs'
      obtain ⟨tid, htid⟩ := hInv.entryCall obj' s hs e he
      refine ⟨tid, hkeep _ _ htid ?_⟩
      intro hc
      rw [hc, hptimer] at htid
      exact absurd htid (by simp)
    · rw [getElem?_set_ne _ _ _ _ hobj] at hs'
      obtain ⟨tid, htid⟩ := hInv.entryCall obj' s' hs' e he
      refine ⟨tid, hkeep _ _ htid ?_⟩
      intro hc
      rw [hc, hptimer] at htid
      exact absurd htid (by simp)
  · intro obj' s' hs' hps
    by_cases hobj : obj' = obj
    · subst hobj
      rw [getElem?_set_self _ _ s s2 hs] at hs'
      injection hs' with hs'
      subst hs'
      exact absurd hps (by simp [hs2])
    · rw [getElem?_set_ne _ _ _ _ hobj] at hs'
      exact hInv.connFlag obj' s' hs' hps
  · intro hcl e he s' hs'
    have hcl' : w.socketConnected = false := hcl
    by_cases hobj : e.2 = obj
    · rw [hobj, getElem?_set_self _ _ s s2 hs] at hs'
      injection hs' with hs'
      subst hs'
      rfl
    · rw [getElem?_set_ne _ _ _ _ hobj] at hs'
      exact hInv.quietWhenClosed hcl' e he s' hs'

/-- Completing a pending tool call: the entry leaves `pendingCalls`.  The
source stores no timeout handle for calls, so the timer list is untouched. -/
theorem winv_complete_call (w : World) (obj : Nat) (s : Session) (cid : Str)
    (pc : PendingCall)
    (hInv : WInv w) (hs : w.heap[obj]? = some s)
    (hentry : mGet s.pendingCalls cid = some pc) :
    WInv { w with
            heap := w.heap.set obj { s with pendingCalls := mDel s.pendingCalls cid } }
    ∧ ∀ t : Nat,
      (World.pendingTokens { w with
          heap := w.heap.set obj { s with pendingCalls := mDel s.pendingCalls cid } }).count t
        + (if pc.token = t then 1 else 0)
      = w.pendingTokens.count t := by
  set s2 : Session := { s with pendingCalls := mDel s.pendingCalls cid } with hs2
  have hnodups := hInv.mapsNodup obj s hs
  have hcount : ∀ t : Nat,
      ((w.heap.set obj s2).flatMap Session.pendingTokens).count t
        + (if pc.token = t then 1 else 0)
      = (w.heap.flatMap Session.pendingTokens).count t := by
    intro t
    have hcw := count_flatMap_set w.heap obj s s2 Session.pendingTokens hs t
    have h2 : s.pendingTokens.count t
        = s2.pendingTokens.count t + (if pc.token = t then 1 else 0) := by
      simp only [hs2, Session.pendingTokens, List.count_append]
      rw [count_map_token_mDel s.pendingCalls cid pc
        (fun p => p.token) hentry t]
      omega
    omega
  refine ⟨?_, hcount⟩
  constructor
  · intro e he
    have := hInv.tableObj e he
    simpa using this
  · exact hInv.timerIds
  · exact hInv.timerNodup
  · intro t ht
    simp only [World.pendingTokens] at ht
    have hcnt := count_pos_of_tokens_mem _ t ht
    have := hcount t
    have hpos : 0 < (w.heap.flatMap Session.pendingTokens).count t := by omega
    exact hInv.tokFresh t (tokens_mem_of_count_pos _ t hpos)
  · intro obj' s' hs'
    by_cases hobj : obj' = obj
    · subst hobj
      rw [getElem?_set_self _ _ s s2 hs] at hs'
      injection hs' with hs'
      subst hs'
      exact ⟨mDel_keys_nodup _ _ hnodups.1, hnodups.2.1, hnodups.2.2⟩
    · rw [getElem?_set_ne _ _ _ _ hobj] at hs'
      exact hInv.mapsNodup obj' s' hs'
  · intro obj' s' hs' cid' hcid
    by_cases hobj : obj' = obj
    · subst hobj
      rw [getElem?_set_self _ _ s s2 hs] at hs'
      injection hs' with hs'
      subst hs'
      rcases hcid with hcid | hcid
      · obtain ⟨e, he, heq⟩ := List.mem_map.1 hcid
        have he2 : e ∈ s.pendingCalls := mem_mDel _ _ _ he
        exact hInv.keyStruct obj' s hs cid'
          (Or.inl (heq ▸ List.mem_map_of_mem Prod.fst he2))
      · exact hInv.keyStruct obj' s hs cid' (Or.inr hcid)
    · rw [getElem?_set_ne _ _ _ _ hobj] at hs'
      exact hInv.keyStruct obj' s' hs' cid' hcid
  · intro tid obj' rid' tok' ht
    obtain ⟨s', hs', hmg⟩ := hInv.timerOpen tid obj' rid' tok' ht
    by_cases hobj : obj' = obj
    · subst hobj
      rw [hs] at hs'
      injection hs' with hs'
      subst hs'
      exact ⟨s2, getElem?_set_self _ _ s s2 hs, hmg⟩
    · exact ⟨s', by rw [getElem?_set_ne _ _ _ _ hobj]; exact hs', hmg⟩
  · intro tid obj' tabId' tok' ht
    obtain ⟨s', hs', hmg⟩ := hInv.timerClose tid obj' tabId' tok' ht
    by_cases hobj : obj' = obj
    · subst hobj
      rw [hs] at hs'
      injection hs' with hs'
      subst hs'
      exact ⟨s2, getElem?_set_self _ _ s s2 hs, hmg⟩
    · exact ⟨s', by rw [getElem?_set_ne _ _ _ _ hobj]; exact hs', hmg⟩
  · intro tid obj' tok' ht
    obtain ⟨s', hs', hmg⟩ := hInv.timerConn tid obj' tok' ht
    by_cases hobj : obj' = obj
    · subst hobj
      rw [hs] at hs'
      injection hs' with hs'
      subst hs'
      exact ⟨s2, getElem?_set_self _ _ s s2 hs, hmg⟩
    · exact ⟨s', by rw [getElem?_set_ne _ _ _ _ hobj]; exact hs', hmg⟩
  · intro tid obj' cid' tok' ht
    obtain ⟨s', hs', hag, q, n, hq, hn0, hnc, heq⟩ := hInv.timerCall tid obj' cid' tok' ht
    by_cases hobj : obj' = obj
    · subst hobj
      rw [hs] at hs'
      injection hs' with hs'
      subst hs'
      refine ⟨s2, getElem?_set_self _ _ s s2 hs, ?_, q, n, hq, hn0, hnc, heq⟩
      intro pc' hpc'
      by_cases hc : cid' = cid
      · subst hc
        rw [show s2.pendingCalls = mDel s.pendingCalls cid' from rfl] at hpc'
        rw [mGet_mDel_self_nodup _ _ hnodups.1] at hpc'
        exact absurd hpc' (by simp)
      · rw [show s2.pendingCalls = mDel s.pendingCalls cid from rfl,
          mGet_mDel_ne _ _ _ hc] at hpc'
        exact hag pc' hpc'
    · exact ⟨s', by rw [getElem?_set_ne _ _ _ _ hobj]; exact hs', hag,
        q, n, hq, hn0, hnc, heq⟩
  · intro obj' s' hs' e he
    by_cases hobj : obj' = obj
    · subst hobj
      rw [getElem?_set_self _ _ s s2 hs] at hs'
      injection hs' with hs'
      subst hs'
      exact hInv.entryOpen obj' s hs e he
    · rw [getElem?_set_ne _ _ _ _ hobj] at hs'
      exact hInv.entryOpen obj' s' hs' e he
  · intro obj' s' hs' e he
    by_cases hobj : obj' = obj
    · subst hobj
      rw [getElem?_set_self _ _ s s2 hs] at hs'
      injection hs' with hs'
      subst hs'
      exact hInv.entryClose obj' s hs e he
    · rw [getElem?_set_ne _ _ _ _ hobj] at hs'
      exact hInv.entryClose obj' s' hs' e he
  · intro obj' s' hs' q hq
    by_cases hobj : obj' = obj
    · subst hobj
      rw [getElem?_set_self _ _ s s2 hs] at hs'
      injection hs' with hs'
      subst hs'
      exact hInv.entryConn obj' s hs q hq
    · rw [getElem?_set_ne _ _ _ _ hobj] at hs'
      exact hInv.entryConn obj' s' hs' q hq
  · intro obj' s' hs' e he
    by_cases hobj : obj' = obj
    · subst hobj
      rw [getElem?_set_self _ _ s s2 hs] at hs'
      injection hs' with hs'
      subst hs'
      exact hInv.entryCall obj' s hs e (mem_mDel _ _ _ he)
    · rw [getElem?_set_ne _ _ _ _ hobj] at hs'
      exact hInv.entryCall obj' s' hs' e he
  · intro obj' s' hs' hps
    by_cases hobj : obj' = obj
    · subst hobj
      rw [getElem?_set_self _ _ s s2 hs] at hs'
      injection hs' with hs'
      subst hs'
      exact hInv.connFlag obj' s hs hps
    · rw [getElem?_set_ne _ _ _ _ hobj] at hs'
      exact hInv.connFlag obj' s' hs' hps
  · intro hcl e he s' hs'
    have hcl' : w.socketConnected = false := hcl
    by_cases hobj : e.2 = obj
    · rw [hobj, getElem?_set_self _ _ s s2 hs] at hs'
      injection hs' with hs'
      subst hs'
      exact hInv.quietWhenClosed hcl' e he s (by rw [hobj]; exact hs)
    · rw [getElem?_set_ne _ _ _ _ hobj] at hs'
      exact hInv.quietWhenClosed hcl' e he s' hs'

/-- Removing an armed call-timeout timer whose pending entry is already gone
preserves the invariant; the heap (hence the pending-token multiset) is
untouched. -/
theorem winv_remove_call_timer (w : World) (tid obj : Nat) (cid : Str) (tok : Nat)
    (hInv : WInv w)
    (hkind : mGet w.timers tid = some (TimerKind.callTimeout obj cid tok))
    (hnone : ∀ s : Session, w.heap[obj]? = some s → mGet s.pendingCalls cid = none) :
    WInv { w with timers := mDel w.timers tid } := by
  have hkeep : ∀ tid' (kind : TimerKind), mGet w.timers tid' = some kind →
      tid' ≠ tid → mGet (mDel w.timers tid) tid' = some kind := by
    intro tid' kind hg hne
    rw [mGet_mDel_ne _ _ _ hne]
    exact hg
  constructor
  · intro e he
    have := hInv.tableObj e he
    simpa using this
  · intro e he
    exact hInv.timerIds e (mem_mDel _ _ _ he)
  · exact mDel_keys_nodup _ _ hInv.timerNodup
  · exact hInv.tokFresh
  · exact hInv.mapsNodup
  · exact hInv.keyStruct
  · intro tid' obj' rid' tok' ht
    exact hInv.timerOpen tid' obj' rid' tok' (mem_mDel _ _ _ ht)
  · intro tid' obj' tabId' tok' ht
    exact hInv.timerClose tid' obj' tabId' tok' (mem_mDel _ _ _ ht)
  · intro tid' obj' tok' ht
    exact hInv.timerConn tid' obj' tok' (mem_mDel _ _ _ ht)
  · intro tid' obj' cid' tok' ht
    exact hInv.timerCall tid' obj' cid' tok' (mem_mDel _ _ _ ht)
  · intro obj' s' hs' e he
    have hold := hInv.entryOpen obj' s' hs' e he
    refine hkeep _ _ hold ?_
    intro hc
    rw [hc, hkind] at hold
    exact absurd hold (by simp)
  · intro obj' s' hs' e he
    have hold := hInv.entryClose obj' s' hs' e he
    refine hkeep _ _ hold ?_
    intro hc
    rw [hc, hkind] at hold
    exact absurd hold (by simp)
  · intro obj' s' hs' q hq
    have hold := hInv.entryConn obj' s' hs' q hq
    refine hkeep _ _ hold ?_
    intro hc
    rw [hc, hkind] at hold
    exact absurd hold (by simp)
  · intro obj' s' hs' e he
    obtain ⟨tid', htid⟩ := hInv.entryCall obj' s' hs' e he
    refine ⟨tid', hkeep _ _ htid ?_⟩
    intro hc
    rw [hc, hkind] at htid
    injection htid with htid
    injection htid with h1 h2 _
    subst h1
    have := hnone s' hs'
    obtain ⟨v, hv⟩ := exists_mGet_of_mem_keys s'.pendingCalls e.1
      (List.mem_map_of_mem Prod.fst he)
    rw [← h2] at hv
    rw [this] at hv
    exact absurd hv (by simp)
  · exact hInv.connFlag
  · intro hcl e he s' hs'
    exact hInv.quietWhenClosed hcl e he s' hs'

/-! ### Step lemmas: firing a timer -/

theorem stepOK_fireTimer (w : World) (tid : Nat) (hInv : WInv w) :
    StepOK w (fireTimer w tid) := by
  cases hmt : mGet w.timers tid with
  | none =>
    have hres : fireTimer w tid = (w, []) := by
      simp only [fireTimer]
      rw [hmt]
    rw [hres]
    refine ⟨hInv, le_refl _, ?_⟩
    intro t
    have h3 : (if w.nextToken ≤ t ∧ t < w.nextToken then 1 else 0) = 0 := by
      rw [if_neg]
      omega
    simp [h3]
  | some k =>
    cases k with
    | openTabTimeout obj rid tok =>
      obtain ⟨s, hs, hmg⟩ := hInv.timerOpen tid obj rid tok (mGet_mem _ _ _ hmt)
      have hcomp := winv_complete_open w obj s rid ⟨tok, tid⟩ hInv hs hmg
      have hres : fireTimer w tid
          = ({ w with
                heap := w.heap.set obj
                  { s with pendingOpenTabs := mDel s.pendingOpenTabs rid }
                timers := mDel w.timers tid },
             [(tok, Outcome.rejected Reason.timedOut)]) := by
        have hs' : (clearTimeoutW w tid).heap[obj]? = some s := hs
        simp only [fireTimer]
        rw [hmt]
        simp only [hs']
        rfl
      rw [hres]
      refine ⟨hcomp.1, le_refl _, ?_⟩
      intro t
      have h2 : (World.pendingTokens { w with
            heap := w.heap.set obj
              { s with pendingOpenTabs := mDel s.pendingOpenTabs rid }
            timers := mDel w.timers tid }).count t
          + (if tok = t then 1 else 0) = w.pendingTokens.count t := hcomp.2 t
      have h3 : (if w.nextToken ≤ t ∧ t < w.nextToken then 1 else 0) = 0 := by
        rw [if_neg]
        omega
      show ([(tok, Outcome.rejected Reason.timedOut)].map Prod.fst).count t
          + (World.pendingTokens { w with
              heap := w.heap.set obj
                { s with pendingOpenTabs := mDel s.pendingOpenTabs rid }
              timers := mDel w.timers tid }).count t
          = w.pendingTokens.count t + (if w.nextToken ≤ t ∧ t < w.nextToken then 1 else 0)
      rw [h3]
      have h4 : ([(tok, Outcome.rejected Reason.timedOut)].map Prod.fst).count t
          = if tok = t then 1 else 0 := by
        by_cases h : tok = t
        · simp [h]
        · simp only [List.map_cons, List.map_nil, if_neg h]
          rw [List.count_eq_zero]
          simp only [List.mem_singleton]
          exact fun hc => h hc.symm
      rw [h4]
      omega
    | closeTabTimeout obj tabId tok =>
      obtain ⟨s, hs, hmg⟩ := hInv.timerClose tid obj tabId tok (mGet_mem _ _ _ hmt)
      have hcomp := winv_complete_close w obj s tabId ⟨tok, tid⟩ hInv hs hmg
      have hres : fireTimer w tid
          = ({ w with
                heap := w.heap.set obj
                  { s with pendingCloseTabs := mDel s.pendingCloseTabs tabId }
                timers := mDel w.timers tid },
             [(tok, Outcome.rejected Reason.timedOut)]) := by
        have hs' : (clearTimeoutW w tid).heap[obj]? = some s := hs
        simp only [fireTimer]
        rw [hmt]
        simp only [hs']
        rfl
      rw [hres]
      refine ⟨hcomp.1, le_refl _, ?_⟩
      intro t
      have h2 : (World.pendingTokens { w with
            heap := w.heap.set obj
              { s with pendingCloseTabs := mDel s.pendingCloseTabs tabId }
            timers := mDel w.timers tid }).count t
          + (if tok = t then 1 else 0) = w.pendingTokens.count t := hcomp.2 t
      have h3 : (if w.nextToken ≤ t ∧ t < w.nextToken then 1 else 0) = 0 := by
        rw [if_neg]
        omega
      show ([(tok, Outcome.rejected Reason.timedOut)].map Prod.fst).count t
          + (World.pendingTokens { w with
              heap := w.heap.set obj
                { s with pendingCloseTabs := mDel s.pendingCloseTabs tabId }
              timers := mDel w.timers tid }).count t
          = w.pendingTokens.count t + (if w.nextToken ≤ t ∧ t < w.nextToken then 1 else 0)
      rw [h3]
      have h4 : ([(tok, Outcome.rejected Reason.timedOut)].map Prod.fst).count t
          = if tok = t then 1 else 0 := by
        by_cases h : tok = t
        · simp [h]
        · simp only [List.map_cons, List.map_nil, if_neg h]
          rw [List.count_eq_zero]
          simp only [List.mem_singleton]
          exact fun hc => h hc.symm
      rw [h4]
      omega
    | connectTimeout obj tok =>
      obtain ⟨s, hs, hmg⟩ := hInv.timerConn tid obj tok (mGet_mem _ _ _ hmt)
      have hcomp := winv_complete_conn w obj s ⟨tok, tid⟩ hInv hs hmg
      have hres : fireTimer w tid
          = ({ w with
                heap := w.heap.set obj
                  { s with pendingConnect := none, connectInProgress := false }
                timers := mDel w.timers tid },
             [(tok, Outcome.rejected Reason.timedOut)]) := by
        have hs' : (clearTimeoutW w tid).heap[obj]? = some s := hs
        simp only [fireTimer]
        rw [hmt]
        simp only [hs']
        rfl
      rw [hres]
      refine ⟨hcomp.1, le_refl _, ?_⟩
      intro t
      have h2 : (World.pendingTokens { w with
            heap := w.heap.set obj
              { s with pendingConnect := none, connectInProgress := false }
            timers := mDel w.timers tid }).count t
          + (if tok = t then 1 else 0) = w.pendingTokens.count t := hcomp.2 t
      have h3 : (if w.nextToken ≤ t ∧ t < w.nextToken then 1 else 0) = 0 := by
        rw [if_neg]
        omega
      show ([(tok, Outcome.rejected Reason.timedOut)].map Prod.fst).count t
          + (World.pendingTokens { w with
              heap := w.heap.set obj
                { s with pendingConnect := none, connectInProgress := false }
              timers := mDel w.timers tid }).count t
          = w.pendingTokens.count t + (if w.nextToken ≤ t ∧ t < w.nextToken then 1 else 0)
      rw [h3]
      have h4 : ([(tok, Outcome.rejected Reason.timedOut)].map Prod.fst).count t
          = if tok = t then 1 else 0 := by
        by_cases h : tok = t
        · simp [h]
        · simp only [List.map_cons, List.map_nil, if_neg h]
          rw [List.count_eq_zero]
          simp only [List.mem_singleton]
          exact fun hc => h hc.symm
      rw [h4]
      omega
    | callTimeout obj cid tok =>
      obtain ⟨s, hs, hag, hstruct⟩ := hInv.timerCall tid obj cid tok (mGet_mem _ _ _ hmt)
      cases hpc : mGet s.pendingCalls cid with
      | some pc =>
        have htok : pc.token = tok := hag pc hpc
        have hcomp := winv_complete_call w obj s cid pc hInv hs hpc
        have hmt' : mGet ({ w with
            heap := w.heap.set obj
              { s with pendingCalls := mDel s.pendingCalls cid } } : World).timers tid
            = some (TimerKind.callTimeout obj cid tok) := hmt
        have hnone : ∀ s' : Session,
            ({ w with
                heap := w.heap.set obj
                  { s with pendingCalls := mDel s.pendingCalls cid } } : World).heap[obj]?
              = some s' → mGet s'.pendingCalls cid = none := by
          intro s' hs'
          have hs'' : (w.heap.set obj
              { s with pendingCalls := mDel s.pendingCalls cid })[obj]? = some s' := hs'
          rw [getElem?_set_self _ _ s _ hs] at hs''
          injection hs'' with hs''
          subst hs''
          exact mGet_mDel_self_nodup _ _ (hInv.mapsNodup obj s hs).1
        have hrm := winv_remove_call_timer
          { w with heap := w.heap.set obj { s with pendingCalls := mDel s.pendingCalls cid } }
          tid obj cid tok hcomp.1 hmt' hnone
        have hres : fireTimer w tid
            = ({ w with
                  heap := w.heap.set obj
                    { s with pendingCalls := mDel s.pendingCalls cid }
                  timers := mDel w.timers tid },
               [(tok, Outcome.rejected Reason.timedOut)]) := by
          have hs' : (clearTimeoutW w tid).heap[obj]? = some s := hs
          simp only [fireTimer]
          rw [hmt]
          simp only [hs', hpc]
          rfl
        rw [hres]
        refine ⟨hrm, le_refl _, ?_⟩
        intro t
        have h2 := hcomp.2 t
        rw [htok] at h2
        have h2' : (World.pendingTokens { w with
              heap := w.heap.set obj
                { s with pendingCalls := mDel s.pendingCalls cid }
              timers := mDel w.timers tid }).count t
            + (if tok = t then 1 else 0) = w.pendingTokens.count t := h2
        have h3 : (if w.nextToken ≤ t ∧ t < w.nextToken then 1 else 0) = 0 := by
          rw [if_neg]
          omega
        show ([(tok, Outcome.rejected Reason.timedOut)].map Prod.fst).count t
            + (World.pendingTokens { w with
                heap := w.heap.set obj
                  { s with pendingCalls := mDel s.pendingCalls cid }
                timers := mDel w.timers tid }).count t
            = w.pendingTokens.count t + (if w.nextToken ≤ t ∧ t < w.nextToken then 1 else 0)
        rw [h3]
        have h4 : ([(tok, Outcome.rejected Reason.timedOut)].map Prod.fst).count t
            = if tok = t then 1 else 0 := by
          by_cases h : tok = t
          · simp [h]
          · simp only [List.map_cons, List.map_nil, if_neg h]
            rw [List.count_eq_zero]
            simp only [List.mem_singleton]
            exact fun hc => h hc.symm
        rw [h4]
        omega
      | none =>
        have hnone : ∀ s' : Session, w.heap[obj]? = some s' →
            mGet s'.pendingCalls cid = none := by
          intro s' hs'
          rw [hs] at hs'
          injection hs' with hs'
          subst hs'
          exact hpc
        have hrm := winv_remove_call_timer w tid obj cid tok hInv hmt hnone
        have hres : fireTimer w tid = ({ w with timers := mDel w.timers tid }, []) := by
          have hs' : (clearTimeoutW w tid).heap[obj]? = some s := hs
          simp only [fireTimer]
          rw [hmt]
          simp only [hs', hpc]
          rfl
        rw [hres]
        refine ⟨hrm, le_refl _, ?_⟩
        intro t
        have h3 : (if w.nextToken ≤ t ∧ t < w.nextToken then 1 else 0) = 0 := by
          rw [if_neg]
          omega
        show ([].map Prod.fst).count t
            + (World.pendingTokens { w with timers := mDel w.timers tid }).count t
            = w.pendingTokens.count t + (if w.nextToken ≤ t ∧ t < w.nextToken then 1 else 0)
        rw [h3]
        simp only [List.map_nil, List.count_nil, Nat.zero_add, Nat.add_zero]
        rfl

/-! ### Step lemmas: the message router -/

theorem getSession_some (w : World) (sid : Str) (obj : Nat) (s : Session)
    (h : getSession w sid = some (obj, s)) :
    mGet w.table sid = some obj ∧ w.heap[obj]? = some s := by
  simp only [getSession] at h
  cases hmt : mGet w.table sid with
  | none =>
    rw [hmt] at h
    exact absurd h (by simp)
  | some obj' =>
    rw [hmt] at h
    cases hh : w.heap[obj']? with
    | none =>
      simp only [hh] at h
      exact absurd h (by simp)
    | some s' =>
      simp only [hh, Option.some.injEq, Prod.mk.injEq] at h
      obtain ⟨h1, h2⟩ := h
      subst h1
      subst h2
      exact ⟨rfl, hh⟩

theorem foldl_addTab_browser (tabs : List TabInfo) (w : World) :
    tabs.foldl (fun acc tab => { acc with browser := addTab acc.browser tab }) w
      = { w with browser := tabs.foldl (fun b tab => addTab b tab) w.browser } := by
  induction tabs generalizing w with
  | nil => rfl
  | cons tab rest ih =>
    simp only [List.foldl_cons]
    rw [ih]

theorem stepOK_mk_zero (w w2 : World) (hW : WInv w2)
    (hnt : w2.nextToken = w.nextToken)
    (hc : ∀ t : Nat, (World.pendingTokens w2).count t = w.pendingTokens.count t) :
    StepOK w (w2, []) := by
  refine ⟨hW, le_of_eq hnt.symm, ?_⟩
  intro t
  have h2 := hc t
  show ([].map Prod.fst).count t + (World.pendingTokens w2).count t
      = w.pendingTokens.count t + (if w.nextToken ≤ t ∧ t < w2.nextToken then 1 else 0)
  rw [hnt, if_neg (by omega : ¬(w.nextToken ≤ t ∧ t < w.nextToken))]
  simpa using h2

theorem stepOK_mk_one (w w2 : World) (tok : Nat) (o : Outcome) (hW : WInv w2)
    (hnt : w2.nextToken = w.nextToken)
    (hc : ∀ t : Nat, (World.pendingTokens w2).count t + (if tok = t then 1 else 0)
      = w.pendingTokens.count t) :
    StepOK w (w2, [(tok, o)]) := by
  refine ⟨hW, le_of_eq hnt.symm, ?_⟩
  intro t
  have h2 := hc t
  show ([(tok, o)].map Prod.fst).count t + (World.pendingTokens w2).count t
      = w.pendingTokens.count t + (if w.nextToken ≤ t ∧ t < w2.nextToken then 1 else 0)
  rw [hnt, if_neg (by omega : ¬(w.nextToken ≤ t ∧ t < w.nextToken))]
  have h4 : ([(tok, o)].map Prod.fst).count t = if tok = t then 1 else 0 := by
    by_cases h : tok = t
    · simp [h]
    · simp only [List.map_cons, List.map_nil, if_neg h]
      rw [List.count_eq_zero]
      simp only [List.mem_singleton]
      exact fun hc2 => h hc2.symm
  rw [h4]
  omega

/-- The `tabClosed` session search preserves the invariant, allocates no
token, and emits each completed token exactly once out of the pending
multiset. -/
theorem resolveClose_ok (tabId : Nat) (entries : List (Str × Nat)) (v : World)
    (hInv : WInv v) :
    WInv (resolveCloseInSessions v entries tabId).1
    ∧ (resolveCloseInSessions v entries tabId).1.nextToken = v.nextToken
    ∧ ∀ t : Nat, ((resolveCloseInSessions v entries tabId).2.map Prod.fst).count t
        + (World.pendingTokens (resolveCloseInSessions v entries tabId).1).count t
      = v.pendingTokens.count t := by
  induction entries with
  | nil =>
    refine ⟨hInv, rfl, ?_⟩
    intro t
    simp [resolveCloseInSessions]
  | cons e rest ih =>
    obtain ⟨sid, obj⟩ := e
    cases hh : v.heap[obj]? with
    | none =>
      have hres : resolveCloseInSessions v ((sid, obj) :: rest) tabId
          = resolveCloseInSessions v rest tabId := by
        simp only [resolveCloseInSessions]
        simp only [hh]
      rw [hres]
      exact ih
    | some s =>
      cases hpc : mGet s.pendingCloseTabs tabId with
      | none =>
        have hres : resolveCloseInSessions v ((sid, obj) :: rest) tabId
            = resolveCloseInSessions v rest tabId := by
          simp only [resolveCloseInSessions]
          simp only [hh, hpc]
        rw [hres]
        exact ih
      | some pending =>
        have hcomp := winv_complete_close v obj s tabId pending hInv hh hpc
        have hres : resolveCloseInSessions v ((sid, obj) :: rest) tabId
            = ({ v with
                  heap := v.heap.set obj
                    { s with pendingCloseTabs := mDel s.pendingCloseTabs tabId }
                  timers := mDel v.timers pending.timeout },
               [(pending.token, Outcome.resolved)]) := by
          simp only [resolveCloseInSessions]
          simp only [hh, hpc]
          rfl
        rw [hres]
        refine ⟨hcomp.1, rfl, ?_⟩
        intro t
        have h2 := hcomp.2 t
        have h4 : ([(pending.token, Outcome.resolved)].map Prod.fst).count t
            = if pending.token = t then 1 else 0 := by
          by_cases h : pending.token = t
          · simp [h]
          · simp only [List.map_cons, List.map_nil, if_neg h]
            rw [List.count_eq_zero]
            simp only [List.mem_singleton]
            exact fun hc2 => h hc2.symm
        show ([(pending.token, Outcome.resolved)].map Prod.fst).count t
            + (World.pendingTokens { v with
                heap := v.heap.set obj
                  { s with pendingCloseTabs := mDel s.pendingCloseTabs tabId }
                timers := mDel v.timers pending.timeout }).count t
          = v.pendingTokens.count t
        rw [h4]
        omega

theorem stepOK_handleMessage (w : World) (msg : ExtensionMessage) (hInv : WInv w) :
    StepOK w (handleExtensionMessage w msg) := by
  cases msg with
  | connected sid binfo tabs =>
    simp only [handleExtensionMessage]
    rw [foldl_addTab_browser]
    split
    · rename_i obj s heq
      split
      · rename_i p hp
        have hg := getSession_some _ _ _ _ heq
        have hs' : w.heap[obj]? = some s := hg.2
        have hWB : WInv { w with browser := tabs.foldl (fun b tab => addTab b tab) (setConnected w.browser true (some binfo)) } :=
          winv_browser w _ hInv
        have hcomp := winv_complete_conn
          { w with browser := tabs.foldl (fun b tab => addTab b tab) (setConnected w.browser true (some binfo)) }
          obj s p hWB hs' hp
        exact stepOK_mk_one w _ p.token Outcome.resolved hcomp.1 rfl hcomp.2
      · exact stepOK_mk_zero w _ (winv_browser w _ hInv) rfl (fun t => rfl)
    · exact stepOK_mk_zero w _ (winv_browser w _ hInv) rfl (fun t => rfl)
  | disconnected sid =>
    simp only [handleExtensionMessage]
    exact stepOK_mk_zero w _ (winv_browser w _ hInv) rfl (fun t => rfl)
  | tabCreated sid tab requestId =>
    cases requestId with
    | none =>
      simp only [handleExtensionMessage]
      exact stepOK_mk_zero w _ (winv_browser w _ hInv) rfl (fun t => rfl)
    | some rid =>
      simp only [handleExtensionMessage]
      by_cases hempty : rid.isEmpty = true
      · rw [if_pos hempty]
        exact stepOK_mk_zero w _ (winv_browser w _ hInv) rfl (fun t => rfl)
      · rw [if_neg hempty]
        split
        · rename_i obj s heq
          split
          · rename_i pending hpo
            have hg := getSession_some _ _ _ _ heq
            have hs' : w.heap[obj]? = some s := hg.2
            have hWB : WInv { w with browser := addTab w.browser tab } :=
              winv_browser w _ hInv
            have hcomp := winv_complete_open { w with browser := addTab w.browser tab }
              obj s rid pending hWB hs' hpo
            exact stepOK_mk_one w _ pending.token Outcome.resolved hcomp.1 rfl hcomp.2
          · exact stepOK_mk_zero w _ (winv_browser w _ hInv) rfl (fun t => rfl)
        · exact stepOK_mk_zero w _ (winv_browser w _ hInv) rfl (fun t => rfl)
  | tabUpdated sid tab =>
    simp only [handleExtensionMessage]
    exact stepOK_mk_zero w _ (winv_browser w _ hInv) rfl (fun t => rfl)
  | tabClosed sid tabId =>
    simp only [handleExtensionMessage]
    have h := resolveClose_ok tabId w.table
      { w with browser := removeTab w.browser tabId }
      (winv_browser w _ hInv)
    have hfinal : StepOK w
        (resolveCloseInSessions { w with browser := removeTab w.browser tabId }
          w.table tabId) := by
      refine ⟨h.1, le_of_eq h.2.1.symm, ?_⟩
      intro t
      have h2 : ((resolveCloseInSessions { w with browser := removeTab w.browser tabId }
              w.table tabId).2.map Prod.fst).count t
          + (World.pendingTokens (resolveCloseInSessions
              { w with browser := removeTab w.browser tabId }
              w.table tabId).1).count t
          = w.pendingTokens.count t := h.2.2 t
      have hnt : (resolveCloseInSessions { w with browser := removeTab w.browser tabId }
          w.table tabId).1.nextToken = w.nextToken := h.2.1
      rw [hnt, if_neg (by omega : ¬(w.nextToken ≤ t ∧ t < w.nextToken))]
      omega
    exact hfinal
  | toolsChanged sid tabId tools =>
    simp only [handleExtensionMessage]
    exact stepOK_mk_zero w _ (winv_browser w _ hInv) rfl (fun t => rfl)
  | toolResult sid callId error =>
    simp only [handleExtensionMessage]
    split
    · rename_i obj s heq
      split
      · rename_i pending hpc
        have hg := getSession_some _ _ _ _ heq
        have hcomp := winv_complete_call w obj s callId pending hInv hg.2 hpc
        cases error with
        | some e =>
          exact stepOK_mk_one w _ pending.token
            (Outcome.rejected (Reason.remoteError e)) hcomp.1 rfl hcomp.2
        | none =>
          exact stepOK_mk_one w _ pending.token Outcome.resolved hcomp.1 rfl hcomp.2
      · exact stepOK_mk_zero w w hInv rfl (fun t => rfl)
    · exact stepOK_mk_zero w w hInv rfl (fun t => rfl)
  | toolsDiscovered sid callId tabId tools =>
    simp only [handleExtensionMessage]
    split
    · rename_i obj s heq
      split
      · rename_i pending hpc
        have hg := getSession_some _ _ _ _ heq
        have hcomp := winv_complete_call w obj s callId pending hInv hg.2 hpc
        have hfin : WInv { w with
            heap := w.heap.set obj { s with pendingCalls := mDel s.pendingCalls callId }
            browser := updateTabTools w.browser tabId tools } :=
          winv_browser
            { w with heap := w.heap.set obj { s with pendingCalls := mDel s.pendingCalls callId } }
            (updateTabTools w.browser tabId tools) hcomp.1
        exact stepOK_mk_one w _ pending.token Outcome.resolved hfin rfl hcomp.2
      · exact stepOK_mk_zero w w hInv rfl (fun t => rfl)
    · exact stepOK_mk_zero w w hInv rfl (fun t => rfl)
  | tabFocused sid tabId tools requestId =>
    cases requestId with
    | none =>
      simp only [handleExtensionMessage]
      exact stepOK_mk_zero w _ (winv_browser w _ hInv) rfl (fun t => rfl)
    | some rid =>
      simp only [handleExtensionMessage]
      by_cases hempty : rid.isEmpty = true
      · rw [if_pos hempty]
        exact stepOK_mk_zero w _ (winv_browser w _ hInv) rfl (fun t => rfl)
      · rw [if_neg hempty]
        split
        · rename_i obj s heq
          split
          · rename_i pending hpo
            split
            · rename_i tabinfo htab
              have hg := getSession_some _ _ _ _ heq
              have hs' : w.heap[obj]? = some s := hg.2
              have hWB : WInv { w with browser := updateTabTools w.browser tabId tools } :=
                winv_browser w _ hInv
              have hcomp := winv_complete_open
                { w with browser := updateTabTools w.browser tabId tools }
                obj s rid pending hWB hs' hpo
              exact stepOK_mk_one w _ pending.token Outcome.resolved hcomp.1 rfl hcomp.2
            · exact stepOK_mk_zero w _ (winv_browser w _ hInv) rfl (fun t => rfl)
          · exact stepOK_mk_zero w _ (winv_browser w _ hInv) rfl (fun t => rfl)
        · exact stepOK_mk_zero w _ (winv_browser w _ hInv) rfl (fun t => rfl)

/-! ### Step lemmas: socket close (mass drain), session create/delete -/

theorem map_fst_pairs {α β : Type} (l : List α) (g : α → β) :
    ((l.map (fun a => (a, g a))).map Prod.fst) = l := by
  rw [List.map_map]
  exact List.map_id l

/-- The invariant never depends on the socket being open: setting the flag
to `true` only weakens the quiescence obligation. -/
theorem winv_socket_true (w : World) (h : WInv w) :
    WInv { w with socketConnected := true } := by
  refine ⟨h.tableObj, h.timerIds, h.timerNodup, h.tokFresh, h.mapsNodup, h.keyStruct,
    h.timerOpen, h.timerClose, h.timerConn, h.timerCall, h.entryOpen, h.entryClose,
    h.entryConn, h.entryCall, h.connFlag, ?_⟩
  intro hcl
  exact absurd hcl (by simp)

/-- Conversely, a world whose ghost (socket-open) version satisfies the
invariant and whose reachable sessions are quiescent satisfies it as is. -/
theorem winv_of_ghost (v : World)
    (hg : WInv { v with socketConnected := true })
    (hq : ∀ e ∈ v.table, ∀ s : Session, v.heap[e.2]? = some s →
      s.connectInProgress = false) : WInv v :=
  ⟨hg.tableObj, hg.timerIds, hg.timerNodup, hg.tokFresh, hg.mapsNodup, hg.keyStruct,
   hg.timerOpen, hg.timerClose, hg.timerConn, hg.timerCall, hg.entryOpen, hg.entryClose,
   hg.entryConn, hg.entryCall, hg.connFlag, fun _ => hq⟩

/-- Removing a table entry preserves the invariant. -/
theorem winv_table_del (v : World) (sid : Str) (h : WInv v) :
    WInv { v with table := mDel v.table sid } := by
  refine ⟨?_, h.timerIds, h.timerNodup, h.tokFresh, h.mapsNodup, h.keyStruct,
    h.timerOpen, h.timerClose, h.timerConn, h.timerCall, h.entryOpen, h.entryClose,
    h.entryConn, h.entryCall, h.connFlag, ?_⟩
  · intro e he
    exact h.tableObj e (mem_mDel _ _ _ he)
  · intro hcl e he s hs
    exact h.quietWhenClosed hcl e (mem_mDel _ _ _ he) s hs

/-- `rejectAllSessionPendingOps` preserves the ghost invariant, empties the
object's pending multiset into the emitted completions, and leaves every
session either untouched or with `connectInProgress = false`. -/
theorem rejectOps_ghost_ok (v : World) (obj : Nat) (reason : Reason)
    (hgInv : WInv { v with socketConnected := true }) :
    WInv { (rejectAllSessionPendingOps v obj reason).1 with socketConnected := true }
    ∧ (rejectAllSessionPendingOps v obj reason).1.nextToken = v.nextToken
    ∧ (rejectAllSessionPendingOps v obj reason).1.table = v.table
    ∧ (∀ t : Nat, ((rejectAllSessionPendingOps v obj reason).2.map Prod.fst).count t
        + (World.pendingTokens (rejectAllSessionPendingOps v obj reason).1).count t
      = v.pendingTokens.count t)
    ∧ (∀ s : Session, (rejectAllSessionPendingOps v obj reason).1.heap[obj]? = some s →
        s.connectInProgress = false)
    ∧ (∀ (obj' : Nat) (s : Session),
        (rejectAllSessionPendingOps v obj reason).1.heap[obj']? = some s →
        s.connectInProgress = false ∨ v.heap[obj']? = some s) := by
  cases hs : v.heap[obj]? with
  | none =>
    have hres : rejectAllSessionPendingOps v obj reason = (v, []) := by
      simp only [rejectAllSessionPendingOps, hs]
    rw [hres]
    refine ⟨hgInv, rfl, rfl, ?_, ?_, ?_⟩
    · intro t
      simp
    · intro s hsome
      have hsome' : v.heap[obj]? = some s := hsome
      rw [hs] at hsome'
      exact absurd hsome' (by simp)
    · intro obj' s hsome
      exact Or.inr hsome
  | some s =>
    have hgs : ({ v with socketConnected := true } : World).heap[obj]? = some s := hs
    have hdrain := winv_drain_obj { v with socketConnected := true } obj s false
      hgInv hgs (Or.inl rfl)
    have hres : rejectAllSessionPendingOps v obj reason
        = ({ v with
              heap := v.heap.set obj
                { s with
                  pendingCalls := []
                  pendingOpenTabs := []
                  pendingCloseTabs := []
                  pendingConnect := none
                  connectInProgress := false }
              timers := (drainKeys s).foldl (fun acc k => mDel acc k) v.timers },
           s.pendingTokens.map (fun tk => (tk, Outcome.rejected reason))) := by
      simp only [rejectAllSessionPendingOps, hs]
      rw [drainTimers_eq]
      rfl
    rw [hres]
    refine ⟨?_, rfl, rfl, ?_, ?_, ?_⟩
    · exact hdrain.1
    · intro t
      have h2 : (World.pendingTokens { v with
            heap := v.heap.set obj
              { s with
                pendingCalls := []
                pendingOpenTabs := []
                pendingCloseTabs := []
                pendingConnect := none
                connectInProgress := false }
            timers := (drainKeys s).foldl (fun acc k => mDel acc k) v.timers }).count t
          + s.pendingTokens.count t = v.pendingTokens.count t := hdrain.2 t
      have h3 : ((s.pendingTokens.map (fun tk => (tk, Outcome.rejected reason))).map
          Prod.fst) = s.pendingTokens := map_fst_pairs _ _
      show ((s.pendingTokens.map (fun tk => (tk, Outcome.rejected reason))).map
            Prod.fst).count t
          + (World.pendingTokens { v with
              heap := v.heap.set obj
                { s with
                  pendingCalls := []
                  pendingOpenTabs := []
                  pendingCloseTabs := []
                  pendingConnect := none
                  connectInProgress := false }
              timers := (drainKeys s).foldl (fun acc k => mDel acc k) v.timers }).count t
          = v.pendingTokens.count t
      rw [h3]
      omega
    · intro s' hsome
      have hsome' : (v.heap.set obj
          { s with
            pendingCalls := []
            pendingOpenTabs := []
            pendingCloseTabs := []
            pendingConnect := none
            connectInProgress := false })[obj]? = some s' := hsome
      rw [getElem?_set_self _ _ s _ hs] at hsome'
      injection hsome' with hsome'
      subst hsome'
      rfl
    · intro obj' s' hsome
      by_cases hobj : obj' = obj
      · subst hobj
        left
        have hsome' : (v.heap.set obj'
            { s with
              pendingCalls := []
              pendingOpenTabs := []
              pendingCloseTabs := []
              pendingConnect := none
              connectInProgress := false })[obj']? = some s' := hsome
        rw [getElem?_set_self _ _ s _ hs] at hsome'
        injection hsome' with hsome'
        subst hsome'
        rfl
      · right
        have hsome' : (v.heap.set obj
            { s with
              pendingCalls := []
              pendingOpenTabs := []
              pendingCloseTabs := []
              pendingConnect := none
              connectInProgress := false })[obj']? = some s' := hsome
        rw [getElem?_set_ne _ _ _ _ hobj] at hsome'
        exact hsome'

/-- The socket-close drain loop: the ghost invariant is maintained, no token
is allocated, each drained token is emitted exactly once, and afterwards
every session named by the processed entries is quiescent. -/
theorem rejectAll_ghost_ok (entries : List (Str × Nat)) (v : World)
    (hgInv : WInv { v with socketConnected := true }) :
    WInv { (rejectAllSessions v entries).1 with socketConnected := true }
    ∧ (rejectAllSessions v entries).1.nextToken = v.nextToken
    ∧ (rejectAllSessions v entries).1.table = v.table
    ∧ (∀ t : Nat, ((rejectAllSessions v entries).2.map Prod.fst).count t
        + (World.pendingTokens (rejectAllSessions v entries).1).count t
      = v.pendingTokens.count t)
    ∧ (∀ e ∈ entries, ∀ s : Session,
        (rejectAllSessions v entries).1.heap[e.2]? = some s →
        s.connectInProgress = false)
    ∧ (∀ (obj' : Nat) (s : Session),
        (rejectAllSessions v entries).1.heap[obj']? = some s →
        s.connectInProgress = false ∨ v.heap[obj']? = some s) := by
  induction entries generalizing v with
  | nil =>
    refine ⟨hgInv, rfl, rfl, ?_, ?_, ?_⟩
    · intro t
      simp [rejectAllSessions]
    · intro e he
      exact absurd he (by simp)
    · intro obj' s hsome
      exact Or.inr hsome
  | cons e rest ih =>
    obtain ⟨sid, obj⟩ := e
    have h1 := rejectOps_ghost_ok v obj Reason.connectionClosed hgInv
    have h2 := ih (rejectAllSessionPendingOps v obj Reason.connectionClosed).1 h1.1
    have hres : rejectAllSessions v ((sid, obj) :: rest)
        = ((rejectAllSessions
              (rejectAllSessionPendingOps v obj Reason.connectionClosed).1 rest).1,
           (rejectAllSessionPendingOps v obj Reason.connectionClosed).2
             ++ (rejectAllSessions
                  (rejectAllSessionPendingOps v obj Reason.connectionClosed).1 rest).2) := by
      simp only [rejectAllSessions]
    rw [hres]
    refine ⟨h2.1, ?_, ?_, ?_, ?_, ?_⟩
    · rw [h2.2.1, h1.2.1]
    · rw [h2.2.2.1, h1.2.2.1]
    · intro t
      have ha := h1.2.2.2.1 t
      have hb := h2.2.2.2.1 t
      simp only [List.map_append, List.count_append]
      omega
    · intro e he s hsome
      simp only [List.mem_cons] at he
      rcases he with he | he
      · have he2 : e.2 = obj := by rw [he]
        rw [he2] at hsome
        rcases h2.2.2.2.2.2 obj s hsome with hflag | hold
        · exact hflag
        · exact h1.2.2.2.2.1 s hold
      · exact h2.2.2.2.2.1 e he s hsome
    · intro obj' s hsome
      rcases h2.2.2.2.2.2 obj' s hsome with hflag | hold
      · exact Or.inl hflag
      · exact h1.2.2.2.2.2 obj' s hold

theorem stepOK_socketClose (w : World) (hInv : WInv w) :
    StepOK w (handleSocketClose w) := by
  have hg : WInv { ({ w with
        socketConnected := false
        browser := setConnected w.browser false none } : World) with
      socketConnected := true } :=
    winv_socket_true { w with browser := setConnected w.browser false none }
      (winv_browser w (setConnected w.browser false none) hInv)
  have h := rejectAll_ghost_ok w.table
    { w with socketConnected := false, browser := setConnected w.browser false none } hg
  have hfinal : StepOK w
      (rejectAllSessions
        { w with socketConnected := false, browser := setConnected w.browser false none }
        w.table) := by
    have hnt : (rejectAllSessions
        { w with socketConnected := false, browser := setConnected w.browser false none }
        w.table).1.nextToken = w.nextToken := h.2.1
    refine ⟨?_, le_of_eq hnt.symm, ?_⟩
    · refine winv_of_ghost _ h.1 ?_
      intro e he s hsome
      have he' : e ∈ w.table := by
        have htab := h.2.2.1
        rw [htab] at he
        exact he
      exact h.2.2.2.2.1 e he' s hsome
    · intro t
      have h2 : ((rejectAllSessions
            { w with
              socketConnected := false
              browser := setConnected w.browser false none } w.table).2.map
            Prod.fst).count t
          + (World.pendingTokens (rejectAllSessions
              { w with
                socketConnected := false
                browser := setConnected w.browser false none } w.table).1).count t
          = w.pendingTokens.count t := h.2.2.2.1 t
      rw [hnt, if_neg (by omega : ¬(w.nextToken ≤ t ∧ t < w.nextToken))]
      omega
  have hunfold : handleSocketClose w
      = rejectAllSessions
          { w with socketConnected := false, browser := setConnected w.browser false none }
          ({ w with
              socketConnected := false
              browser := setConnected w.browser false none } : World).table := by
    simp only [handleSocketClose]
  rw [hunfold]
  exact hfinal

theorem stepOK_createSession (w : World) (sid : Str) (hInv : WInv w) :
    StepOK w ((createSession w sid).1, []) := by
  have hnt : (createSession w sid).1.nextToken = w.nextToken := rfl
  refine ⟨winv_createSession w sid hInv, le_of_eq hnt.symm, ?_⟩
  intro t
  have hpt := createSession_pendingTokens w sid
  show ([].map Prod.fst).count t + (createSession w sid).1.pendingTokens.count t
      = w.pendingTokens.count t
        + (if w.nextToken ≤ t ∧ t < (createSession w sid).1.nextToken then 1 else 0)
  rw [hpt, hnt, if_neg (by omega : ¬(w.nextToken ≤ t ∧ t < w.nextToken))]
  simp

theorem stepOK_deleteSession (w : World) (sid : Str) (hInv : WInv w) :
    StepOK w (deleteSession w sid) := by
  cases hgs : getSession w sid with
  | none =>
    have hres : deleteSession w sid = (w, []) := by
      simp only [deleteSession, hgs]
    rw [hres]
    refine ⟨hInv, le_refl _, ?_⟩
    intro t
    rw [if_neg (by omega : ¬(w.nextToken ≤ t ∧ t < w.nextToken))]
    simp
  | some r =>
    obtain ⟨obj, s⟩ := r
    have hg := getSession_some _ _ _ _ hgs
    have hs : w.heap[obj]? = some s := hg.2
    have hdrain := winv_drain_obj w obj s s.connectInProgress hInv hs (Or.inr rfl)
    have hres : deleteSession w sid
        = ({ w with
              heap := w.heap.set obj
                { s with
                  pendingCalls := []
                  pendingOpenTabs := []
                  pendingCloseTabs := []
                  pendingConnect := none
                  connectInProgress := s.connectInProgress }
              timers := (drainKeys s).foldl (fun acc k => mDel acc k) w.timers
              table := mDel w.table sid },
           s.pendingTokens.map (fun tk => (tk, Outcome.rejected Reason.sessionClosed))) := by
      simp only [deleteSession, hgs]
      rw [drainTimers_eq]
      rfl
    rw [hres]
    have hfin : WInv { w with
        heap := w.heap.set obj
          { s with
            pendingCalls := []
            pendingOpenTabs := []
            pendingCloseTabs := []
            pendingConnect := none
            connectInProgress := s.connectInProgress }
        timers := (drainKeys s).foldl (fun acc k => mDel acc k) w.timers
        table := mDel w.table sid } :=
      winv_table_del
        { w with
          heap := w.heap.set obj
            { s with
              pendingCalls := []
              pendingOpenTabs := []
              pendingCloseTabs := []
              pendingConnect := none
              connectInProgress := s.connectInProgress }
          timers := (drainKeys s).foldl (fun acc k => mDel acc k) w.timers }
        sid hdrain.1
    refine ⟨hfin, le_refl _, ?_⟩
    intro t
    have h2 : (World.pendingTokens { w with
          heap := w.heap.set obj
            { s with
              pendingCalls := []
              pendingOpenTabs := []
              pendingCloseTabs := []
              pendingConnect := none
              connectInProgress := s.connectInProgress }
          timers := (drainKeys s).foldl (fun acc k => mDel acc k) w.timers
          table := mDel w.table sid }).count t
        + s.pendingTokens.count t = w.pendingTokens.count t := hdrain.2 t
    have h3 : ((s.pendingTokens.map
        (fun tk => (tk, Outcome.rejected Reason.sessionClosed))).map Prod.fst)
        = s.pendingTokens := map_fst_pairs _ _
    show ((s.pendingTokens.map
          (fun tk => (tk, Outcome.rejected Reason.sessionClosed))).map Prod.fst).count t
        + (World.pendingTokens { w with
            heap := w.heap.set obj
              { s with
                pendingCalls := []
                pendingOpenTabs := []
                pendingCloseTabs := []
                pendingConnect := none
                connectInProgress := s.connectInProgress }
            timers := (drainKeys s).foldl (fun acc k => mDel acc k) w.timers
            table := mDel w.table sid }).count t
        = w.pendingTokens.count t + (if w.nextToken ≤ t ∧ t < w.nextToken then 1 else 0)
    rw [h3, if_neg (by omega : ¬(w.nextToken ≤ t ∧ t < w.nextToken))]
    omega

/-- Every event of the transition system satisfies `StepOK`. -/
theorem stepOK_step (w : World) (e : Event) (hInv : WInv w) : StepOK w (step w e) := by
  cases e with
  | evSocketOpen =>
    simp only [step]
    by_cases hsc : w.socketConnected = true
    · rw [if_pos hsc]
      exact stepOK_mk_zero w w hInv rfl (fun t => rfl)
    · rw [if_neg hsc]
      exact stepOK_mk_zero w _ (winv_socket_true w hInv) rfl (fun t => rfl)
  | evSocketClose =>
    simp only [step]
    by_cases hsc : w.socketConnected = true
    · rw [if_pos hsc]
      exact stepOK_socketClose w hInv
    · rw [if_neg hsc]
      exact stepOK_mk_zero w w hInv rfl (fun t => rfl)
  | evMessage msg =>
    simp only [step]
    by_cases hsc : w.socketConnected = true
    · rw [if_pos hsc]
      exact stepOK_handleMessage w msg hInv
    · rw [if_neg hsc]
      exact stepOK_mk_zero w w hInv rfl (fun t => rfl)
  | evFire tid => exact stepOK_fireTimer w tid hInv
  | evConnect sid => exact stepOK_connectToExtension w sid hInv
  | evOpenTab sid url => exact stepOK_openTab w sid url hInv
  | evCloseTab sid tabId => exact stepOK_closeTab w sid tabId hInv
  | evCallTool sid tabId toolName => exact stepOK_callPageTool w sid tabId toolName hInv
  | evDiscover sid tabId => exact stepOK_discoverToolsForTab w sid tabId hInv
  | evCreateSession sid => exact stepOK_createSession w sid hInv
  | evDeleteSession sid => exact stepOK_deleteSession w sid hInv

/-- Counting over a whole run: the invariant holds at the end, the token
counter is monotone, and each token's emitted completions plus its remaining
registrations balance its allocation. -/
theorem run_ok (es : List Event) (w : World) (hInv : WInv w) :
    WInv (run w es).1
    ∧ w.nextToken ≤ (run w es).1.nextToken
    ∧ ∀ t : Nat, ((run w es).2.map Prod.fst).count t
        + (run w es).1.pendingTokens.count t
      = w.pendingTokens.count t
        + (if w.nextToken ≤ t ∧ t < (run w es).1.nextToken then 1 else 0) := by
  induction es generalizing w with
  | nil =>
    refine ⟨hInv, le_refl _, ?_⟩
    intro t
    show (([] : List Completion).map Prod.fst).count t + w.pendingTokens.count t
        = w.pendingTokens.count t + (if w.nextToken ≤ t ∧ t < w.nextToken then 1 else 0)
    rw [if_neg (by omega : ¬(w.nextToken ≤ t ∧ t < w.nextToken))]
    simp
  | cons e es ih =>
    have h1 := stepOK_step w e hInv
    have h2 := ih (step w e).1 h1.1
    have hres : run w (e :: es)
        = ((run (step w e).1 es).1, (step w e).2 ++ (run (step w e).1 es).2) := by
      simp only [run]
    rw [hres]
    refine ⟨h2.1, le_trans h1.2.1 h2.2.1, ?_⟩
    intro t
    have ha := h1.2.2 t
    have hb := h2.2.2 t
    have hm1 := h1.2.1
    have hm2 := h2.2.1
    simp only [List.map_append, List.count_append]
    split_ifs at ha hb ⊢ <;> omega

/-- Liveness backing for exactly-once: every pending token has an armed
timer whose firing emits exactly that token. -/
theorem pending_has_exit (w : World) (hInv : WInv w) (t : Nat)
    (ht : t ∈ w.pendingTokens) :
    ∃ tid, ((fireTimer w tid).2.map Prod.fst) = [t] := by
  simp only [World.pendingTokens] at ht
  rw [List.mem_flatMap] at ht
  obtain ⟨s, hsmem, hts⟩ := ht
  obtain ⟨obj, hs⟩ := List.mem_iff_getElem?.1 hsmem
  simp only [Session.pendingTokens, List.mem_append] at hts
  rcases hts with ((hts | hts) | hts) | hts
  · obtain ⟨e, he, heq⟩ := List.mem_map.1 hts
    obtain ⟨cid, pc⟩ := e
    obtain ⟨tid, htid⟩ := hInv.entryCall obj s hs (cid, pc) he
    refine ⟨tid, ?_⟩
    have hs' : (clearTimeoutW w tid).heap[obj]? = some s := hs
    have hpc : mGet s.pendingCalls cid = some pc :=
      mem_mGet _ _ _ (hInv.mapsNodup obj s hs).1 he
    have hres : fireTimer w tid
        = ({ w with
              heap := w.heap.set obj { s with pendingCalls := mDel s.pendingCalls cid }
              timers := mDel w.timers tid },
           [(pc.token, Outcome.rejected Reason.timedOut)]) := by
      simp only [fireTimer]
      rw [htid]
      simp only [hs', hpc]
      rfl
    rw [hres, ← heq]
    rfl
  · obtain ⟨e, he, heq⟩ := List.mem_map.1 hts
    obtain ⟨rid, p⟩ := e
    have htimer := hInv.entryOpen obj s hs (rid, p) he
    refine ⟨p.timeout, ?_⟩
    have hs' : (clearTimeoutW w p.timeout).heap[obj]? = some s := hs
    have hres : fireTimer w p.timeout
        = ({ w with
              heap := w.heap.set obj
                { s with pendingOpenTabs := mDel s.pendingOpenTabs rid }
              timers := mDel w.timers p.timeout },
           [(p.token, Outcome.rejected Reason.timedOut)]) := by
      simp only [fireTimer]
      rw [htimer]
      simp only [hs']
      rfl
    rw [hres, ← heq]
    rfl
  · obtain ⟨e, he, heq⟩ := List.mem_map.1 hts
    obtain ⟨tabId, p⟩ := e
    have htimer := hInv.entryClose obj s hs (tabId, p) he
    refine ⟨p.timeout, ?_⟩
    have hs' : (clearTimeoutW w p.timeout).heap[obj]? = some s := hs
    have hres : fireTimer w p.timeout
        = ({ w with
              heap := w.heap.set obj
                { s with pendingCloseTabs := mDel s.pendingCloseTabs tabId }
              timers := mDel w.timers p.timeout },
           [(p.token, Outcome.rejected Reason.timedOut)]) := by
      simp only [fireTimer]
      rw [htimer]
      simp only [hs']
      rfl
    rw [hres, ← heq]
    rfl
  · cases hpc : s.pendingConnect with
    | none =>
      rw [hpc] at hts
      exact absurd hts (by simp)
    | some p =>
      rw [hpc] at hts
      simp only [List.mem_singleton] at hts
      subst hts
      have htimer := hInv.entryConn obj s hs p hpc
      refine ⟨p.timeout, ?_⟩
      have hs' : (clearTimeoutW w p.timeout).heap[obj]? = some s := hs
      have hres : fireTimer w p.timeout
          = ({ w with
                heap := w.heap.set obj
                  { s with pendingConnect := none, connectInProgress := false }
                timers := mDel w.timers p.timeout },
             [(p.token, Outcome.rejected Reason.timedOut)]) := by
        simp only [fireTimer]
        rw [htimer]
        simp only [hs']
        rfl
      rw [hres]
      rfl

/-! ### Claim C1 -/

/-- **C1.** For every session and every pending operation registered on it
(tool call, discovery call, open-tab, close-tab, or the singleton connect),
the operation's continuation runs exactly once under every interleaving of
the exit paths (correlating reply, own timeout, transport disconnect drain,
session-delete drain): over every event trace from the initial world, each
allocated token is completed at most once, and each token is either
completed exactly once or still pending exactly once with an armed timer
whose firing completes exactly it. -/
theorem C1_pending_exactly_once (es : List Event) :
    (∀ t : Nat, t < (run initialWorld es).1.nextToken →
        ((run initialWorld es).2.map Prod.fst).count t
          + (run initialWorld es).1.pendingTokens.count t = 1)
    ∧ (∀ t : Nat, ((run initialWorld es).2.map Prod.fst).count t ≤ 1)
    ∧ (∀ t ∈ (run initialWorld es).1.pendingTokens,
        ((run initialWorld es).2.map Prod.fst).count t = 0
        ∧ ∃ tid, ((fireTimer (run initialWorld es).1 tid).2.map Prod.fst) = [t]) := by
  have h := run_ok es initialWorld inv_initialWorld
  have hcnt : ∀ t : Nat, ((run initialWorld es).2.map Prod.fst).count t
      + (run initialWorld es).1.pendingTokens.count t
    = (if t < (run initialWorld es).1.nextToken then 1 else 0) := by
    intro t
    have h2 := h.2.2 t
    have h0 : initialWorld.pendingTokens.count t = 0 := rfl
    rw [h0] at h2
    by_cases hlt : t < (run initialWorld es).1.nextToken
    · rw [if_pos hlt]
      rw [if_pos ⟨Nat.zero_le t, hlt⟩] at h2
      omega
    · rw [if_neg hlt]
      rw [if_neg (fun hc => hlt hc.2)] at h2
      omega
  refine ⟨?_, ?_, ?_⟩
  · intro t hlt
    have h3 := hcnt t
    rw [if_pos hlt] at h3
    exact h3
  · intro t
    have h3 := hcnt t
    by_cases hlt : t < (run initialWorld es).1.nextToken
    · rw [if_pos hlt] at h3
      omega
    · rw [if_neg hlt] at h3
      omega
  · intro t htmem
    have hpos : 0 < (run initialWorld es).1.pendingTokens.count t :=
      count_pos_of_tokens_mem _ t htmem
    have hlt : t < (run initialWorld es).1.nextToken := h.1.tokFresh t htmem
    have heq := hcnt t
    rw [if_pos hlt] at heq
    exact ⟨by omega, pending_has_exit _ h.1 t htmem⟩

/-- Witness for C1 at a concrete trace: open the socket, issue one tool
call; the allocated token 0 is completed-plus-pending exactly once. -/
theorem C1_pending_exactly_once_witness :
    0 < (run initialWorld
        [Event.evSocketOpen, Event.evCallTool ['s'] 1 ['f']]).1.nextToken
    ∧ ((run initialWorld
          [Event.evSocketOpen, Event.evCallTool ['s'] 1 ['f']]).2.map Prod.fst).count 0
        + (run initialWorld
            [Event.evSocketOpen, Event.evCallTool ['s'] 1 ['f']]).1.pendingTokens.count 0
      = 1 :=
  ⟨by decide,
   (C1_pending_exactly_once [Event.evSocketOpen, Event.evCallTool ['s'] 1 ['f']]).1 0
     (by decide)⟩

/-! ### Helpers for the remaining claims -/

/-- Firing a call timer whose pending entry is gone performs no completion:
the closure re-checks membership before rejecting. -/
theorem fire_call_orphan_noop (w : World) (tid obj : Nat) (cid : Str) (tok : Nat)
    (hmt : mGet w.timers tid = some (TimerKind.callTimeout obj cid tok))
    (hnone : ∀ s : Session, w.heap[obj]? = some s → mGet s.pendingCalls cid = none) :
    (fireTimer w tid).2 = [] := by
  cases hh : (clearTimeoutW w tid).heap[obj]? with
  | none =>
    have hres : fireTimer w tid = (clearTimeoutW w tid, []) := by
      simp only [fireTimer]
      rw [hmt]
      simp only [hh]
    rw [hres]
  | some s =>
    have hpc : mGet s.pendingCalls cid = none := hnone s hh
    have hres : fireTimer w tid = (clearTimeoutW w tid, []) := by
      simp only [fireTimer]
      rw [hmt]
      simp only [hh, hpc]
      rfl
    rw [hres]

/-- Case analysis of the `tabClosed` search: either no scanned session holds
a pending close for the tab and the world is returned unchanged, or the
first holder is resolved and removed. -/
theorem resolveClose_cases (tabId : Nat) (entries : List (Str × Nat)) (v : World) :
    (resolveCloseInSessions v entries tabId = (v, [])
      ∧ ∀ e ∈ entries, ∀ s : Session, v.heap[e.2]? = some s →
          mGet s.pendingCloseTabs tabId = none)
    ∨ (∃ obj s pending, v.heap[obj]? = some s
        ∧ mGet s.pendingCloseTabs tabId = some pending
        ∧ resolveCloseInSessions v entries tabId
          = ({ v with
                heap := v.heap.set obj
                  { s with pendingCloseTabs := mDel s.pendingCloseTabs tabId }
                timers := mDel v.timers pending.timeout },
             [(pending.token, Outcome.resolved)])) := by
  induction entries with
  | nil =>
    left
    exact ⟨rfl, by simp⟩
  | cons e rest ih =>
    obtain ⟨sid, obj⟩ := e
    cases hh : v.heap[obj]? with
    | none =>
      have hres : resolveCloseInSessions v ((sid, obj) :: rest) tabId
          = resolveCloseInSessions v rest tabId := by
        simp only [resolveCloseInSessions]
        simp only [hh]
      rcases ih with ⟨h1, h2⟩ | ⟨obj', s', p', h1, h2, h3⟩
      · left
        refine ⟨hres.trans h1, ?_⟩
        intro e he s hs
        rcases List.mem_cons.1 he with he | he
        · have he2 : e.2 = obj := by rw [he]
          rw [he2, hh] at hs
          exact absurd hs (by simp)
        · exact h2 e he s hs
      · right
        exact ⟨obj', s', p', h1, h2, hres.trans h3⟩
    | some s =>
      cases hpc : mGet s.pendingCloseTabs tabId with
      | none =>
        have hres : resolveCloseInSessions v ((sid, obj) :: rest) tabId
            = resolveCloseInSessions v rest tabId := by
          simp only [resolveCloseInSessions]
          simp only [hh, hpc]
        rcases ih with ⟨h1, h2⟩ | ⟨obj', s', p', h1, h2, h3⟩
        · left
          refine ⟨hres.trans h1, ?_⟩
          intro e he s' hs
          rcases List.mem_cons.1 he with he | he
          · have he2 : e.2 = obj := by rw [he]
            rw [he2, hh] at hs
            injection hs with hs
            subst hs
            exact hpc
          · exact h2 e he s' hs
        · right
          exact ⟨obj', s', p', h1, h2, hres.trans h3⟩
      | some pending =>
        right
        refine ⟨obj, s, pending, hh, hpc, ?_⟩
        simp only [resolveCloseInSessions]
        simp only [hh, hpc]
        rfl

theorem rejectOps_browser (v : World) (obj : Nat) (reason : Reason) :
    (rejectAllSessionPendingOps v obj reason).1.browser = v.browser := by
  cases hs : v.heap[obj]? with
  | none =>
    have hres : rejectAllSessionPendingOps v obj reason = (v, []) := by
      simp only [rejectAllSessionPendingOps, hs]
    rw [hres]
  | some s =>
    have hres : rejectAllSessionPendingOps v obj reason
        = ({ v with
              heap := v.heap.set obj
                { s with
                  pendingCalls := []
                  pendingOpenTabs := []
                  pendingCloseTabs := []
                  pendingConnect := none
                  connectInProgress := false }
              timers := (drainKeys s).foldl (fun acc k => mDel acc k) v.timers },
           s.pendingTokens.map (fun tk => (tk, Outcome.rejected reason))) := by
      simp only [rejectAllSessionPendingOps, hs]
      rw [drainTimers_eq]
      rfl
    rw [hres]

theorem rejectAll_browser (entries : List (Str × Nat)) (v : World) :
    (rejectAllSessions v entries).1.browser = v.browser := by
  induction entries generalizing v with
  | nil => rfl
  | cons e rest ih =>
    obtain ⟨sid, obj⟩ := e
    have hres : rejectAllSessions v ((sid, obj) :: rest)
        = ((rejectAllSessions (rejectAllSessionPendingOps v obj Reason.connectionClosed).1
              rest).1,
           (rejectAllSessionPendingOps v obj Reason.connectionClosed).2
             ++ (rejectAllSessions
                  (rejectAllSessionPendingOps v obj Reason.connectionClosed).1 rest).2) := by
      simp only [rejectAllSessions]
    rw [hres]
    show (rejectAllSessions (rejectAllSessionPendingOps v obj Reason.connectionClosed).1
        rest).1.browser = v.browser
    rw [ih, rejectOps_browser]

/-! ### Claim C2 -/

/-- **C2.** For every session whose id is non-empty — including ids
containing the separator `'_'` such as `"foo_bar"` — and each operation
prefix the program uses (`"call"`, `"open"`, `"discover"`),
`extractSessionIdFromCallId (generateCallId ...)` recovers exactly the
session id: decoding locates the last two separator-delimited segments and
returns everything before them. -/
theorem C2_roundtrip (s : Session) (p : Str) (hid : s.id ≠ [])
    (hp : p = pfxCall ∨ p = pfxOpen ∨ p = pfxDiscover) :
    extractSessionIdFromCallId (generateCallId s p).1 = some s.id := by
  have hup : '_' ∉ p := by
    rcases hp with h | h | h <;> subst h <;> decide
  exact extract_mkCallId s.id p (s.callIdCounter + 1) hid hup

/-- Witness for C2 at the separator-bearing session id `"foo_bar"`. -/
theorem C2_roundtrip_witness :
    (freshSession "foo_bar".toList).id ≠ []
    ∧ extractSessionIdFromCallId
        (generateCallId (freshSession "foo_bar".toList) pfxCall).1
      = some (freshSession "foo_bar".toList).id :=
  ⟨by decide,
   C2_roundtrip (freshSession "foo_bar".toList) pfxCall (by decide) (Or.inl rfl)⟩

/-! ### Claim C3 -/

/-- **C3.** `createSession` for an id already present with a pending
operation silently drops it: after a connected tool call on session `"s"`,
a second `createSession "s"` emits no rejection and installs a record with
all containers empty — the pending call is neither preserved nor drained.
This refutes the required minimum (never silently drop pending operations)
and confirms the latent bug flagged in the spec. -/
theorem C3_createSession_overwrites_pending :
    ((getSession (run initialWorld
        [Event.evSocketOpen, Event.evCallTool ['s'] 1 ['f']]).1 ['s']).map
      (fun e => e.2.pendingCalls.length)) = some 1
    ∧ (step (run initialWorld
        [Event.evSocketOpen, Event.evCallTool ['s'] 1 ['f']]).1
        (Event.evCreateSession ['s'])).2 = []
    ∧ ((getSession (step (run initialWorld
          [Event.evSocketOpen, Event.evCallTool ['s'] 1 ['f']]).1
          (Event.evCreateSession ['s'])).1 ['s']).map
        (fun e => e.2.pendingCalls)) = some []
    ∧ ((getSession (step (run initialWorld
          [Event.evSocketOpen, Event.evCallTool ['s'] 1 ['f']]).1
          (Event.evCreateSession ['s'])).1 ['s']).map
        (fun e => e.2.pendingOpenTabs)) = some []
    ∧ ((getSession (step (run initialWorld
          [Event.evSocketOpen, Event.evCallTool ['s'] 1 ['f']]).1
          (Event.evCreateSession ['s'])).1 ['s']).map
        (fun e => e.2.pendingCloseTabs)) = some []
    ∧ ((getSession (step (run initialWorld
          [Event.evSocketOpen, Event.evCallTool ['s'] 1 ['f']]).1
          (Event.evCreateSession ['s'])).1 ['s']).map
        (fun e => e.2.pendingConnect)) = some none := by
  refine ⟨by decide, by decide, by decide, by decide, by decide, by decide⟩

/-! ### Claim C9 -/

/-- **C9.** Whenever the shared browser state's connected flag transitions
to false — by `setConnected false` directly, by the inbound `disconnected`
message, or by the transport `close` handler — the tabs map is cleared in
the same step, leaving `connected = false` and no tabs. -/
theorem C9_disconnect_clears_tabs (st : BrowserState) (binfo : Option BrowserInfo)
    (w : World) (sid : Option Str) :
    (setConnected st false binfo).connected = false
    ∧ (setConnected st false binfo).tabs = []
    ∧ (handleExtensionMessage w (ExtensionMessage.disconnected sid)).1.browser.connected
        = false
    ∧ (handleExtensionMessage w (ExtensionMessage.disconnected sid)).1.browser.tabs = []
    ∧ (handleSocketClose w).1.browser.connected = false
    ∧ (handleSocketClose w).1.browser.tabs = [] := by
  refine ⟨rfl, rfl, rfl, rfl, ?_, ?_⟩
  · have h := rejectAll_browser w.table
      { w with socketConnected := false, browser := setConnected w.browser false none }
    have hunfold : (handleSocketClose w).1.browser
        = (rejectAllSessions
            { w with socketConnected := false, browser := setConnected w.browser false none }
            w.table).1.browser := rfl
    rw [hunfold, h]
    rfl
  · have h := rejectAll_browser w.table
      { w with socketConnected := false, browser := setConnected w.browser false none }
    have hunfold : (handleSocketClose w).1.browser
        = (rejectAllSessions
            { w with socketConnected := false, browser := setConnected w.browser false none }
            w.table).1.browser := rfl
    rw [hunfold, h]
    rfl

/-! ### Claim C10 -/

/-- **C10.** `extractSessionIdFromCallId` is total: it returns `some id`
only for a non-empty session id, it returns `none` for every string with
fewer than two separator characters, and it returns `none` for a token
whose second-to-last separator sits at position 0 (empty session id), such
as `"_call_1"`. -/
theorem C10_extract_total :
    (∀ cid id, extractSessionIdFromCallId cid = some id → id ≠ [])
    ∧ (∀ cid : Str, cid.count '_' < 2 → extractSessionIdFromCallId cid = none)
    ∧ extractSessionIdFromCallId "_call_1".toList = none :=
  ⟨extract_ne_some_nil, extract_eq_none_of_count_lt, by decide⟩

/-- Witness for C10's fewer-than-two-separators case. -/
theorem C10_extract_total_witness :
    ("x_1".toList : Str).count '_' < 2
    ∧ extractSessionIdFromCallId "x_1".toList = none :=
  ⟨by decide, C10_extract_total.2.1 "x_1".toList (by decide)⟩

/-! ### Claim C4 -/

/-- Counterexample to C4 as stated: a tool call completed by a correlating
`toolResult` reply leaves its 30s timer armed — the source stores no
timeout handle in the pending-call entry and never clears it on
resolution, so a completed operation does leave a live timer behind. -/
theorem C4_counterexample :
    ((run initialWorld
        [Event.evSocketOpen, Event.evCallTool ['s'] 1 ['f'],
         Event.evMessage
           (ExtensionMessage.toolResult none "s_call_1".toList none)]).2.map
      Prod.fst) = [0]
    ∧ (run initialWorld
        [Event.evSocketOpen, Event.evCallTool ['s'] 1 ['f'],
         Event.evMessage
           (ExtensionMessage.toolResult none "s_call_1".toList none)]).1.timers.length
      = 1 := by
  refine ⟨by decide, by decide⟩

/-- **C4** (amended). In every reachable world, the open-tab, close-tab
and connect operations never leave a live timer behind: every armed timer
of those kinds corresponds to a still-pending entry storing exactly that
handle (so completion always cancelled it).  Tool-call timers may outlive
the entry, but firing such an orphaned timer completes nothing: its closure
re-checks membership first. -/
theorem C4_timer_hygiene (es : List Event) :
    (∀ tid obj rid tok,
        (tid, TimerKind.openTabTimeout obj rid tok) ∈ (run initialWorld es).1.timers →
        ∃ s, (run initialWorld es).1.heap[obj]? = some s
          ∧ mGet s.pendingOpenTabs rid = some { token := tok, timeout := tid })
    ∧ (∀ tid obj tabId tok,
        (tid, TimerKind.closeTabTimeout obj tabId tok) ∈ (run initialWorld es).1.timers →
        ∃ s, (run initialWorld es).1.heap[obj]? = some s
          ∧ mGet s.pendingCloseTabs tabId = some { token := tok, timeout := tid })
    ∧ (∀ tid obj tok,
        (tid, TimerKind.connectTimeout obj tok) ∈ (run initialWorld es).1.timers →
        ∃ s, (run initialWorld es).1.heap[obj]? = some s
          ∧ s.pendingConnect = some { token := tok, timeout := tid })
    ∧ (∀ tid obj cid tok,
        mGet (run initialWorld es).1.timers tid
          = some (TimerKind.callTimeout obj cid tok) →
        (∀ s : Session, (run initialWorld es).1.heap[obj]? = some s →
          mGet s.pendingCalls cid = none) →
        (fireTimer (run initialWorld es).1 tid).2 = []) := by
  have h := run_ok es initialWorld inv_initialWorld
  refine ⟨h.1.timerOpen, h.1.timerClose, h.1.timerConn, ?_⟩
  intro tid obj cid tok hmt hnone
  exact fire_call_orphan_noop _ tid obj cid tok hmt hnone

/-- Witness for C4 (amended): one registered open-tab operation has its
armed timer matched by its stored handle. -/
theorem C4_timer_hygiene_witness :
    (0, TimerKind.openTabTimeout 0 "s_open_1".toList 0)
      ∈ (run initialWorld [Event.evSocketOpen, Event.evOpenTab ['s'] ['u']]).1.timers
    ∧ ∃ s, (run initialWorld
        [Event.evSocketOpen, Event.evOpenTab ['s'] ['u']]).1.heap[0]? = some s
        ∧ mGet s.pendingOpenTabs "s_open_1".toList = some { token := 0, timeout := 0 } :=
  ⟨by decide,
   (C4_timer_hygiene [Event.evSocketOpen, Event.evOpenTab ['s'] ['u']]).1
     0 0 "s_open_1".toList 0 (by decide)⟩

/-! ### Claim C5 -/

/-- Counterexample to C5 as stated: a `toolsDiscovered` message for an
existing tab whose `callId` matches no pending call leaves the tab's tool
list untouched — the source performs the tool-list update only inside the
`if (pending)` block, so it is not unconditional. -/
theorem C5_counterexample :
    mGet (run initialWorld
        [Event.evSocketOpen,
         Event.evMessage (ExtensionMessage.tabCreated none
           { id := 1, title := [], url := [], tools := [] } none),
         Event.evMessage (ExtensionMessage.toolsDiscovered none
           "x_call_1".toList 1
           [{ name := ['t'], description := [], inputSchema := [] }])]).1.browser.tabs 1
      = some { id := 1, title := [], url := [], tools := [] }
    ∧ (run initialWorld
        [Event.evSocketOpen,
         Event.evMessage (ExtensionMessage.tabCreated none
           { id := 1, title := [], url := [], tools := [] } none),
         Event.evMessage (ExtensionMessage.toolsDiscovered none
           "x_call_1".toList 1
           [{ name := ['t'], description := [], inputSchema := [] }])]).2 = [] := by
  refine ⟨by decide, by decide⟩

/-- **C5** (amended). Handling `toolsDiscovered` updates the tab's tool
list only when a pending call correlates with the message's `callId`: with
no session or no pending entry the world is returned unchanged (no update,
no completion); with a correlating entry the tab's tools are updated, the
entry removed, and the call resolved. -/
theorem C5_discovered_conditional (w : World) (sid : Option Str) (cid : Str)
    (tabId : Nat) (tools : List Tool) :
    (getSession w ((extractSessionIdFromCallId cid).getD
        (resolveSessionId (ExtensionMessage.toolsDiscovered sid cid tabId tools))) = none →
      handleExtensionMessage w (ExtensionMessage.toolsDiscovered sid cid tabId tools)
        = (w, []))
    ∧ (∀ obj s, getSession w ((extractSessionIdFromCallId cid).getD
          (resolveSessionId (ExtensionMessage.toolsDiscovered sid cid tabId tools)))
          = some (obj, s) →
        mGet s.pendingCalls cid = none →
        handleExtensionMessage w (ExtensionMessage.toolsDiscovered sid cid tabId tools)
          = (w, []))
    ∧ (∀ obj s pending, getSession w ((extractSessionIdFromCallId cid).getD
          (resolveSessionId (ExtensionMessage.toolsDiscovered sid cid tabId tools)))
          = some (obj, s) →
        mGet s.pendingCalls cid = some pending →
        handleExtensionMessage w (ExtensionMessage.toolsDiscovered sid cid tabId tools)
          = ({ w with
                heap := w.heap.set obj
                  { s with pendingCalls := mDel s.pendingCalls cid }
                browser := updateTabTools w.browser tabId tools },
             [(pending.token, Outcome.resolved)])) := by
  refine ⟨?_, ?_, ?_⟩
  · intro hgs
    simp only [handleExtensionMessage]
    simp only [hgs]
  · intro obj s hgs hpc
    simp only [handleExtensionMessage]
    simp only [hgs, hpc]
  · intro obj s pending hgs hpc
    simp only [handleExtensionMessage]
    simp only [hgs, hpc]
    rfl

/-- Witness for C5 (amended): with an existing tab but no pending call the
handler leaves the world unchanged. -/
theorem C5_discovered_conditional_witness :
    getSession (run initialWorld
        [Event.evSocketOpen,
         Event.evMessage (ExtensionMessage.tabCreated none
           { id := 1, title := [], url := [], tools := [] } none)]).1
      ((extractSessionIdFromCallId "x_call_1".toList).getD
        (resolveSessionId (ExtensionMessage.toolsDiscovered none "x_call_1".toList 1
          [{ name := ['t'], description := [], inputSchema := [] }]))) = none
    ∧ handleExtensionMessage (run initialWorld
        [Event.evSocketOpen,
         Event.evMessage (ExtensionMessage.tabCreated none
           { id := 1, title := [], url := [], tools := [] } none)]).1
        (ExtensionMessage.toolsDiscovered none "x_call_1".toList 1
          [{ name := ['t'], description := [], inputSchema := [] }])
      = ((run initialWorld
          [Event.evSocketOpen,
           Event.evMessage (ExtensionMessage.tabCreated none
             { id := 1, title := [], url := [], tools := [] } none)]).1, []) :=
  ⟨by decide,
   (C5_discovered_conditional (run initialWorld
        [Event.evSocketOpen,
         Event.evMessage (ExtensionMessage.tabCreated none
           { id := 1, title := [], url := [], tools := [] } none)]).1
      none "x_call_1".toList 1
      [{ name := ['t'], description := [], inputSchema := [] }]).1 (by decide)⟩

/-! ### Claim C6 -/

/-- **C6.** A second `closeTab` for a tab id already pending close in the
same session is rejected immediately with "Already closing tab", leaving
the world — in particular the earlier pending entry — untouched (only the
token counter advances); any `closeTab` in a session without a pending
entry for its tab id (a different tab, or a different session) proceeds to
register normally: the mutex is per (session, tabId). -/
theorem C6_close_mutex (w : World) (hsc : w.socketConnected = true)
    (sid : Str) (tabId : Nat) (obj : Nat) (s : Session)
    (pending : PendingCloseTabOperation)
    (hgs : getSession w sid = some (obj, s))
    (hpend : mGet s.pendingCloseTabs tabId = some pending) :
    closeTab w sid tabId
      = ({ w with nextToken := w.nextToken + 1 },
         [(w.nextToken, Outcome.rejected (Reason.alreadyClosing tabId))])
    ∧ ∀ (sid' : Str) (tabId' : Nat) (obj' : Nat) (s' : Session),
        getSession w sid' = some (obj', s') →
        mGet s'.pendingCloseTabs tabId' = none →
        closeTab w sid' tabId'
          = ({ w with
                nextToken := w.nextToken + 1
                heap := w.heap.set obj'
                  { s' with pendingCloseTabs := mSet s'.pendingCloseTabs tabId' { token := w.nextToken, timeout := w.nextTimer } }
                timers := w.timers
                  ++ [(w.nextTimer, TimerKind.closeTabTimeout obj' tabId' w.nextToken)]
                nextTimer := w.nextTimer + 1 }, []) := by
  have hcond : ¬(({ w with nextToken := w.nextToken + 1 } : World).socketConnected
      = false) := by
    intro hc
    have hc' : w.socketConnected = false := hc
    rw [hsc] at hc'
    exact absurd hc' (by simp)
  constructor
  · obtain ⟨hmt, hs⟩ := getSession_some w sid obj s hgs
    have hmt' : mGet ({ w with nextToken := w.nextToken + 1 } : World).table sid
        = some obj := hmt
    have hs' : ({ w with nextToken := w.nextToken + 1 } : World).heap[obj]?
        = some s := hs
    simp only [closeTab]
    rw [if_neg hcond]
    simp only [getOrCreateSession, hmt']
    simp only [hs', hpend]
    rfl
  · intro sid' tabId' obj' s' hgs' hpend'
    obtain ⟨hmt, hs⟩ := getSession_some w sid' obj' s' hgs'
    have hmt' : mGet ({ w with nextToken := w.nextToken + 1 } : World).table sid'
        = some obj' := hmt
    have hs' : ({ w with nextToken := w.nextToken + 1 } : World).heap[obj']?
        = some s' := hs
    simp only [closeTab]
    rw [if_neg hcond]
    simp only [getOrCreateSession, hmt']
    simp only [hs', hpend']
    rfl

/-! ### Claim C7 -/

/-- **C7.** When the transport is not connected, each public operation
fails synchronously with the not-connected error before touching any
pending container: the four tab/tool operations return the world with only
the token counter advanced, and `connectToExtension` (whose
`connectInProgress` guard runs first but, by the quiescence invariant,
never fires on a closed socket) rejects without arming a timer, without
filling the connect slot, and without disturbing any existing session. -/
theorem C7_not_connected (w : World) (hInv : WInv w)
    (hsc : w.socketConnected = false) (sid url toolName : Str) (tabId : Nat) :
    openTab w sid url
      = ({ w with nextToken := w.nextToken + 1 },
         [(w.nextToken, Outcome.rejected Reason.notConnected)])
    ∧ closeTab w sid tabId
      = ({ w with nextToken := w.nextToken + 1 },
         [(w.nextToken, Outcome.rejected Reason.notConnected)])
    ∧ callPageTool w sid tabId toolName
      = ({ w with nextToken := w.nextToken + 1 },
         [(w.nextToken, Outcome.rejected Reason.notConnected)])
    ∧ discoverToolsForTab w sid tabId
      = ({ w with nextToken := w.nextToken + 1 },
         [(w.nextToken, Outcome.rejected Reason.notConnected)])
    ∧ (connectToExtension w sid).2
        = [(w.nextToken, Outcome.rejected Reason.notConnected)]
    ∧ (connectToExtension w sid).1.pendingTokens = w.pendingTokens
    ∧ (connectToExtension w sid).1.timers = w.timers
    ∧ (∀ (obj : Nat) (s : Session), w.heap[obj]? = some s →
        (connectToExtension w sid).1.heap[obj]? = some s) := by
  have hsc' : ({ w with nextToken := w.nextToken + 1 } : World).socketConnected
      = false := hsc
  refine ⟨?_, ?_, ?_, ?_, ?_⟩
  · simp only [openTab]
    rw [if_pos hsc']
  · simp only [closeTab]
    rw [if_pos hsc']
  · simp only [callPageTool]
    rw [if_pos hsc']
  · simp only [discoverToolsForTab]
    rw [if_pos hsc']
  · cases hmt : mGet w.table sid with
    | some obj =>
      have hmem : (sid, obj) ∈ w.table := mGet_mem _ _ _ hmt
      have hlt : obj < w.heap.length := hInv.tableObj (sid, obj) hmem
      obtain ⟨s, hso⟩ := getElem?_is_some_of_lt w.heap obj hlt
      have hflag : s.connectInProgress = false :=
        hInv.quietWhenClosed hsc (sid, obj) hmem s hso
      have hres : connectToExtension w sid
          = ({ w with nextToken := w.nextToken + 1 },
             [(w.nextToken, Outcome.rejected Reason.notConnected)]) := by
        simp only [connectToExtension, getOrCreateSession]
        simp only [hmt]
        have hso' : ({ w with nextToken := w.nextToken + 1 } : World).heap[obj]?
            = some s := hso
        simp only [hso']
        rw [hflag]
        simp only [Bool.false_eq_true, if_false, if_neg, not_false_iff]
        rw [if_pos hsc']
      rw [hres]
      refine ⟨rfl, rfl, rfl, ?_⟩
      intro obj' s' hs'
      exact hs'
    | none =>
      have hfresh : ((createSession w sid).1.heap)[w.heap.length]?
          = some (freshSession sid) := by
        rw [createSession_eq]
        exact getElem?_append_last w.heap (freshSession sid)
      have hres : connectToExtension w sid
          = ({ (createSession w sid).1 with nextToken := w.nextToken + 1 },
             [(w.nextToken, Outcome.rejected Reason.notConnected)]) := by
        simp only [connectToExtension, getOrCreateSession]
        simp only [hmt]
        have hfresh' : ({ (createSession w sid).1 with
            nextToken := w.nextToken + 1 } : World).heap[(createSession w sid).2]?
            = some (freshSession sid) := hfresh
        simp only [hfresh']
        simp only [freshSession, Bool.false_eq_true, if_false, if_neg, not_false_iff]
        have hsc'' : (createSession w sid).1.socketConnected = false := hsc
        rw [if_pos hsc'']
        rfl
      rw [hres]
      refine ⟨rfl, ?_, rfl, ?_⟩
      · exact createSession_pendingTokens w sid
      · intro obj' s' hs'
        have hlt := getElem?_some_lt _ _ _ hs'
        show ((createSession w sid).1.heap)[obj']? = some s'
        rw [createSession_eq]
        show (w.heap ++ [freshSession sid])[obj']? = some s'
        rw [getElem?_append_lt _ _ _ hlt]
        exact hs'

/-- Witness for C7 in the initial (disconnected) world. -/
theorem C7_not_connected_witness :
    initialWorld.socketConnected = false
    ∧ openTab initialWorld ['s'] ['u']
      = ({ initialWorld with nextToken := initialWorld.nextToken + 1 },
         [(initialWorld.nextToken, Outcome.rejected Reason.notConnected)]) :=
  ⟨rfl,
   (C7_not_connected initialWorld inv_initialWorld rfl ['s'] ['u'] ['f'] 1).1⟩

/-! ### Claim C8 -/

/-- **C8.** Handling `tabClosed` removes the tab from the shared browser
state; if no session holds a pending close for the tab id the world is
otherwise unchanged, and otherwise exactly one pending close — found by
searching all sessions in table order — is resolved and removed, every
other session being left untouched. -/
theorem C8_tabClosed (w : World) (sid : Option Str) (tabId : Nat) :
    (handleExtensionMessage w (ExtensionMessage.tabClosed sid tabId)).1.browser
      = removeTab w.browser tabId
    ∧ ((handleExtensionMessage w (ExtensionMessage.tabClosed sid tabId)
          = ({ w with browser := removeTab w.browser tabId }, [])
        ∧ ∀ e ∈ w.table, ∀ s : Session, w.heap[e.2]? = some s →
            mGet s.pendingCloseTabs tabId = none)
      ∨ (∃ obj s pending, w.heap[obj]? = some s
          ∧ mGet s.pendingCloseTabs tabId = some pending
          ∧ handleExtensionMessage w (ExtensionMessage.tabClosed sid tabId)
            = ({ w with
                  browser := removeTab w.browser tabId
                  heap := w.heap.set obj
                    { s with pendingCloseTabs := mDel s.pendingCloseTabs tabId }
                  timers := mDel w.timers pending.timeout },
               [(pending.token, Outcome.resolved)])
          ∧ ∀ obj' : Nat, obj' ≠ obj →
              (handleExtensionMessage w (ExtensionMessage.tabClosed sid tabId)).1.heap[obj']?
                = w.heap[obj']?)) := by
  have hunfold : handleExtensionMessage w (ExtensionMessage.tabClosed sid tabId)
      = resolveCloseInSessions { w with browser := removeTab w.browser tabId }
          w.table tabId := by
    simp only [handleExtensionMessage]
  have h := resolveClose_cases tabId w.table
    { w with browser := removeTab w.browser tabId }
  rcases h with ⟨h1, h2⟩ | ⟨obj, s, pending, h1, h2, h3⟩
  · constructor
    · rw [hunfold, h1]
    · left
      refine ⟨hunfold.trans h1, ?_⟩
      intro e he s hs
      have hs' : ({ w with browser := removeTab w.browser tabId } : World).heap[e.2]?
          = some s := hs
      exact h2 e he s hs'
  · have h1' : w.heap[obj]? = some s := h1
    constructor
    · rw [hunfold, h3]
    · right
      refine ⟨obj, s, pending, h1', h2, hunfold.trans h3, ?_⟩
      intro obj' hne
      rw [hunfold, h3]
      show (w.heap.set obj
          { s with pendingCloseTabs := mDel s.pendingCloseTabs tabId })[obj']?
        = w.heap[obj']?
      exact getElem?_set_ne _ _ _ _ hne

/-- Witness for C6: after registering one close for tab 5 in session `"s"`,
a duplicate close of tab 5 in `"s"` is rejected with AlreadyClosing and the
world is untouched apart from the token counter. -/
theorem C6_close_mutex_witness :
    (run initialWorld [Event.evSocketOpen, Event.evCloseTab ['s'] 5]).1.socketConnected
      = true
    ∧ getSession (run initialWorld [Event.evSocketOpen, Event.evCloseTab ['s'] 5]).1 ['s']
        = some (0, { id := ['s'], callIdCounter := 0, pendingCalls := [], pendingOpenTabs := [], pendingCloseTabs := [(5, { token := 0, timeout := 0 })], pendingConnect := none, connectInProgress := false })
    ∧ closeTab (run initialWorld [Event.evSocketOpen, Event.evCloseTab ['s'] 5]).1 ['s'] 5
        = ({ (run initialWorld [Event.evSocketOpen, Event.evCloseTab ['s'] 5]).1 with
              nextToken := (run initialWorld [Event.evSocketOpen, Event.evCloseTab ['s'] 5]).1.nextToken + 1 },
           [((run initialWorld [Event.evSocketOpen, Event.evCloseTab ['s'] 5]).1.nextToken,
             Outcome.rejected (Reason.alreadyClosing 5))]) :=
  ⟨by decide, by decide,
   (C6_close_mutex (run initialWorld [Event.evSocketOpen, Event.evCloseTab ['s'] 5]).1
      (by decide) ['s'] 5 0
      { id := ['s'], callIdCounter := 0, pendingCalls := [], pendingOpenTabs := [], pendingCloseTabs := [(5, { token := 0, timeout := 0 })], pendingConnect := none, connectInProgress := false }
      { token := 0, timeout := 0 } (by decide) (by decide)).1⟩
